import Mathlib

/-!
# Waveboot: radio modem and flash-programming engine

A shallow embedding of `src/radio.cpp`, `src/program.cpp` and `src/waveboot.cpp`.

Conventions of the embedding:

* machine integers are natural numbers, reduced with an explicit `%` wherever the C type
  truncates (`uint8_t`: `% 256`, `uint16_t`: `% 65536`, `uint32_t`: `% 4294967296`);
* a C array (or the memory a pointer points into) is a map from index to byte, `Bytes`;
  an assignment `a[i] = v` is `store a i v`;
* every function that mutates `*this` takes the object and returns the new one;
* the target is the ATmega328P (`FLASHEND = 0x7FFF`, `SPM_PAGESIZE = 128`), where `int` has
  16 bits.
-/

namespace Waveboot

/-! ## Memory -/

/-- A byte array in memory: index to value. -/
abbrev Bytes := Nat → Nat

/-- The assignment `m[i] = v`. -/
def store (m : Bytes) (i v : Nat) : Bytes :=
  fun j => if j = i then v else m j

/-- The first `n` cells of an array, as a list. -/
def Bytes.toList (m : Bytes) (n : Nat) : List Nat :=
  (List.range n).map m

/-! ## radio.h -/

def RADIO_MAX_PAYLOAD_LEN : Nat := 67
def RADIO_HEADER_LEN : Nat := 4
def RADIO_MAX_MESSAGE_LEN : Nat := RADIO_MAX_PAYLOAD_LEN - RADIO_HEADER_LEN - 3
def RADIO_START_SYMBOL : Nat := 0xB38
def PREAMBLE_LEN : Nat := 8
def MAX_PAYLOAD_LEN : Nat := 67
def DEFAULT_ADDRESS : Nat := 0xFF
def RADIO_RX_SAMPLES_PER_BIT : Nat := 8
def RADIO_RX_RAMP_LEN : Nat := 160
def RADIO_RAMP_TRANSITION : Nat := RADIO_RX_RAMP_LEN / 2
def RADIO_RAMP_ADJUST : Nat := 9
def RADIO_RAMP_INC : Nat := RADIO_RX_RAMP_LEN / RADIO_RX_SAMPLES_PER_BIT
def RADIO_RAMP_INC_RETARD : Nat := RADIO_RAMP_INC - RADIO_RAMP_ADJUST
def RADIO_RAMP_INC_ADVANCE : Nat := RADIO_RAMP_INC + RADIO_RAMP_ADJUST

inductive RadioMode where
  | Idle
  | Tx
  | Rx
  deriving DecidableEq, Repr

/-- The members of `class Radio`.  `tx_pin` is the output bit `RADIO_TX_PIN` of `RADIO_PORT`;
`rx_active` (a `uint8_t` only ever assigned `true` or `false`) is kept as its truth value. -/
structure Radio where
  mode : RadioMode
  address : Nat
  tx_header_to : Nat
  tx_header_from : Nat
  tx_header_id : Nat
  tx_header_flags : Nat
  tx_index : Nat
  tx_bit : Nat
  tx_sample : Nat
  tx_buffer_len : Nat
  tx_buffer : Bytes
  tx_pin : Bool
  rx_header_to : Nat
  rx_header_from : Nat
  rx_header_id : Nat
  rx_header_flags : Nat
  rx_last_sample : Nat
  rx_integrator : Nat
  rx_active : Bool
  rx_bits : Nat
  rx_bit_count : Nat
  rx_pll_ramp : Nat
  rx_buffer_full : Bool
  rx_buffer_valid : Bool
  rx_count : Nat
  rx_buffer_len : Nat
  rx_buffer : Bytes

/-! ## radio.cpp: tables -/

def preamble : List Nat := [0x2A, 0x2A, 0x2A, 0x2A, 0x2A, 0x2A, 0x38, 0x2C]

def symbols : List Nat :=
  [0x0d, 0x0e, 0x13, 0x15, 0x16, 0x19, 0x1a, 0x1c,
   0x23, 0x25, 0x26, 0x29, 0x2a, 0x2c, 0x32, 0x34]

/-- The table read `pgm_read_byte(&symbols[i])`. -/
def SYMBOL (i : Nat) : Nat := symbols.getD i 0

/-! ## radio.cpp: CRC and symbol decoding -/

/-- The function `Radio::updateCRC`.  `data` is a `uint8_t`, so both assignments to it
truncate to 8 bits; the result is a `uint16_t`. -/
def updateCRC (crc data : Nat) : Nat :=
  let data := (data ^^^ (crc &&& 0xFF)) % 256
  let data := (data ^^^ (data <<< 4)) % 256
  ((((data <<< 8) % 65536) ||| (crc >>> 8)) ^^^ ((data >>> 4) % 256) ^^^
    ((data <<< 3) % 65536)) % 65536

/-- The loop of `Radio::convert_to_4bit_symbols`: `count` iterations are left and the
candidate index is `i`. -/
def convert_loop (symbol : Nat) : Nat → Nat → Nat
  | 0, _ => 0
  | count + 1, i => if symbol = SYMBOL i then i else convert_loop symbol count (i + 1)

/-- The function `Radio::convert_to_4bit_symbols`. -/
def convert_to_4bit_symbols (symbol : Nat) : Nat :=
  convert_loop symbol 8 ((symbol >>> 2) &&& 8)

/-- The running CRC over a byte sequence, as the loops of `send` and `validate_rx_buffer`
compute it. -/
def crc_of (crc : Nat) (bs : List Nat) : Nat :=
  bs.foldl updateCRC crc

/-- The 16-bit complement `crc = ~crc` of a `uint16_t`. -/
def not16 (crc : Nat) : Nat := (crc ^^^ 0xFFFF) % 65536

/-! ## radio.cpp: modes -/

/-- The function `Radio::set_mode_idle`. -/
def set_mode_idle (r : Radio) : Radio :=
  if r.mode = RadioMode.Idle then r
  else { r with tx_pin := false, mode := RadioMode.Idle }

/-- The function `Radio::set_mode_rx`. -/
def set_mode_rx (r : Radio) : Radio :=
  if r.mode = RadioMode.Rx then r
  else { r with tx_pin := false, mode := RadioMode.Rx }

/-- The function `Radio::set_mode_tx`. -/
def set_mode_tx (r : Radio) : Radio :=
  if r.mode = RadioMode.Tx then r
  else { r with tx_index := 0, tx_bit := 0, tx_sample := 0, mode := RadioMode.Tx }

/-! ## radio.cpp: transmit path -/

/-- The function `Radio::transmit_timer`, one bit-clock tick in mode `Tx`. -/
def transmit_timer (r : Radio) : Radio :=
  let sample := r.tx_sample
  let r := { r with tx_sample := (sample + 1) % 256 }
  let r :=
    if sample = 0 then
      if r.tx_index ≥ r.tx_buffer_len then set_mode_idle r
      else
        let bit := r.tx_bit
        let r := { r with
          tx_bit := (bit + 1) % 256
          tx_pin := decide ((r.tx_buffer r.tx_index &&& ((1 <<< bit) % 65536)) ≠ 0) }
        if r.tx_bit ≥ 6 then { r with tx_bit := 0, tx_index := (r.tx_index + 1) % 256 }
        else r
    else r
  if r.tx_sample > 7 then { r with tx_sample := 0 } else r

/-- The busy loop `while (mode == Tx);` of `Radio::wait_packet_send`: the bit-clock interrupt
runs `transmit_timer` until the mode leaves `Tx`; `fuel` bounds the number of ticks. -/
def wait_ticks : Nat → Radio → Radio
  | 0, r => r
  | fuel + 1, r => if r.mode = RadioMode.Tx then wait_ticks fuel (transmit_timer r) else r

/-- The function `Radio::wait_packet_send`.  A transmission of at most 255 symbols of 6 bits,
8 ticks per bit, ends within `8 + 48 * 256` ticks. -/
def wait_packet_send (r : Radio) : Radio :=
  wait_ticks (8 + 48 * 256) r

/-- The two assignments `message[index++] = SYMBOL(b >> 4); message[index++] = SYMBOL(b & 0x0F);`
where `message = tx_buffer + PREAMBLE_LEN`. -/
def put_symbols (tx_buffer : Bytes) (index b : Nat) : Bytes :=
  store (store tx_buffer (PREAMBLE_LEN + index) (SYMBOL (b >>> 4)))
    (PREAMBLE_LEN + (index + 1)) (SYMBOL (b &&& 0x0F))

/-- The locals `crc`, `index` of `Radio::send` together with the buffer being filled. -/
structure TxEnc where
  crc : Nat
  index : Nat
  tx_buffer : Bytes

/-- The three statements `send` repeats for the count, each header and each data byte:
`crc = updateCRC(crc, b); message[index++] = SYMBOL(b >> 4); message[index++] = SYMBOL(b & 0x0F);` -/
def encode_byte (s : TxEnc) (b : Nat) : TxEnc :=
  { crc := updateCRC s.crc b
    index := s.index + 2
    tx_buffer := put_symbols s.tx_buffer s.index b }

/-- The function `Radio::send`; `data` is the memory the pointer refers to. -/
def send (r : Radio) (data : Bytes) (len : Nat) : Bool × Radio :=
  if len > RADIO_MAX_MESSAGE_LEN then (false, r)
  else
    let r := wait_packet_send r
    let count := (len + 3 + RADIO_HEADER_LEN) % 256
    let s : TxEnc := { crc := 0xFFFF, index := 0, tx_buffer := r.tx_buffer }
    let s := encode_byte s count
    let s := encode_byte s r.tx_header_to
    let s := encode_byte s r.tx_header_from
    let s := encode_byte s r.tx_header_id
    let s := encode_byte s r.tx_header_flags
    let s := (List.range len).foldl (fun s i => encode_byte s (data i)) s
    let crc := not16 s.crc
    let buf := s.tx_buffer
    let index := s.index
    let buf := store buf (PREAMBLE_LEN + index) (SYMBOL ((crc >>> 4) &&& 0x0F))
    let buf := store buf (PREAMBLE_LEN + (index + 1)) (SYMBOL (crc &&& 0x0F))
    let buf := store buf (PREAMBLE_LEN + (index + 2)) (SYMBOL ((crc >>> 12) &&& 0x0F))
    let buf := store buf (PREAMBLE_LEN + (index + 3)) (SYMBOL ((crc >>> 8) &&& 0x0F))
    let index := index + 4
    let r := { r with tx_buffer := buf, tx_buffer_len := (index + PREAMBLE_LEN) % 256 }
    (true, set_mode_tx r)

/-! ## radio.cpp: receive path -/

/-- The function `Radio::validate_rx_buffer`. -/
def validate_rx_buffer (r : Radio) : Radio :=
  let crc := (List.range r.rx_buffer_len).foldl (fun crc i => updateCRC crc (r.rx_buffer i)) 0xFFFF
  if crc ≠ 0xF0B8 then { r with rx_buffer_valid := false }
  else
    let r := { r with
      rx_header_to := r.rx_buffer 1
      rx_header_from := r.rx_buffer 2
      rx_header_id := r.rx_buffer 3
      rx_header_flags := r.rx_buffer 4 }
    if r.rx_header_to = r.address ∨ r.rx_header_to = DEFAULT_ADDRESS then
      { r with rx_buffer_valid := true }
    else r

/-- The frame assembly inside `if (++this->rx_bit_count >= 12) { ... }` of
`Radio::receive_timer`, from the test `rx_buffer_len == 0` on; `current_byte` is the byte
decoded from the two symbols in `rx_bits`. -/
def receive_byte (r : Radio) (current_byte : Nat) : Radio :=
  let first := decide (r.rx_buffer_len = 0)
  let r := if first then { r with rx_count := current_byte } else r
  if first ∧ (r.rx_count < 7 ∨ r.rx_count > RADIO_MAX_PAYLOAD_LEN) then
    { r with rx_active := false }
  else
    let r := { r with
      rx_buffer := store r.rx_buffer r.rx_buffer_len current_byte
      rx_buffer_len := (r.rx_buffer_len + 1) % 256 }
    let r :=
      if r.rx_buffer_len ≥ r.rx_count then
        set_mode_idle { r with rx_active := false, rx_buffer_full := true }
      else r
    { r with rx_bit_count := 0 }

/-- The byte that `Radio::receive_timer` decodes from the 12-bit window `rx_bits`:
`(convert_to_4bit_symbols(rx_bits & 0x3F)) << 4 | convert_to_4bit_symbols(rx_bits >> 6)`,
the argument of the second call and the result being `uint8_t`. -/
def decode_window (rx_bits : Nat) : Nat :=
  ((convert_to_4bit_symbols (rx_bits &&& 0x3F) <<< 4) |||
    convert_to_4bit_symbols ((rx_bits >>> 6) % 256)) % 256

/-- The body of `if (this->rx_active) { ... }` in `Radio::receive_timer`, run after a bit has
been shifted into `rx_bits`. -/
def receive_timer_active (r : Radio) : Radio :=
  let r := { r with rx_bit_count := (r.rx_bit_count + 1) % 256 }
  if r.rx_bit_count ≥ 12 then receive_byte r (decode_window r.rx_bits)
  else r

/-- The part of `Radio::receive_timer` after a bit has been resolved and shifted in: the
active-frame branch, or the search for the start symbol. -/
def receive_timer_frame (r : Radio) : Radio :=
  if r.rx_active then receive_timer_active r
  else if r.rx_bits = RADIO_START_SYMBOL then
    { r with rx_active := true, rx_bit_count := 0, rx_buffer_len := 0 }
  else r

/-- The function `Radio::receive_timer`, one bit-clock tick in mode `Rx`; `rx_sample` is the
level read from the input pin. -/
def receive_timer (r : Radio) (rx_sample : Bool) : Radio :=
  let sample := if rx_sample then 1 else 0
  let r := if rx_sample then { r with rx_integrator := (r.rx_integrator + 1) % 256 } else r
  let r :=
    if sample ≠ r.rx_last_sample then
      { r with
        rx_pll_ramp := (r.rx_pll_ramp +
          (if r.rx_pll_ramp < RADIO_RAMP_TRANSITION then RADIO_RAMP_INC_RETARD
           else RADIO_RAMP_INC_ADVANCE)) % 256
        rx_last_sample := sample }
    else { r with rx_pll_ramp := (r.rx_pll_ramp + RADIO_RAMP_INC) % 256 }
  if r.rx_pll_ramp < RADIO_RX_RAMP_LEN then r
  else
    let bits := r.rx_bits >>> 1
    let bits := if r.rx_integrator ≥ 5 then bits ||| 0x800 else bits
    receive_timer_frame { r with
      rx_bits := bits
      rx_pll_ramp := r.rx_pll_ramp - RADIO_RX_RAMP_LEN
      rx_integrator := 0 }

/-- The function `Radio::handle_timer_interrupt`. -/
def handle_timer_interrupt (r : Radio) (rx_sample : Bool) : Radio :=
  match r.mode with
  | RadioMode.Rx => receive_timer r rx_sample
  | RadioMode.Tx => transmit_timer r
  | RadioMode.Idle => r

/-- The function `Radio::available`. -/
def available (r : Radio) : Bool × Radio :=
  if r.mode = RadioMode.Tx then (false, r)
  else
    let r := set_mode_rx r
    let r := if r.rx_buffer_full then { validate_rx_buffer r with rx_buffer_full := false } else r
    (r.rx_buffer_valid, r)

/-- The copy loop of `Radio::recv`:
`for (int i = *len; i != 0; --i) buffer[i - 1] = rx_buffer[RADIO_HEADER_LEN + 1 + (i - 1)];` -/
def recv_copy (rx_buffer : Bytes) : Nat → Bytes → Bytes
  | 0, buffer => buffer
  | i + 1, buffer => recv_copy rx_buffer i (store buffer i (rx_buffer (RADIO_HEADER_LEN + 1 + i)))

/-- The function `Radio::recv` called with non-null `buffer` and `len`; `len` is the value of
`*len` at the call.  The result is the return value, the caller's buffer, `*len`, and the radio. -/
def recv (r : Radio) (buffer : Bytes) (len : Nat) : Bool × Bytes × Nat × Radio :=
  let (ok, r) := available r
  if !ok then (false, buffer, len, r)
  else
    let message_len := (r.rx_buffer_len + 256 - RADIO_HEADER_LEN - 3) % 256
    let len := if len > message_len then message_len else len
    (true, recv_copy r.rx_buffer len buffer, len, { r with rx_buffer_valid := false })

/-- The constructor `Radio::Radio()`: it sets the mode, the address and the four transmit
headers and copies the preamble to the head of `tx_buffer`; every other member keeps the
indeterminate value `u` had. -/
def Radio_ctor (u : Radio) : Radio :=
  { u with
    mode := RadioMode.Idle
    address := DEFAULT_ADDRESS
    tx_header_to := DEFAULT_ADDRESS
    tx_header_from := DEFAULT_ADDRESS
    tx_header_id := 0
    tx_header_flags := 0
    tx_buffer := fun i => if i < PREAMBLE_LEN then preamble.getD i 0 else u.tx_buffer i }

/-! ## Test harness of the modem round trip -/

/-- The receiver at the twelfth bit of each of the first `n` symbol pairs of `syms`: the 12-bit
window holds the first symbol of the pair in bits 0..5 and the second in bits 6..11, and
`rx_bit_count` has counted the eleven bits before. -/
def rx_feed (syms : Bytes) : Nat → Radio → Radio
  | 0, r => r
  | k + 1, r =>
    let r := rx_feed syms k r
    receive_timer_frame { r with
      rx_bits := syms (2 * k) ||| (syms (2 * k + 1) <<< 6)
      rx_bit_count := 11 }

/-- The frame assembly of the receiver given a stream of decoded bytes: each byte is handed to
`receive_byte` while a frame is being acquired (`rx_active`). -/
def rx_bytes (r : Radio) (bs : List Nat) : Radio :=
  bs.foldl (fun r b => if r.rx_active then receive_byte r b else r) r

/-- A receiver that started from `r0` and has so far stored the first `k` bytes of `F`. -/
def rx_acquiring (r0 r : Radio) (F : List Nat) (k : Nat) : Prop :=
  r.rx_active = true ∧ r.rx_buffer_len = k ∧ r.rx_count = F.getD 0 0 ∧
  (∀ i, i < k → r.rx_buffer i = F.getD i 0) ∧
  r.rx_buffer_full = r0.rx_buffer_full ∧ r.rx_buffer_valid = r0.rx_buffer_valid ∧
  r.address = r0.address ∧ r.mode ≠ RadioMode.Tx

/-- A receiver that started from `r0` and has marked the buffer full, holding the first
`F[0]` bytes of `F`. -/
def rx_complete (r0 r : Radio) (F : List Nat) : Prop :=
  r.rx_active = false ∧ r.rx_buffer_full = true ∧ r.rx_buffer_len = F.getD 0 0 ∧
  (∀ i, i < F.getD 0 0 → r.rx_buffer i = F.getD i 0) ∧
  r.rx_buffer_valid = r0.rx_buffer_valid ∧ r.address = r0.address ∧ r.mode ≠ RadioMode.Tx

/-- The bytes `Radio::send` encodes, before the CRC trailer: the count, the four headers and
the payload. -/
def tx_body (r : Radio) (data : Bytes) (len : Nat) : List Nat :=
  [(len + 3 + RADIO_HEADER_LEN) % 256, r.tx_header_to, r.tx_header_from, r.tx_header_id,
    r.tx_header_flags] ++ (List.range len).map data

/-- The `len + 7` bytes `Radio::send` encodes: the body and the complemented CRC, low byte
first. -/
def tx_frame (r : Radio) (data : Bytes) (len : Nat) : List Nat :=
  tx_body r data len ++
    [not16 (crc_of 0xFFFF (tx_body r data len)) &&& 0xFF,
     not16 (crc_of 0xFFFF (tx_body r data len)) >>> 8]

/-- The symbols of the bytes `bs`, two per byte and high nibble first, stored from
`message[index]` on. -/
def put_list (tx_buffer : Bytes) (index : Nat) : List Nat → Bytes
  | [] => tx_buffer
  | b :: bs => put_list (put_symbols tx_buffer index b) (index + 2) bs

/-- An array holding the list `l` from index 0 on, and 0 elsewhere. -/
def ofList (l : List Nat) : Bytes := fun i => l.getD i 0

/-- The inverse of the byte mixing of `updateCRC`, read off the high byte of the result:
`crc_unmix (updateCRC 0 x >> 8) = x` for every byte `x`. -/
def crc_unmix (h : Nat) : Nat :=
  let y := h ^^^ (h >>> 5)
  (y ^^^ (y <<< 4)) % 256

/-! ## Concrete states used as examples -/

/-- A radio object with every member zero. -/
def radio_zero : Radio :=
  { mode := RadioMode.Idle, address := 0, tx_header_to := 0, tx_header_from := 0,
    tx_header_id := 0, tx_header_flags := 0, tx_index := 0, tx_bit := 0, tx_sample := 0,
    tx_buffer_len := 0, tx_buffer := fun _ => 0, tx_pin := false, rx_header_to := 0,
    rx_header_from := 0, rx_header_id := 0, rx_header_flags := 0, rx_last_sample := 0,
    rx_integrator := 0, rx_active := false, rx_bits := 0, rx_bit_count := 0, rx_pll_ramp := 0,
    rx_buffer_full := false, rx_buffer_valid := false, rx_count := 0, rx_buffer_len := 0,
    rx_buffer := fun _ => 0 }

/-- A freshly constructed radio. -/
def radio_new : Radio := Radio_ctor radio_zero

/-- A freshly constructed radio in mode `Rx` whose 12-bit window has just matched the start
symbol. -/
def radio_listening : Radio :=
  receive_timer_frame { radio_new with mode := RadioMode.Rx, rx_bits := RADIO_START_SYMBOL }

/-! ## config.h and the device (ATmega328P) -/

def BOOT_TIMEOUT_MS : Nat := 4000
def PROGRAMMING_TIMEOUT_MS : Nat := 10000
def BOOTSIZE : Nat := 4096
def FLASHEND : Nat := 0x7FFF
def SPM_PAGESIZE : Nat := 128
def BOOT_START : Nat := FLASHEND + 1 - BOOTSIZE

/-! ## program.cpp: flash access

Program memory is a map from byte address to byte.  The device has `FLASHEND + 1` bytes and
ignores the address bits above them.  The self-programming instructions behind the avr-libc
macros `boot_page_erase`, `boot_page_fill` and `boot_page_write` are modelled after the data
sheet: a page erase sets the 128 bytes of the addressed page to 0xFF, a fill stores one word
in the temporary page buffer at the word offset given by the low address bits, and a page write
programs the erased page with the temporary buffer, which holds 0xFF wherever it was not
filled. -/

def RECOVERY_BYTES_ADDR : Nat := FLASHEND - 3
def RECOVERY_BYTES : Nat := 0xDEADBEEF

/-- The read `pgm_read_byte_near(address)`. -/
def pgm_read_byte_near (flash : Bytes) (address : Nat) : Nat :=
  flash (address % (FLASHEND + 1)) % 256

/-- The page erase `boot_page_erase(address)`. -/
def boot_page_erase (flash : Bytes) (address : Nat) : Bytes :=
  fun a => if a / SPM_PAGESIZE = address % (FLASHEND + 1) / SPM_PAGESIZE then 0xFF else flash a

/-- The fill `boot_page_fill(address, data)` of one word of the temporary page buffer `temp`,
low byte first. -/
def boot_page_fill (temp : Bytes) (address data : Nat) : Bytes :=
  let w := address % SPM_PAGESIZE / 2 * 2
  store (store temp w (data % 256)) (w + 1) ((data >>> 8) % 256)

/-- The page write `boot_page_write(address)` of the temporary page buffer `temp`. -/
def boot_page_write (flash temp : Bytes) (address : Nat) : Bytes :=
  fun a =>
    if a / SPM_PAGESIZE = address % (FLASHEND + 1) / SPM_PAGESIZE then temp (a % SPM_PAGESIZE)
    else flash a

/-- The fill loop of `write_page`, `for (uint16_t i = 0; i < len; i += 2) { ... }`, with `n`
bounding the iterations left. -/
def write_page_fill (page_address : Nat) (data : Bytes) (len : Nat) : Nat → Nat → Bytes → Bytes
  | 0, _, temp => temp
  | n + 1, i, temp =>
    if i < len then
      let word :=
        if i + 1 < len then (data i ||| (data (i + 1) <<< 8)) % 65536
        else (data i ||| (0xFF <<< 8)) % 65536
      write_page_fill page_address data len n (i + 2)
        (boot_page_fill temp (page_address + i) word)
    else temp

/-- The function `write_page` (it always returns true); the result is the flash afterwards. -/
def write_page (flash : Bytes) (page_address : Nat) (data : Bytes) (len : Nat) : Bytes :=
  let flash := boot_page_erase flash page_address
  let temp := write_page_fill page_address data len len 0 (fun _ => 0xFF)
  boot_page_write flash temp page_address

/-- The function `set_recovery_state`. -/
def set_recovery_state (flash : Bytes) (is_programming : Bool) : Bytes :=
  let recovery_page_addr := RECOVERY_BYTES_ADDR &&& 0xFF80
  let offset := RECOVERY_BYTES_ADDR - recovery_page_addr
  let page_buffer : Bytes := fun i => pgm_read_byte_near flash ((recovery_page_addr + i) % 65536)
  let page_buffer :=
    if is_programming then
      store (store (store (store page_buffer
        (offset + 0) (RECOVERY_BYTES &&& 0xFF))
        (offset + 1) ((RECOVERY_BYTES >>> 8) &&& 0xFF))
        (offset + 2) ((RECOVERY_BYTES >>> 16) &&& 0xFF))
        (offset + 3) ((RECOVERY_BYTES >>> 24) &&& 0xFF)
    else
      store (store (store (store page_buffer
        (offset + 0) 0xFF) (offset + 1) 0xFF) (offset + 2) 0xFF) (offset + 3) 0xFF
  write_page flash recovery_page_addr page_buffer SPM_PAGESIZE

/-- The function `check_recovery_bytes`. -/
def check_recovery_bytes (flash : Bytes) : Bool :=
  let recovery_bytes := 0
  let recovery_bytes := recovery_bytes ||| pgm_read_byte_near flash (RECOVERY_BYTES_ADDR + 0)
  let recovery_bytes := recovery_bytes ||| (pgm_read_byte_near flash (RECOVERY_BYTES_ADDR + 1) <<< 8)
  let recovery_bytes := recovery_bytes ||| (pgm_read_byte_near flash (RECOVERY_BYTES_ADDR + 2) <<< 16)
  let recovery_bytes := recovery_bytes ||| (pgm_read_byte_near flash (RECOVERY_BYTES_ADDR + 3) <<< 24)
  decide (recovery_bytes = RECOVERY_BYTES)

/-! ## program.cpp: the programming engine -/

/-- What the engine does that can be observed from outside, in program order.  `data_record`
marks the point where the copy loop of a checksum-valid data record starts. -/
inductive Event where
  | write_page (page_address : Nat) (data : List Nat)
  | set_recovery_state (is_programming : Bool)
  | data_record (address data_len : Nat)
  | send (message : List Nat)
  deriving DecidableEq, Repr

def PRG : List Nat := [0x50, 0x52, 0x47]
def DNE : List Nat := [0x44, 0x4E, 0x45]
def CHK : List Nat := [0x43, 0x48, 0x4B]
def RDY : List Nat := [0x52, 0x44, 0x59]

/-- The locals of `program_flash` and the flash; `log` collects the events so far. -/
structure Engine where
  flash : Bytes
  buffer : Bytes
  page_buffer : Bytes
  current_page_addr : Nat
  page_dirty : Bool
  is_flash_modified : Bool
  last_update_time : Nat
  log : List Event

/-- One iteration of the loop of `program_flash` as seen from the radio and the clock:
`frame` is the payload of the valid frame `driver.recv` finds (`none` when `recv` returns
false), `now` the value `millis()` returns in this iteration. -/
structure Poll where
  frame : Option (List Nat)
  now : Nat

/-- The call `driver.recv(buffer, &len)` when the driver holds a valid frame with the given
payload: `Radio::recv` cuts `*len` to the payload length and runs its copy loop, the payload
sitting behind the count and the four headers in `rx_buffer`. -/
def recv_payload (payload : List Nat) (buffer : Bytes) (len : Nat) : Bytes × Nat :=
  let message_len := payload.length
  let len := if len > message_len then message_len else len
  (recv_copy (fun i => payload.getD (i - (RADIO_HEADER_LEN + 1)) 0) len buffer, len)

/-- The copy loop of the data case,
`for (int i = 0; i < data_len && (offset + i) < SPM_PAGESIZE; i++) { page_buffer[offset + i] = data[i]; page_dirty = true; }`,
with `n` bounding the iterations left. -/
def copy_record (data : Bytes) (data_len offset : Nat) : Nat → Nat → Bytes × Bool → Bytes × Bool
  | 0, _, s => s
  | n + 1, i, s =>
    if i < data_len ∧ offset + i < SPM_PAGESIZE then
      copy_record data data_len offset n (i + 1) (store s.1 (offset + i) (data i), true)
    else s

/-- The flush `if (page_dirty && current_page_addr != 0xFFFF) write_page(current_page_addr, page_buffer, SPM_PAGESIZE);`
that the data case and the end-of-file case share. -/
def flush_page (e : Engine) : Engine :=
  if e.page_dirty ∧ e.current_page_addr ≠ 0xFFFF then
    { e with
      flash := write_page e.flash e.current_page_addr e.page_buffer SPM_PAGESIZE
      log := e.log ++ [Event.write_page e.current_page_addr
        (Bytes.toList e.page_buffer SPM_PAGESIZE)] }
  else e

/-- The checksum `calc` that `program_flash` computes over the record in `buffer`: the 8-bit
sum of length, address bytes, type and data, then `calc = (~calc + 1)`. -/
def record_calc (buffer : Bytes) : Nat :=
  let data_len := buffer 0
  let sum := (data_len + buffer 1 + buffer 2 + buffer 3) % 256
  let sum := (List.range data_len).foldl (fun sum i => (sum + buffer (4 + i)) % 256) sum
  ((255 - sum) + 1) % 256

/-- The first statement of `case 0x00`,
`if (!is_flash_modified) { set_recovery_state(true); is_flash_modified = true; }`. -/
def mark_modified (e : Engine) : Engine :=
  if !e.is_flash_modified then
    { e with
      flash := set_recovery_state e.flash true
      is_flash_modified := true
      log := e.log ++ [Event.set_recovery_state true] }
  else e

/-- The page switch of `case 0x00`, `if (current_page_addr != page_addr) { ... }`: the flush
of the page left, then the new page buffer filled with 0xFF. -/
def switch_page (e : Engine) (page_addr : Nat) : Engine :=
  if e.current_page_addr ≠ page_addr then
    let e := flush_page e
    { e with
      current_page_addr := page_addr
      page_dirty := false
      page_buffer := fun i => if i < SPM_PAGESIZE then 0xFF else e.page_buffer i }
  else e

/-- The body of `case 0x00` of `program_flash`, up to the `break`. -/
def data_case (e : Engine) (address data_len : Nat) (data : Bytes) : Engine :=
  let e := mark_modified e
  let page_addr := address &&& 0xFF80
  let e := switch_page e page_addr
  let offset := (address + 65536 - e.current_page_addr) % 65536
  let e := { e with log := e.log ++ [Event.data_record address data_len] }
  let s := copy_record data data_len offset data_len 0 (e.page_buffer, e.page_dirty)
  { e with page_buffer := s.1, page_dirty := s.2, log := e.log ++ [Event.send PRG] }

/-- The body of `case 0x01` of `program_flash`, up to the `return true`. -/
def eof_case (e : Engine) : Engine :=
  let e := flush_page e
  { e with
    flash := set_recovery_state e.flash false
    log := e.log ++ [Event.set_recovery_state false, Event.send DNE] }

/-- The loop body of `program_flash` from the parsing of `buffer` on, for an iteration in which
a frame was received.  The second component is the return value when the function returns. -/
def process_record (e : Engine) : Engine × Option Bool :=
  let buffer := e.buffer
  let data_len := buffer 0
  let address := ((buffer 1 <<< 8) ||| buffer 2) % 65536
  let record_type := buffer 3
  let data : Bytes := fun i => buffer (4 + i)
  let checksum := buffer (4 + data_len)
  if record_calc buffer = checksum then
    if record_type = 0x00 then (data_case e address data_len data, none)
    else if record_type = 0x01 then (eof_case e, some true)
    else ({ e with log := e.log ++ [Event.send PRG] }, none)
  else ({ e with log := e.log ++ [Event.send CHK] }, none)

/-- One iteration of the loop of `program_flash`.  `BUFFER_SIZE` is the constant of the
header `program.h`. -/
def program_step (BUFFER_SIZE : Nat) (e : Engine) (p : Poll) : Engine × Option Bool :=
  match p.frame with
  | none =>
    if (p.now + 4294967296 - e.last_update_time) % 4294967296 > PROGRAMMING_TIMEOUT_MS then
      if e.is_flash_modified then (e, some false)
      else
        ({ e with
          flash := set_recovery_state e.flash false
          log := e.log ++ [Event.set_recovery_state false] }, some false)
    else (e, none)
  | some payload =>
    let buffer := (recv_payload payload e.buffer (BUFFER_SIZE % 256)).1
    process_record { e with buffer := buffer, last_update_time := p.now }

/-- The loop of `program_flash` over the given iterations; the result is `none` while the loop
is still running when they are used up. -/
def program_loop (BUFFER_SIZE : Nat) : List Poll → Engine → Engine × Option Bool
  | [], e => (e, none)
  | p :: ps, e =>
    match program_step BUFFER_SIZE e p with
    | (e, some b) => (e, some b)
    | (e, none) => program_loop BUFFER_SIZE ps e

/-- The state of `program_flash` on entry to its loop: `buffer` and `page_buffer` are
uninitialised stack arrays, `start` is the value of `millis()`. -/
def program_init (flash buffer page_buffer : Bytes) (start : Nat) : Engine :=
  { flash := flash, buffer := buffer, page_buffer := page_buffer, current_page_addr := 0xFFFF,
    page_dirty := false, is_flash_modified := false, last_update_time := start, log := [] }

/-- The function `program_flash`, run on the given loop iterations. -/
def program_flash (BUFFER_SIZE : Nat) (flash buffer page_buffer : Bytes) (start : Nat)
    (polls : List Poll) : Engine × Option Bool :=
  program_loop BUFFER_SIZE polls (program_init flash buffer page_buffer start)

/-! ## waveboot.cpp: the bootloader state machine -/

/-- The test `listen_for_boot_signal` applies to a frame that `driver.recv(buf, &buf_len)`
delivered into the four-byte array `buf` (`buf_len` is 4 before the call): at least four bytes
were copied and they are `'B'`, `'O'`, `'O'`, `'T'`. -/
def is_boot_signal (payload : List Nat) : Bool :=
  let r := recv_payload payload (fun _ => 0) 4
  let buf := r.1
  let buf_len := r.2
  decide (buf_len ≥ 4) && decide (buf 0 = 0x42) && decide (buf 1 = 0x4F) &&
    decide (buf 2 = 0x4F) && decide (buf 3 = 0x54)

/-- The function `listen_for_boot_signal`, given the payloads of the frames that `recv`
delivers before the window ends: true as soon as one of them is the boot signal. -/
def listen_for_boot_signal (frames : List (List Nat)) : Bool :=
  frames.any is_boot_signal

/-- The radio and clock events of one iteration of the main loop of `bootloader_main`:
`windows` lists, for each call of `listen_for_boot_signal`, the frames received in that window;
`start`, `polls` are the clock at entry and the loop iterations of the call of `program_flash`;
`buffer`, `page_buffer` are the contents of its uninitialised arrays. -/
structure Round where
  windows : List (List (List Nat))
  start : Nat
  polls : List Poll
  buffer : Bytes
  page_buffer : Bytes

/-- How far an execution of `bootloader_main` has come when the events are used up:
`jumped`, it has called `jump_to_application`; `halted`, it spins in the empty loop behind a
failed radio initialisation; `running`, it is anywhere else. -/
inductive Outcome where
  | jumped
  | halted
  | running
  deriving DecidableEq, Repr

/-- The result of an execution of `bootloader_main`: the outcome, the flash, the number of
calls of `program_flash` and the events. -/
structure Boot where
  outcome : Outcome
  flash : Bytes
  sessions : Nat
  log : List Event

/-- The main loop `while (true) { ... }` of `bootloader_main`. -/
def main_loop (BUFFER_SIZE : Nat) : List Round → Bytes → Nat → List Event → Boot
  | [], flash, sessions, log => ⟨Outcome.running, flash, sessions, log⟩
  | rd :: rest, flash, sessions, log =>
    let is_corrupted := check_recovery_bytes flash
    let heard : Option Bool :=
      if is_corrupted then
        if rd.windows.any listen_for_boot_signal then some true else none
      else
        match rd.windows with
        | [] => none
        | w :: _ => some (listen_for_boot_signal w)
    match heard with
    | none => ⟨Outcome.running, flash, sessions, log⟩
    | some false => ⟨Outcome.jumped, flash, sessions, log⟩
    | some true =>
      let r := program_flash BUFFER_SIZE flash rd.buffer rd.page_buffer rd.start rd.polls
      let log := log ++ [Event.send RDY] ++ r.1.log
      match r.2 with
      | none => ⟨Outcome.running, r.1.flash, sessions + 1, log⟩
      | some true => ⟨Outcome.jumped, r.1.flash, sessions + 1, log⟩
      | some false => main_loop BUFFER_SIZE rest r.1.flash (sessions + 1) log

/-- The function `bootloader_main`; `init_ok` is the result of `driver.init()`. -/
def bootloader_main (BUFFER_SIZE : Nat) (init_ok : Bool) (flash : Bytes)
    (rounds : List Round) : Boot :=
  if !init_ok then
    if !check_recovery_bytes flash then ⟨Outcome.jumped, flash, 0, []⟩
    else ⟨Outcome.halted, flash, 0, []⟩
  else main_loop BUFFER_SIZE rounds flash 0 []

/-! ## Update records and traces -/

/-- The update record the controller sends for the given address, type and data bytes:
length, address high and low byte, type, data, and the checksum that makes the bytes sum to 0
modulo 256. -/
def mk_record (address record_type : Nat) (data : List Nat) : List Nat :=
  [data.length, address / 256, address % 256, record_type] ++ data ++
    [(256 - (data.length + address / 256 + address % 256 + record_type + data.sum) % 256) % 256]

/-- The calls of `write_page` that `program_flash` made for record data, in order: the page
address and the 128 bytes. -/
def page_writes : List Event → List (Nat × List Nat)
  | [] => []
  | Event.write_page page_address data :: log => (page_address, data) :: page_writes log
  | _ :: log => page_writes log

/-- The replies sent, in order. -/
def replies : List Event → List (List Nat)
  | [] => []
  | Event.send message :: log => message :: replies log
  | _ :: log => replies log

/-- In the log, no application page is written and no data record is copied before the
marker has been set: scanning from the start, `set_recovery_state(true)` comes before any
`write_page` or `data_record` event. -/
def marker_precedes : List Event → Bool
  | [] => true
  | Event.set_recovery_state true :: _ => true
  | Event.write_page _ _ :: _ => false
  | Event.data_record _ _ :: _ => false
  | _ :: log => marker_precedes log

/-- What holds of the engine between two iterations of a session that was entered with the
marker clear and whose data records target application addresses. -/
def marker_inv (e : Engine) : Prop :=
  check_recovery_bytes e.flash = e.is_flash_modified ∧
  (e.is_flash_modified = true →
    Event.set_recovery_state true ∈ e.log ∧ ∃ a n, Event.data_record a n ∈ e.log) ∧
  (e.is_flash_modified = false → (∀ ev ∈ e.log, ∃ m, ev = Event.send m) ∧ e.page_dirty = false) ∧
  marker_precedes e.log = true ∧
  (e.current_page_addr = 0xFFFF ∨ e.current_page_addr < BOOT_START)

/-- What C7 says of a session, at an iteration boundary (`none`) or at its return: the marker
is set exactly when a data record has been processed and no end-of-file record has, and the
marker was set before any page write or copy. -/
def marker_post (r : Engine × Option Bool) : Prop :=
  (check_recovery_bytes r.1.flash = true ↔
    (∃ a n, Event.data_record a n ∈ r.1.log) ∧ r.2 ≠ some true) ∧
  marker_precedes r.1.log = true

/-! ## Images: sequences of data records, their runs and their page contents -/

/-- A data record of an image as it arrives: target address, data bytes, and the clock value
of the iteration that receives it. -/
structure DataRecord where
  address : Nat
  data : List Nat
  now : Nat

/-- The 128-aligned base address of the page a record targets. -/
def DataRecord.page (r : DataRecord) : Nat := r.address / 128 * 128

/-- A record the engine can take in whole: it targets an application address, carries at
least one byte, fits the receive buffer of `BUFFER_SIZE` bytes, and its data are bytes. -/
def DataRecord.ok (BUFFER_SIZE : Nat) (r : DataRecord) : Prop :=
  r.address < BOOT_START ∧ 1 ≤ r.data.length ∧ 5 + r.data.length ≤ BUFFER_SIZE % 256 ∧
  ∀ b ∈ r.data, b < 256

/-- The page of a run of records, that of its first record; 0xFFFF for no record. -/
def run_page : List DataRecord → Nat
  | [] => 0xFFFF
  | r :: _ => r.page

/-- A call of a public member function of `Radio`, or one run of the bit-clock interrupt
handler with the level `rx_sample` on the input pin. -/
inductive RadioOp where
  | init
  | available
  | recv (buffer : Bytes) (len : Nat)
  | send (data : Bytes) (len : Nat)
  | wait_packet_send
  | handle_timer_interrupt (rx_sample : Bool)
  | set_mode_idle
  | set_mode_rx
  | set_mode_tx

/-- The object after the call.  Of `Radio::init` only `set_mode_idle` touches the object, the
rest programs the pin directions and timer 1. -/
def apply_op (r : Radio) : RadioOp → Radio
  | RadioOp.init => set_mode_idle r
  | RadioOp.available => (available r).2
  | RadioOp.recv buffer len => (recv r buffer len).2.2.2
  | RadioOp.send data len => (send r data len).2
  | RadioOp.wait_packet_send => wait_packet_send r
  | RadioOp.handle_timer_interrupt rx_sample => handle_timer_interrupt r rx_sample
  | RadioOp.set_mode_idle => set_mode_idle r
  | RadioOp.set_mode_rx => set_mode_rx r
  | RadioOp.set_mode_tx => set_mode_tx r

/-- The object built by `Radio::Radio()` over memory holding `u`, after the calls `ops`. -/
def Radio_after (u : Radio) (ops : List RadioOp) : Radio :=
  ops.foldl apply_op (Radio_ctor u)

/-- The number of calls of `transmit_timer` after which a radio in mode `Tx` calls
`set_mode_idle` in the next one: the ticks until `tx_sample` is 0 again, and 8 ticks for every
bit still to go out, the bits left of the symbol at `tx_index` and 6 for each later symbol. -/
def tx_ticks_left (r : Radio) : Nat :=
  (if r.tx_sample = 0 then 0
   else if (r.tx_sample + 1) % 256 > 7 ∨ (r.tx_sample + 1) % 256 = 0 then 1
   else 1 + (8 - (r.tx_sample + 1) % 256)) +
  8 * (if r.tx_index ≥ r.tx_buffer_len then 0
       else (1 + (if (r.tx_bit + 1) % 256 ≥ 6 then 0 else 6 - (r.tx_bit + 1) % 256)) +
         6 * (r.tx_buffer_len - 1 - r.tx_index))

/-- The indices of `tx_buffer` that `Radio::send` assigns, in program order:
`message[index++]` with `message = tx_buffer + PREAMBLE_LEN` and `index` counting from 0, twice
for the count, eight times for the headers, twice for each data byte and four times for the
trailer. -/
def send_writes (len : Nat) : List Nat :=
  (List.range (2 + 8 + 2 * len + 4)).map (fun index => PREAMBLE_LEN + index)

/-- What the constructor establishes for the transmit side and every call keeps: the preamble
at the head of `tx_buffer`, and a length that fits its 8-bit field. -/
def tx_ready (r : Radio) : Prop :=
  (∀ i, i < PREAMBLE_LEN → r.tx_buffer i = preamble.getD i 0) ∧ r.tx_buffer_len < 256

/-! ## The record format and a session in the words of the specification -/

/-- The sum the record format prescribes for the checksum,
`data_len + addr_hi + addr_lo + record_type + sum(data)`, over the record in `buffer`. -/
def record_sum (buffer : Bytes) : Nat :=
  buffer 0 + buffer 1 + buffer 2 + buffer 3 +
    ((List.range (buffer 0)).map (fun i => buffer (4 + i))).sum

/-- The checksum the record format prescribes: the two's complement of the sum modulo 256. -/
def spec_checksum (buffer : Bytes) : Nat :=
  (256 - record_sum buffer % 256) % 256

/-- The reply the protocol prescribes for the record in `buffer`: `CHK` for a checksum that
does not match, else `DNE` for the end-of-file type 0x01, else `PRG`. -/
def reply_of (buffer : Bytes) : List Nat :=
  if buffer (4 + buffer 0) ≠ spec_checksum buffer then CHK
  else if buffer 3 = 0x01 then DNE
  else PRG

/-- The engine at the parsing of `buffer`, in an iteration in which `driver.recv` delivered
the payload and `last_update_time = millis()` stored `now`. -/
def take_frame (BUFFER_SIZE : Nat) (e : Engine) (payload : List Nat) (now : Nat) : Engine :=
  { e with
    buffer := (recv_payload payload e.buffer (BUFFER_SIZE % 256)).1
    last_update_time := now }

/-- The time the timeout of a session counts from after the given iterations: the clock of the
last iteration that received a frame, or the clock at entry if none did. -/
def last_frame_time (start : Nat) (polls : List Poll) : Nat :=
  polls.foldl (fun t p => if p.frame.isSome then p.now else t) start

/-- What holds of the engine between two iterations of any session entered on `flash0`. -/
def session_inv (flash0 : Bytes) (e : Engine) : Prop :=
  (e.is_flash_modified = true ↔ ∃ a n, Event.data_record a n ∈ e.log) ∧
  (e.is_flash_modified = false → e.flash = flash0 ∧ e.page_dirty = false) ∧
  (e.page_dirty = true → e.current_page_addr ≠ 0xFFFF)

/-- What holds of the marker between two iterations of a session whose data records target
application addresses: it is set once a data record has been processed. -/
def marker_kept (e : Engine) : Prop :=
  (e.is_flash_modified = true → check_recovery_bytes e.flash = true) ∧
  (e.current_page_addr = 0xFFFF ∨ e.current_page_addr < BOOT_START)

/-! ## The transmit side tick by tick -/

/-- What a call of `Radio::transmit_timer` writes to the output pin `RADIO_TX_PIN`, if it
writes it.  Only the branch `tx_sample++ == 0` touches `RADIO_PORT`: through `set_mode_idle`
(pin low, unless the mode is `Idle` already) when the buffer is exhausted, else with the bit
`tx_bit` of `tx_buffer[tx_index]`. -/
def transmit_pin_write (r : Radio) : Option Bool :=
  if r.tx_sample = 0 then
    if r.tx_index ≥ r.tx_buffer_len then
      if r.mode = RadioMode.Idle then none else some false
    else some (decide ((r.tx_buffer r.tx_index &&& ((1 <<< r.tx_bit) % 65536)) ≠ 0))
  else none

/-- A transmission started from `t0` before call number `j` of `transmit_timer` (calls counted
from 0): `j / 8` bits have gone out completely or are on the pin. -/
def tx_at (t0 : Radio) (j : Nat) (r : Radio) : Prop :=
  r.mode = RadioMode.Tx ∧ r.tx_buffer = t0.tx_buffer ∧ r.tx_buffer_len = t0.tx_buffer_len ∧
  r.tx_sample = j % 8 ∧ r.tx_index = (j + 7) / 8 / 6 ∧ r.tx_bit = (j + 7) / 8 % 6 ∧
  (j ≠ 0 → r.tx_pin = (t0.tx_buffer ((j - 1) / 8 / 6)).testBit ((j - 1) / 8 % 6))

/-! ## The receive side bit by bit -/

/-- The first part of `Radio::receive_timer`, up to the test `rx_pll_ramp < RADIO_RX_RAMP_LEN`:
the sample is counted into the integrator and the phase ramp advances. -/
def receive_timer_pll (r : Radio) (rx_sample : Bool) : Radio :=
  let sample := if rx_sample then 1 else 0
  let r := if rx_sample then { r with rx_integrator := (r.rx_integrator + 1) % 256 } else r
  if sample ≠ r.rx_last_sample then
    { r with
      rx_pll_ramp := (r.rx_pll_ramp +
        (if r.rx_pll_ramp < RADIO_RAMP_TRANSITION then RADIO_RAMP_INC_RETARD
         else RADIO_RAMP_INC_ADVANCE)) % 256
      rx_last_sample := sample }
  else { r with rx_pll_ramp := (r.rx_pll_ramp + RADIO_RAMP_INC) % 256 }

/-- The update of the 12-bit window in `Radio::receive_timer` for a resolved bit:
`rx_bits >>= 1; if (rx_integrator >= 5) rx_bits |= 0x800;`. -/
def shift_window (rx_bits : Nat) (bit : Bool) : Nat :=
  let bits := rx_bits >>> 1
  if bit then bits ||| 0x800 else bits

/-- The window after the given bits, first bit first. -/
def window_after (rx_bits : Nat) (bits : List Bool) : Nat :=
  bits.foldl shift_window rx_bits

/-- The bits of a 6-bit symbol in the order `transmit_timer` puts them on the pin: bit 0
first. -/
def symbol_bits (s : Nat) : List Bool :=
  (List.range 6).map (fun i => s.testBit i)

/-- The 48 bits of the preamble as they go out. -/
def preamble_bits : List Bool :=
  (preamble.map symbol_bits).flatten

/-- The receiver after the given resolved bits: for each bit the window update and then the
rest of `receive_timer`; the members of the phase-locked loop are left as they are. -/
def receive_bits (r : Radio) (bits : List Bool) : Radio :=
  bits.foldl (fun r b => receive_timer_frame { r with rx_bits := shift_window r.rx_bits b }) r

/-- One step of the bitwise CRC: `x := (x >> 1) XOR 0x8408` if the low bit of `x` is 1, else
`x := x >> 1`. -/
def crc_bit_step (x : Nat) : Nat :=
  if x % 2 = 1 then (x >>> 1) ^^^ 0x8408 else x >>> 1

/-- The bitwise step of the reflected CRC-CCITT for one byte: `x := crc XOR data`, then the
bit step 8 times. -/
def crc_bitwise (crc data : Nat) : Nat :=
  crc_bit_step^[8] (crc ^^^ data)

/-- A frame that carries the whole record its first byte announces, within what `recv` copies
into a receive buffer of `BUFFER_SIZE` bytes: `5 + data_len` bytes at least. -/
def complete_frame (BUFFER_SIZE : Nat) (payload : List Nat) : Prop :=
  5 + payload.getD 0 0 ≤ min (BUFFER_SIZE % 256) payload.length
/-- The indices of `page_buffer` that the copy loop of the data case assigns, in order: the
assignments `page_buffer[offset + i] = data[i]` of `copy_record`, with `n` bounding the
iterations left. -/
def copy_record_writes (data_len offset : Nat) : Nat → Nat → List Nat
  | 0, _ => []
  | n + 1, i =>
    if i < data_len ∧ offset + i < SPM_PAGESIZE then
      (offset + i) :: copy_record_writes data_len offset n (i + 1)
    else []

/-- A session that goes on with complete frames only. -/
def complete_frames (BUFFER_SIZE : Nat) (polls : List Poll) : Prop :=
  ∀ p ∈ polls, ∀ payload, p.frame = some payload → complete_frame BUFFER_SIZE payload

theorem shiftRight_xor (a b k : Nat) : (a ^^^ b) >>> k = (a >>> k) ^^^ (b >>> k) := by
  apply Nat.eq_of_testBit_eq
  intro i
  simp [Nat.testBit_shiftRight, Nat.testBit_xor]

theorem testBit_of_lt_256 {h i : Nat} (hh : h < 256) (hi : 8 ≤ i) : h.testBit i = false := by
  apply Nat.testBit_lt_two_pow
  calc h < 2 ^ 8 := hh
    _ ≤ 2 ^ i := Nat.pow_le_pow_right (by decide) hi

theorem updateCRC_lt (c d : Nat) : updateCRC c d < 65536 := by
  unfold updateCRC
  exact Nat.mod_lt _ (by decide)

theorem crc_core_split (y h : Nat) (hh : h < 256) :
    ((((y <<< 8) % 65536) ||| h) ^^^ ((y >>> 4) % 256) ^^^ ((y <<< 3) % 65536)) % 65536 =
      (((y <<< 8) % 65536) ^^^ ((y >>> 4) % 256) ^^^ ((y <<< 3) % 65536)) % 65536 ^^^ h := by
  apply Nat.eq_of_testBit_eq
  intro i
  have e16 : (65536 : Nat) = 2 ^ 16 := by norm_num
  have e8 : (256 : Nat) = 2 ^ 8 := by norm_num
  rw [e16, e8]
  simp only [Nat.testBit_xor, Nat.testBit_or, Nat.testBit_mod_two_pow, Nat.testBit_shiftLeft,
    Nat.testBit_shiftRight]
  by_cases h8 : 8 ≤ i
  · rw [testBit_of_lt_256 hh h8]; simp
  · have h8n : ¬ (i ≥ 8) := h8
    have h16 : i < 16 := by omega
    simp only [h8n, h16, decide_True, decide_False, Bool.true_and, Bool.false_and, Bool.false_or]
    cases h.testBit i <;> cases (decide (i < 8) && y.testBit (4 + i)) <;>
      cases (decide (i ≥ 3) && y.testBit (i - 3)) <;> rfl

/-- The high byte of the old CRC enters the result of `updateCRC` by exclusive or only. -/
theorem updateCRC_split (c d : Nat) (hc : c < 65536) :
    updateCRC c d = updateCRC 0 ((d ^^^ (c &&& 0xFF)) % 256) ^^^ (c >>> 8) := by
  have hh : c >>> 8 < 256 := by
    rw [Nat.shiftRight_eq_div_pow]; omega
  unfold updateCRC
  simp only [Nat.zero_and, Nat.xor_zero, Nat.zero_shiftRight, Nat.or_zero, Nat.mod_mod]
  exact crc_core_split _ _ hh

set_option maxRecDepth 100000 in
/-- Two steps over the complemented CRC, low byte first, end in the residual. -/
theorem updateCRC_residual (c : Nat) (hc : c < 65536) :
    updateCRC (updateCRC c (not16 c &&& 0xFF)) (not16 c >>> 8) = 0xF0B8 := by
  have hh : c >>> 8 < 256 := by
    rw [Nat.shiftRight_eq_div_pow]; omega
  have hn : not16 c = c ^^^ 0xFFFF := by
    unfold not16
    exact Nat.mod_eq_of_lt (Nat.xor_lt_two_pow (n := 16) hc (by decide))
  have h1 : ((not16 c &&& 0xFF) ^^^ (c &&& 0xFF)) % 256 = 0xFF := by
    rw [hn, Nat.and_xor_distrib_right, Nat.xor_comm (c &&& 0xFF), Nat.xor_cancel_right]
    decide
  have h2 : not16 c >>> 8 = (c >>> 8) ^^^ 0xFF := by
    rw [hn, shiftRight_xor]
    rfl
  rw [updateCRC_split c _ hc, h1, h2]
  generalize c >>> 8 = h at hh
  revert h
  decide

theorem crc_of_lt (bs : List Nat) : ∀ c, c < 65536 → crc_of c bs < 65536 := by
  induction bs with
  | nil => intro c hc; simpa [crc_of] using hc
  | cons b bs ih =>
    intro c _
    have := ih (updateCRC c b) (updateCRC_lt c b)
    simpa [crc_of] using this

theorem crc_of_append (c : Nat) (as bs : List Nat) :
    crc_of c (as ++ bs) = crc_of (crc_of c as) bs := by
  simp [crc_of, List.foldl_append]

/-- The CRC of a byte sequence followed by its complemented CRC, low byte first, is the
residual `0xF0B8`. -/
theorem crc_of_trailer (bs : List Nat) :
    crc_of 0xFFFF (bs ++ [not16 (crc_of 0xFFFF bs) &&& 0xFF, not16 (crc_of 0xFFFF bs) >>> 8])
      = 0xF0B8 := by
  rw [crc_of_append]
  have hc := crc_of_lt bs 0xFFFF (by decide)
  simpa [crc_of] using updateCRC_residual _ hc

/-! ## Theorems: memory and bit arithmetic -/

@[simp] theorem store_same (m : Bytes) (i v : Nat) : store m i v i = v := by
  simp [store]

theorem store_other (m : Bytes) (i v j : Nat) (h : j ≠ i) : store m i v j = m j := by
  simp [store, h]

theorem and_15 (x : Nat) : x &&& 15 = x % 16 :=
  Nat.and_pow_two_sub_one_eq_mod x 4

theorem and_63 (x : Nat) : x &&& 63 = x % 64 :=
  Nat.and_pow_two_sub_one_eq_mod x 6

theorem and_255 (x : Nat) : x &&& 255 = x % 256 :=
  Nat.and_pow_two_sub_one_eq_mod x 8

theorem not16_lt (c : Nat) : not16 c < 65536 := by
  unfold not16
  exact Nat.mod_lt _ (by decide)

/-- The four nibbles `send` takes from the complemented CRC are the nibbles of its low byte
followed by those of its high byte. -/
theorem trailer_nibbles (c : Nat) (hc : c < 65536) :
    (c >>> 4) &&& 0x0F = (c &&& 0xFF) >>> 4 ∧ c &&& 0x0F = (c &&& 0xFF) &&& 0x0F ∧
    (c >>> 12) &&& 0x0F = (c >>> 8) >>> 4 ∧ (c >>> 8) &&& 0x0F = (c >>> 8) &&& 0x0F := by
  simp only [and_15, and_255, Nat.shiftRight_eq_div_pow]
  norm_num
  omega

/-! ## Theorems: transmit path -/

theorem transmit_timer_keeps (r : Radio) :
    (transmit_timer r).tx_header_to = r.tx_header_to ∧
    (transmit_timer r).tx_header_from = r.tx_header_from ∧
    (transmit_timer r).tx_header_id = r.tx_header_id ∧
    (transmit_timer r).tx_header_flags = r.tx_header_flags ∧
    (transmit_timer r).tx_buffer = r.tx_buffer := by
  unfold transmit_timer set_mode_idle
  simp only
  split_ifs <;> simp

theorem wait_ticks_keeps (fuel : Nat) : ∀ r : Radio,
    (wait_ticks fuel r).tx_header_to = r.tx_header_to ∧
    (wait_ticks fuel r).tx_header_from = r.tx_header_from ∧
    (wait_ticks fuel r).tx_header_id = r.tx_header_id ∧
    (wait_ticks fuel r).tx_header_flags = r.tx_header_flags ∧
    (wait_ticks fuel r).tx_buffer = r.tx_buffer := by
  induction fuel with
  | zero => intro r; simp [wait_ticks]
  | succ n ih =>
    intro r
    unfold wait_ticks
    split_ifs
    · obtain ⟨a1, a2, a3, a4, a5⟩ := ih (transmit_timer r)
      obtain ⟨b1, b2, b3, b4, b5⟩ := transmit_timer_keeps r
      exact ⟨a1.trans b1, a2.trans b2, a3.trans b3, a4.trans b4, a5.trans b5⟩
    · simp

theorem encode_fold (bs : List Nat) : ∀ s : TxEnc,
    (bs.foldl encode_byte s).crc = crc_of s.crc bs ∧
    (bs.foldl encode_byte s).index = s.index + 2 * bs.length ∧
    (bs.foldl encode_byte s).tx_buffer = put_list s.tx_buffer s.index bs := by
  induction bs with
  | nil => intro s; simp [crc_of, put_list]
  | cons b bs ih =>
    intro s
    obtain ⟨h1, h2, h3⟩ := ih (encode_byte s b)
    rw [List.foldl_cons, h1, h2, h3]
    simp only [encode_byte, crc_of, put_list, List.foldl_cons, List.length_cons]
    refine ⟨trivial, by omega, trivial⟩

theorem put_list_append (as bs : List Nat) : ∀ (buf : Bytes) (index : Nat),
    put_list buf index (as ++ bs) = put_list (put_list buf index as) (index + 2 * as.length) bs := by
  induction as with
  | nil => intro buf index; simp [put_list]
  | cons a as ih =>
    intro buf index
    rw [List.cons_append, List.length_cons]
    simp only [put_list]
    rw [ih, show index + 2 + 2 * as.length = index + 2 * (as.length + 1) by omega]

theorem put_list_below (bs : List Nat) : ∀ (buf : Bytes) (index j : Nat),
    j < PREAMBLE_LEN + index → put_list buf index bs j = buf j := by
  induction bs with
  | nil => intro buf index j _; rfl
  | cons b bs ih =>
    intro buf index j hj
    simp only [put_list]
    rw [ih _ _ _ (by omega)]
    unfold put_symbols
    rw [store_other _ _ _ _ (by omega), store_other _ _ _ _ (by omega)]

/-- The symbols of byte `k` of the list sit at `message[index + 2k]` and `message[index + 2k + 1]`. -/
theorem put_list_get (bs : List Nat) : ∀ (buf : Bytes) (index k : Nat), k < bs.length →
    put_list buf index bs (PREAMBLE_LEN + index + 2 * k) = SYMBOL (bs.getD k 0 >>> 4) ∧
    put_list buf index bs (PREAMBLE_LEN + index + 2 * k + 1) = SYMBOL (bs.getD k 0 &&& 0x0F) := by
  induction bs with
  | nil => intro buf index k hk; simp at hk
  | cons b bs ih =>
    intro buf index k hk
    cases k with
    | zero =>
      simp only [put_list, Nat.mul_zero, Nat.add_zero, List.getD_cons_zero]
      rw [put_list_below _ _ _ _ (by omega), put_list_below _ _ _ _ (by omega)]
      unfold put_symbols
      constructor
      · rw [store_other _ _ _ _ (by omega), store_same]
      · rw [show PREAMBLE_LEN + index + 1 = PREAMBLE_LEN + (index + 1) by omega, store_same]
    | succ k =>
      have hk' : k < bs.length := by simpa using hk
      obtain ⟨h1, h2⟩ := ih (put_symbols buf index b) (index + 2) k hk'
      simp only [put_list, List.getD_cons_succ]
      rw [show PREAMBLE_LEN + index + 2 * (k + 1) = PREAMBLE_LEN + (index + 2) + 2 * k by omega]
      exact ⟨h1, h2⟩

theorem set_mode_tx_keeps (r : Radio) :
    (set_mode_tx r).tx_buffer = r.tx_buffer ∧ (set_mode_tx r).tx_buffer_len = r.tx_buffer_len := by
  unfold set_mode_tx
  split_ifs <;> simp

theorem tx_body_length (r : Radio) (data : Bytes) (len : Nat) :
    (tx_body r data len).length = len + 5 := by
  simp [tx_body]

theorem tx_frame_length (r : Radio) (data : Bytes) (len : Nat) :
    (tx_frame r data len).length = len + 7 := by
  simp [tx_frame, tx_body_length]

/-- What `Radio::send` leaves in the transmit buffer: the symbols of the frame bytes from
`tx_buffer[PREAMBLE_LEN]` on, and the symbol count. -/
theorem send_ok (t : Radio) (data : Bytes) (len : Nat) (hlen : len ≤ 60) :
    (send t data len).1 = true ∧
    (send t data len).2.tx_buffer = put_list t.tx_buffer 0 (tx_frame t data len) ∧
    (send t data len).2.tx_buffer_len = 2 * len + 22 := by
  obtain ⟨w1, w2, w3, w4, w5⟩ := wait_ticks_keeps (8 + 48 * 256) t
  have hnot : ¬ len > RADIO_MAX_MESSAGE_LEN := by
    simp [RADIO_MAX_MESSAGE_LEN, RADIO_MAX_PAYLOAD_LEN, RADIO_HEADER_LEN]; omega
  have hfold : (List.range len).foldl (fun s i => encode_byte s (data i))
      (encode_byte (encode_byte (encode_byte (encode_byte (encode_byte
        { crc := 0xFFFF, index := 0, tx_buffer := t.tx_buffer }
        ((len + 3 + RADIO_HEADER_LEN) % 256)) t.tx_header_to) t.tx_header_from) t.tx_header_id)
        t.tx_header_flags) =
      (tx_body t data len).foldl encode_byte
        { crc := 0xFFFF, index := 0, tx_buffer := t.tx_buffer } := by
    simp [tx_body, List.foldl_map]
  obtain ⟨e1, e2, e3⟩ := encode_fold (tx_body t data len)
    { crc := 0xFFFF, index := 0, tx_buffer := t.tx_buffer }
  obtain ⟨n1, n2, n3, _⟩ := trailer_nibbles _ (not16_lt (crc_of 0xFFFF (tx_body t data len)))
  unfold send
  simp only [hnot, if_false, wait_packet_send, w1, w2, w3, w4, w5, hfold, e1, e2, e3]
  refine ⟨trivial, ?_, ?_⟩
  · rw [(set_mode_tx_keeps _).1]
    simp only [tx_frame]
    rw [put_list_append]
    simp only [put_list, put_symbols, n1, n2, n3, tx_body_length, Nat.zero_add]
  · rw [(set_mode_tx_keeps _).2]
    simp only [tx_body_length, PREAMBLE_LEN]
    omega

/-! ## Theorems: receive path -/

set_option maxRecDepth 100000 in
/-- Decoding the two symbols of a byte gives the byte back. -/
theorem decode_window_symbols : ∀ b, b < 256 →
    decode_window (SYMBOL (b >>> 4) ||| (SYMBOL (b &&& 0x0F) <<< 6)) = b := by
  decide

theorem set_mode_idle_keeps (r : Radio) :
    (set_mode_idle r).rx_active = r.rx_active ∧
    (set_mode_idle r).rx_buffer_full = r.rx_buffer_full ∧
    (set_mode_idle r).rx_buffer_len = r.rx_buffer_len ∧
    (set_mode_idle r).rx_buffer = r.rx_buffer ∧
    (set_mode_idle r).rx_buffer_valid = r.rx_buffer_valid ∧
    (set_mode_idle r).rx_count = r.rx_count ∧
    (set_mode_idle r).address = r.address ∧
    (set_mode_idle r).mode = RadioMode.Idle := by
  unfold set_mode_idle
  split_ifs with h <;> simp [h]

theorem receive_byte_eq_first (r : Radio) (b : Nat) (hlen : r.rx_buffer_len = 0)
    (h7 : 7 ≤ b) (h67 : b ≤ 67) :
    receive_byte r b = { r with
      rx_count := b, rx_buffer := store r.rx_buffer 0 b, rx_buffer_len := 1, rx_bit_count := 0 } := by
  have hno : ¬ (b < 7 ∨ b > RADIO_MAX_PAYLOAD_LEN) := by
    simp only [RADIO_MAX_PAYLOAD_LEN]; omega
  have hno2 : ¬ (1 ≥ b) := by omega
  simp [receive_byte, hlen, hno, hno2]

theorem receive_byte_eq_abort (r : Radio) (b : Nat) (hlen : r.rx_buffer_len = 0)
    (hb : b < 7 ∨ 67 < b) :
    receive_byte r b = { r with rx_count := b, rx_active := false } := by
  have hyes : (b < 7 ∨ b > RADIO_MAX_PAYLOAD_LEN) := by
    simp only [RADIO_MAX_PAYLOAD_LEN]; omega
  simp [receive_byte, hlen, hyes]

theorem receive_byte_eq_mid (r : Radio) (b : Nat) (h0 : r.rx_buffer_len ≠ 0)
    (hlt : r.rx_buffer_len + 1 < r.rx_count) (h255 : r.rx_buffer_len < 255) :
    receive_byte r b = { r with
      rx_buffer := store r.rx_buffer r.rx_buffer_len b
      rx_buffer_len := r.rx_buffer_len + 1, rx_bit_count := 0 } := by
  have hmod : (r.rx_buffer_len + 1) % 256 = r.rx_buffer_len + 1 := by omega
  have hno : ¬ (r.rx_buffer_len + 1 ≥ r.rx_count) := by omega
  simp [receive_byte, h0, hmod, hno]

theorem receive_byte_eq_last (r : Radio) (b : Nat) (h0 : r.rx_buffer_len ≠ 0)
    (hge : r.rx_count ≤ r.rx_buffer_len + 1) (h255 : r.rx_buffer_len < 255) :
    receive_byte r b = { set_mode_idle { r with
      rx_buffer := store r.rx_buffer r.rx_buffer_len b
      rx_buffer_len := r.rx_buffer_len + 1
      rx_active := false, rx_buffer_full := true } with rx_bit_count := 0 } := by
  have hmod : (r.rx_buffer_len + 1) % 256 = r.rx_buffer_len + 1 := by omega
  simp [receive_byte, h0, hmod, hge]

/-- The first byte of a frame, when it is a plausible length, is stored at index 0. -/
theorem receive_byte_first (r0 r : Radio) (F : List Nat) (hact : r.rx_active = true)
    (hlen : r.rx_buffer_len = 0) (hfull : r.rx_buffer_full = r0.rx_buffer_full)
    (hvalid : r.rx_buffer_valid = r0.rx_buffer_valid) (haddr : r.address = r0.address)
    (hmode : r.mode ≠ RadioMode.Tx) (h7 : 7 ≤ F.getD 0 0) (h67 : F.getD 0 0 ≤ 67) :
    rx_acquiring r0 (receive_byte r (F.getD 0 0)) F 1 := by
  rw [receive_byte_eq_first r _ hlen h7 h67]
  refine ⟨hact, rfl, rfl, ?_, hfull, hvalid, haddr, hmode⟩
  intro i hi
  have : i = 0 := by omega
  subst this
  simp

/-- A later byte of a frame is stored behind the ones before, and the byte that reaches the
declared length completes the frame. -/
theorem receive_byte_next (r0 r : Radio) (F : List Nat) (k : Nat)
    (h : rx_acquiring r0 r F k) (hk : 1 ≤ k) (hkn : k < F.getD 0 0) (h67 : F.getD 0 0 ≤ 67) :
    (k + 1 < F.getD 0 0 → rx_acquiring r0 (receive_byte r (F.getD k 0)) F (k + 1)) ∧
    (F.getD 0 0 ≤ k + 1 → rx_complete r0 (receive_byte r (F.getD k 0)) F) := by
  obtain ⟨hact, hlen, hcount, hbuf, hfull, hvalid, haddr, hmode⟩ := h
  have hne : r.rx_buffer_len ≠ 0 := by omega
  have hstore : ∀ i, i < k + 1 → store r.rx_buffer k (F.getD k 0) i = F.getD i 0 := by
    intro i hi
    by_cases hik : i = k
    · subst hik; simp
    · rw [store_other _ _ _ _ hik]; exact hbuf i (by omega)
  constructor
  · intro hlt
    rw [receive_byte_eq_mid r _ hne (by omega) (by omega)]
    refine ⟨hact, by simp [hlen], hcount, ?_, hfull, hvalid, haddr, hmode⟩
    simpa [hlen] using hstore
  · intro hge
    rw [receive_byte_eq_last r _ hne (by omega) (by omega)]
    obtain ⟨s1, s2, s3, s4, s5, s6, s7, s8⟩ := set_mode_idle_keeps
      { r with rx_buffer := store r.rx_buffer r.rx_buffer_len (F.getD k 0)
               rx_buffer_len := r.rx_buffer_len + 1
               rx_active := false, rx_buffer_full := true }
    refine ⟨s1, s2, ?_, ?_, ?_, ?_, ?_⟩
    · show (set_mode_idle _).rx_buffer_len = _
      rw [s3]; show r.rx_buffer_len + 1 = _; omega
    · intro i hi
      show (set_mode_idle _).rx_buffer i = _
      rw [s4]; show store r.rx_buffer r.rx_buffer_len (F.getD k 0) i = _
      rw [hlen]; exact hstore i (by omega)
    · show (set_mode_idle _).rx_buffer_valid = _
      rw [s5]; exact hvalid
    · show (set_mode_idle _).address = _
      rw [s7]; exact haddr
    · show (set_mode_idle _).mode ≠ _
      rw [s8]; decide

theorem take_succ_getD (F : List Nat) (m : Nat) (hm : m < F.length) :
    F.take (m + 1) = F.take m ++ [F.getD m 0] := by
  rw [List.take_succ, List.getD_eq_getElem?_getD, List.getElem?_eq_getElem hm]
  rfl

theorem rx_bytes_snoc (r : Radio) (bs : List Nat) (b : Nat) :
    rx_bytes r (bs ++ [b]) =
      if (rx_bytes r bs).rx_active then receive_byte (rx_bytes r bs) b else rx_bytes r bs := by
  simp [rx_bytes, List.foldl_append]

theorem rx_bytes_append (r : Radio) (as bs : List Nat) :
    rx_bytes r (as ++ bs) = rx_bytes (rx_bytes r as) bs := by
  simp [rx_bytes, List.foldl_append]

/-- Once the acquisition has ended, further bytes leave the receiver as it is. -/
theorem rx_bytes_inactive (bs : List Nat) : ∀ r : Radio, r.rx_active = false →
    rx_bytes r bs = r := by
  induction bs with
  | nil => intro r _; rfl
  | cons b bs ih =>
    intro r h
    have : rx_bytes r (b :: bs) = rx_bytes (if r.rx_active then receive_byte r b else r) bs := rfl
    rw [this, h]
    exact ih r h

/-- Frame assembly from a byte stream whose first byte is a plausible length `n`: after `m`
bytes the receiver holds the first `m` of them, and it completes the frame at byte `n`. -/
theorem rx_bytes_take (r0 : Radio) (F : List Nat) (hact : r0.rx_active = true)
    (hlen : r0.rx_buffer_len = 0) (hmode : r0.mode ≠ RadioMode.Tx)
    (h7 : 7 ≤ F.getD 0 0) (h67 : F.getD 0 0 ≤ 67) :
    ∀ m, 1 ≤ m → m ≤ F.length →
      (m < F.getD 0 0 → rx_acquiring r0 (rx_bytes r0 (F.take m)) F m) ∧
      (F.getD 0 0 ≤ m → rx_complete r0 (rx_bytes r0 (F.take m)) F) := by
  intro m
  induction m with
  | zero => intro h; omega
  | succ m ih =>
    intro _ hm
    rw [take_succ_getD F m (by omega), rx_bytes_snoc]
    by_cases hm0 : m = 0
    · subst hm0
      have hfirst := receive_byte_first r0 r0 F hact hlen rfl rfl rfl hmode h7 h67
      simp only [List.take_zero, rx_bytes, List.foldl_nil, hact, if_true]
      exact ⟨fun _ => hfirst, fun h => by omega⟩
    · obtain ⟨ih1, ih2⟩ := ih (by omega) (by omega)
      by_cases hlt : m < F.getD 0 0
      · have hacq := ih1 hlt
        rw [hacq.1, if_pos rfl]
        exact receive_byte_next r0 _ F m hacq (by omega) hlt h67
      · have hdone := ih2 (by omega)
        rw [hdone.1]
        simp only [Bool.false_eq_true, if_false]
        exact ⟨fun h => by omega, fun _ => hdone⟩

/-- The twelfth bit of a symbol pair hands the decoded byte to the frame assembly. -/
theorem receive_timer_frame_pair (r : Radio) (w : Nat) (hact : r.rx_active = true) :
    receive_timer_frame { r with rx_bits := w, rx_bit_count := 11 } =
      receive_byte { r with rx_bits := w, rx_bit_count := 12 } (decode_window w) := by
  simp [receive_timer_frame, receive_timer_active, hact]

/-- The receiver fed with the symbols of the bytes of `F`, whose first byte is a plausible
length `n`: after `m` pairs it holds the first `m` bytes, and it completes the frame at pair
`n`. -/
theorem rx_feed_frame (r0 : Radio) (F : List Nat) (syms : Bytes) (hact : r0.rx_active = true)
    (hlen : r0.rx_buffer_len = 0) (hmode : r0.mode ≠ RadioMode.Tx)
    (h7 : 7 ≤ F.getD 0 0) (h67 : F.getD 0 0 ≤ 67)
    (hbytes : ∀ k, k < F.length → F.getD k 0 < 256)
    (hsyms : ∀ k, k < F.length → syms (2 * k) = SYMBOL (F.getD k 0 >>> 4) ∧
      syms (2 * k + 1) = SYMBOL (F.getD k 0 &&& 0x0F)) :
    ∀ m, 1 ≤ m → m ≤ F.length → m ≤ F.getD 0 0 →
      (m < F.getD 0 0 → rx_acquiring r0 (rx_feed syms m r0) F m) ∧
      (F.getD 0 0 ≤ m → rx_complete r0 (rx_feed syms m r0) F) := by
  intro m
  induction m with
  | zero => intro h; omega
  | succ m ih =>
    intro _ hm hmn
    have hdec : decode_window (syms (2 * m) ||| (syms (2 * m + 1) <<< 6)) = F.getD m 0 := by
      rw [(hsyms m (by omega)).1, (hsyms m (by omega)).2]
      exact decode_window_symbols _ (hbytes m (by omega))
    by_cases hm0 : m = 0
    · subst hm0
      have hstep : rx_feed syms 1 r0 = receive_timer_frame { r0 with
          rx_bits := syms (2 * 0) ||| (syms (2 * 0 + 1) <<< 6), rx_bit_count := 11 } := rfl
      rw [hstep, receive_timer_frame_pair _ _ hact, hdec]
      have hfirst := receive_byte_first r0 { r0 with
          rx_bits := syms (2 * 0) ||| (syms (2 * 0 + 1) <<< 6), rx_bit_count := 12 } F
        hact hlen rfl rfl rfl hmode h7 h67
      exact ⟨fun _ => hfirst, fun h => by omega⟩
    · obtain ⟨ih1, _⟩ := ih (by omega) (by omega) (by omega)
      have hlt : m < F.getD 0 0 := by omega
      have hacq := ih1 hlt
      have hstep : rx_feed syms (m + 1) r0 = receive_timer_frame { rx_feed syms m r0 with
          rx_bits := syms (2 * m) ||| (syms (2 * m + 1) <<< 6), rx_bit_count := 11 } := rfl
      rw [hstep, receive_timer_frame_pair _ _ hacq.1, hdec]
      exact receive_byte_next r0 _ F m hacq (by omega) hlt h67

theorem set_mode_rx_keeps (r : Radio) :
    (set_mode_rx r).rx_buffer_full = r.rx_buffer_full ∧
    (set_mode_rx r).rx_buffer_len = r.rx_buffer_len ∧
    (set_mode_rx r).rx_buffer = r.rx_buffer ∧
    (set_mode_rx r).rx_buffer_valid = r.rx_buffer_valid ∧
    (set_mode_rx r).address = r.address := by
  unfold set_mode_rx
  split_ifs <;> simp

/-- The CRC loop of `validate_rx_buffer` is the running CRC of the buffer contents. -/
theorem validate_crc (buf : Bytes) (n : Nat) :
    (List.range n).foldl (fun crc i => updateCRC crc (buf i)) 0xFFFF =
      crc_of 0xFFFF (Bytes.toList buf n) := by
  simp [crc_of, Bytes.toList, List.foldl_map]

theorem toList_eq_take (buf : Bytes) (F : List Nat) (n : Nat) (hn : n ≤ F.length)
    (h : ∀ i, i < n → buf i = F.getD i 0) : Bytes.toList buf n = F.take n := by
  apply List.ext_getElem
  · simp [Bytes.toList, hn]
  · intro i h1 h2
    have hi : i < n := by simpa [Bytes.toList] using h1
    have hiF : i < F.length := by omega
    simp [Bytes.toList, h i hi, List.getD_eq_getElem?_getD, List.getElem?_eq_getElem hiF]

/-- The outcome of `available` on a pending full frame, by the CRC of the buffer. -/
theorem available_full (r : Radio) (hmode : r.mode ≠ RadioMode.Tx)
    (hfull : r.rx_buffer_full = true) :
    (crc_of 0xFFFF (Bytes.toList r.rx_buffer r.rx_buffer_len) ≠ 0xF0B8 →
      (available r).1 = false) ∧
    (crc_of 0xFFFF (Bytes.toList r.rx_buffer r.rx_buffer_len) = 0xF0B8 →
      r.rx_buffer 1 = DEFAULT_ADDRESS →
      (available r).1 = true ∧
      (available r).2.rx_header_to = r.rx_buffer 1 ∧
      (available r).2.rx_header_from = r.rx_buffer 2 ∧
      (available r).2.rx_header_id = r.rx_buffer 3 ∧
      (available r).2.rx_header_flags = r.rx_buffer 4 ∧
      (available r).2.rx_buffer_len = r.rx_buffer_len ∧
      (available r).2.rx_buffer = r.rx_buffer) := by
  obtain ⟨m1, m2, m3, m4, m5⟩ := set_mode_rx_keeps r
  constructor
  · intro hcrc
    simp [available, hmode, m1, hfull, validate_rx_buffer, validate_crc, m2, m3, hcrc]
  · intro hcrc hto
    simp [available, hmode, m1, hfull, validate_rx_buffer, validate_crc, m2, m3, hcrc, hto]

/-- With no full frame pending, `available` reports the validity flag as it stands. -/
theorem available_not_full (r : Radio) (hfull : r.rx_buffer_full = false) :
    (available r).1 = true → r.rx_buffer_valid = true := by
  obtain ⟨m1, m2, m3, m4, m5⟩ := set_mode_rx_keeps r
  unfold available
  split_ifs with h
  · simp
  · simp [m1, hfull, m4]

theorem recv_copy_get (rxb : Bytes) : ∀ (n : Nat) (buffer : Bytes) (j : Nat),
    recv_copy rxb n buffer j = if j < n then rxb (RADIO_HEADER_LEN + 1 + j) else buffer j := by
  intro n
  induction n with
  | zero => intro buffer j; simp [recv_copy]
  | succ n ih =>
    intro buffer j
    simp only [recv_copy, ih]
    by_cases h1 : j < n
    · simp [h1, Nat.lt_succ_of_lt h1]
    · by_cases h2 : j = n
      · subst h2; simp
      · have h3 : ¬ j < n + 1 := by omega
        simp [h1, h3, store_other _ _ _ _ h2]

/-- What `recv` returns when `available` holds. -/
theorem recv_of_available (r : Radio) (buffer : Bytes) (len : Nat)
    (h : (available r).1 = true) :
    (recv r buffer len).1 = true ∧
    (recv r buffer len).2.2.1 =
      min len (((available r).2.rx_buffer_len + 256 - RADIO_HEADER_LEN - 3) % 256) ∧
    (∀ j, (recv r buffer len).2.1 j =
      if j < min len (((available r).2.rx_buffer_len + 256 - RADIO_HEADER_LEN - 3) % 256)
      then (available r).2.rx_buffer (RADIO_HEADER_LEN + 1 + j) else buffer j) := by
  have hmin : ∀ a b : Nat, (if a > b then b else a) = min a b := by
    intro a b; split_ifs <;> omega
  unfold recv
  rcases hav : available r with ⟨ok, r1⟩
  have hok : ok = true := by simpa [hav] using h
  subst hok
  simp only [Bool.not_true, Bool.false_eq_true, if_false, hmin]
  refine ⟨trivial, trivial, ?_⟩
  intro j
  exact recv_copy_get _ _ _ _

/-- When `available` fails, `recv` returns false and leaves the buffer alone. -/
theorem recv_of_not_available (r : Radio) (buffer : Bytes) (len : Nat)
    (h : (available r).1 = false) :
    (recv r buffer len).1 = false := by
  unfold recv
  rcases hav : available r with ⟨ok, r1⟩
  have hok : ok = false := by simpa [hav] using h
  subst hok
  simp

/-! ## Theorems: the transmitted frame -/

theorem tx_frame_cons (t : Radio) (data : Bytes) (len : Nat) :
    tx_frame t data len =
      (len + 3 + RADIO_HEADER_LEN) % 256 :: t.tx_header_to :: t.tx_header_from ::
        t.tx_header_id :: t.tx_header_flags ::
          ((List.range len).map data ++
            [not16 (crc_of 0xFFFF (tx_body t data len)) &&& 0xFF,
             not16 (crc_of 0xFFFF (tx_body t data len)) >>> 8]) := by
  simp [tx_frame, tx_body]

theorem tx_frame_count (t : Radio) (data : Bytes) (len : Nat) (hlen : len ≤ 60) :
    (tx_frame t data len).getD 0 0 = len + 7 := by
  rw [tx_frame_cons]
  simp only [List.getD_cons_zero, RADIO_HEADER_LEN]
  omega

theorem tx_frame_payload (t : Radio) (data : Bytes) (len i : Nat) (hi : i < len) :
    (tx_frame t data len).getD (5 + i) 0 = data i := by
  rw [tx_frame_cons, show 5 + i = i + 1 + 1 + 1 + 1 + 1 by omega]
  simp only [List.getD_cons_succ]
  rw [List.getD_append _ _ _ _ (by simpa using hi)]
  simp [List.getD_eq_getElem?_getD, hi]

theorem tx_frame_crc (t : Radio) (data : Bytes) (len : Nat) :
    crc_of 0xFFFF (tx_frame t data len) = 0xF0B8 :=
  crc_of_trailer _

theorem tx_frame_bytes (t : Radio) (data : Bytes) (len : Nat)
    (hdata : ∀ i, i < len → data i < 256)
    (hto : t.tx_header_to < 256) (hfrom : t.tx_header_from < 256)
    (hid : t.tx_header_id < 256) (hflags : t.tx_header_flags < 256) :
    ∀ k, k < (tx_frame t data len).length → (tx_frame t data len).getD k 0 < 256 := by
  intro k hk
  rw [List.getD_eq_getElem?_getD, List.getElem?_eq_getElem hk]
  have hmem := List.getElem_mem hk
  simp only [Option.getD_some]
  generalize (tx_frame t data len)[k] = b at hmem
  have hn := not16_lt (crc_of 0xFFFF (tx_body t data len))
  simp only [tx_frame_cons, List.mem_cons, List.mem_append, List.mem_map, List.mem_range,
    List.mem_singleton, List.not_mem_nil, or_false] at hmem
  rcases hmem with h | h | h | h | h | ⟨i, hi, h⟩ | h | h
  · omega
  · omega
  · omega
  · omega
  · omega
  · rw [← h]; exact hdata i hi
  · rw [h, and_255]; omega
  · rw [h, Nat.shiftRight_eq_div_pow]; omega

/-! ## Theorems: the CRC detects a changed byte -/

set_option maxRecDepth 100000 in
theorem crc_unmix_spec : ∀ x, x < 256 → crc_unmix (updateCRC 0 x >>> 8) = x := by
  decide

theorem shiftRight_8_lt (c : Nat) (hc : c < 65536) : c >>> 8 < 256 := by
  rw [Nat.shiftRight_eq_div_pow]; omega

theorem shiftRight_8_of_lt (h : Nat) (hh : h < 256) : h >>> 8 = 0 := by
  rw [Nat.shiftRight_eq_div_pow]; omega

theorem xor_byte_lt (a b : Nat) (ha : a < 256) (hb : b < 256) : a ^^^ b < 256 :=
  Nat.xor_lt_two_pow (n := 8) ha hb

/-- For bytes and 16-bit states, `updateCRC` is injective in the pair of its arguments' mixed
byte and high byte. -/
theorem updateCRC_mix_inj (x1 x2 h1 h2 : Nat) (hx1 : x1 < 256) (hx2 : x2 < 256)
    (hh1 : h1 < 256) (hh2 : h2 < 256)
    (h : updateCRC 0 x1 ^^^ h1 = updateCRC 0 x2 ^^^ h2) : x1 = x2 ∧ h1 = h2 := by
  have hx : x1 = x2 := by
    have hs := congrArg (fun z => z >>> 8) h
    simp only [shiftRight_xor, shiftRight_8_of_lt _ hh1, shiftRight_8_of_lt _ hh2,
      Nat.xor_zero] at hs
    rw [← crc_unmix_spec x1 hx1, ← crc_unmix_spec x2 hx2, hs]
  subst hx
  exact ⟨rfl, Nat.xor_right_injective h⟩

/-- Two different bytes give two different CRCs from the same state. -/
theorem updateCRC_inj_data (c d1 d2 : Nat) (hc : c < 65536) (hd1 : d1 < 256) (hd2 : d2 < 256)
    (h : updateCRC c d1 = updateCRC c d2) : d1 = d2 := by
  rw [updateCRC_split c d1 hc, updateCRC_split c d2 hc] at h
  have hlo : c &&& 0xFF < 256 := by
    rw [show (0xFF : Nat) = 255 by rfl, and_255]; omega
  have hh := shiftRight_8_lt c hc
  rw [Nat.mod_eq_of_lt (xor_byte_lt _ _ hd1 hlo), Nat.mod_eq_of_lt (xor_byte_lt _ _ hd2 hlo)] at h
  have := (updateCRC_mix_inj _ _ _ _ (xor_byte_lt _ _ hd1 hlo) (xor_byte_lt _ _ hd2 hlo) hh hh h).1
  exact Nat.xor_left_injective this

/-- Two different states give two different CRCs over the same byte. -/
theorem updateCRC_inj_crc (c1 c2 d : Nat) (hc1 : c1 < 65536) (hc2 : c2 < 65536) (hd : d < 256)
    (h : updateCRC c1 d = updateCRC c2 d) : c1 = c2 := by
  rw [updateCRC_split c1 d hc1, updateCRC_split c2 d hc2] at h
  have hlo1 : c1 &&& 0xFF < 256 := by
    rw [show (0xFF : Nat) = 255 by rfl, and_255]; omega
  have hlo2 : c2 &&& 0xFF < 256 := by
    rw [show (0xFF : Nat) = 255 by rfl, and_255]; omega
  rw [Nat.mod_eq_of_lt (xor_byte_lt _ _ hd hlo1), Nat.mod_eq_of_lt (xor_byte_lt _ _ hd hlo2)] at h
  obtain ⟨e1, e2⟩ := updateCRC_mix_inj _ _ _ _ (xor_byte_lt _ _ hd hlo1)
    (xor_byte_lt _ _ hd hlo2) (shiftRight_8_lt c1 hc1) (shiftRight_8_lt c2 hc2) h
  have e3 : c1 &&& 0xFF = c2 &&& 0xFF := Nat.xor_right_injective e1
  rw [show (0xFF : Nat) = 255 by rfl, and_255, and_255] at e3
  rw [Nat.shiftRight_eq_div_pow, Nat.shiftRight_eq_div_pow] at e2
  omega

theorem crc_of_inj (bs : List Nat) (hbs : ∀ b ∈ bs, b < 256) : ∀ c1 c2, c1 < 65536 →
    c2 < 65536 → crc_of c1 bs = crc_of c2 bs → c1 = c2 := by
  induction bs with
  | nil => intro c1 c2 _ _ h; simpa [crc_of] using h
  | cons b bs ih =>
    intro c1 c2 h1 h2 h
    have hb : b < 256 := hbs b (List.mem_cons_self _ _)
    have h' : crc_of (updateCRC c1 b) bs = crc_of (updateCRC c2 b) bs := by
      simpa [crc_of] using h
    have := ih (fun x hx => hbs x (List.mem_cons_of_mem _ hx)) _ _ (updateCRC_lt _ _)
      (updateCRC_lt _ _) h'
    exact updateCRC_inj_crc c1 c2 b h1 h2 hb this

/-- Changing one byte of a byte sequence changes its CRC. -/
theorem crc_of_changed_byte (pre suf : List Nat) (b v : Nat) (hb : b < 256) (hv : v < 256)
    (hsuf : ∀ x ∈ suf, x < 256) (hne : v ≠ b) :
    crc_of 0xFFFF (pre ++ v :: suf) ≠ crc_of 0xFFFF (pre ++ b :: suf) := by
  intro h
  rw [crc_of_append, crc_of_append] at h
  have h' : crc_of (updateCRC (crc_of 0xFFFF pre) v) suf =
      crc_of (updateCRC (crc_of 0xFFFF pre) b) suf := by
    simpa [crc_of] using h
  have := crc_of_inj suf hsuf _ _ (updateCRC_lt _ _) (updateCRC_lt _ _) h'
  exact hne (updateCRC_inj_data _ v b (crc_of_lt pre _ (by decide)) hv hb this)

/-! ## Theorems: the receiver on a byte stream -/

theorem available_false_of_idle (r : Radio) (hfull : r.rx_buffer_full = false)
    (hvalid : r.rx_buffer_valid = false) : (available r).1 = false := by
  cases h : (available r).1
  · rfl
  · have := available_not_full r hfull h
    rw [hvalid] at this
    cases this

/-- The state in which the frame assembly leaves the receiver after the byte stream `G`, by
the value `g` of the first byte: no frame when `g` is not a plausible length or the stream has
fewer than `g` bytes, else the first `g` bytes as a complete frame. -/
theorem rx_bytes_stream (rx : Radio) (G : List Nat) (hmode : rx.mode ≠ RadioMode.Tx)
    (hfull : rx.rx_buffer_full = false) (hact : rx.rx_active = true)
    (hlen0 : rx.rx_buffer_len = 0) (hG : 1 ≤ G.length) :
    ((G.getD 0 0 < 7 ∨ 67 < G.getD 0 0 ∨ G.length < G.getD 0 0) →
      (rx_bytes rx G).rx_buffer_full = false ∧
      (rx_bytes rx G).rx_buffer_valid = rx.rx_buffer_valid) ∧
    (7 ≤ G.getD 0 0 → G.getD 0 0 ≤ 67 → G.getD 0 0 ≤ G.length →
      rx_complete rx (rx_bytes rx G) G) := by
  constructor
  · intro hcase
    by_cases hb : G.getD 0 0 < 7 ∨ 67 < G.getD 0 0
    · cases G with
      | nil => simp at hG
      | cons b rest =>
        have hb' : b < 7 ∨ 67 < b := by simpa using hb
        have hstep : rx_bytes rx (b :: rest) = rx_bytes (receive_byte rx b) rest := by
          simp [rx_bytes, hact]
        rw [hstep, receive_byte_eq_abort rx b hlen0 hb', rx_bytes_inactive _ _ rfl]
        exact ⟨hfull, rfl⟩
    · have hshort : G.length < G.getD 0 0 := by omega
      obtain ⟨hacq, _⟩ := rx_bytes_take rx G hact hlen0 hmode (by omega) (by omega)
        G.length hG (le_refl _)
      rw [List.take_length] at hacq
      have := hacq hshort
      exact ⟨this.2.2.2.2.1.trans hfull, this.2.2.2.2.2.1⟩
  · intro h7 h67 hle
    obtain ⟨_, hdone⟩ := rx_bytes_take rx G hact hlen0 hmode h7 h67 (G.getD 0 0) (by omega) hle
    have hd := hdone (le_refl _)
    have hsplit : rx_bytes rx G = rx_bytes (rx_bytes rx (G.take (G.getD 0 0)))
        (G.drop (G.getD 0 0)) := by
      rw [← rx_bytes_append, List.take_append_drop]
    rw [hsplit, rx_bytes_inactive _ _ hd.1]
    exact hd

/-- What `recv` delivers after the byte stream `G`: nothing unless the first byte `g` is a
plausible length, at least `g` bytes came and the first `g` bytes have the CRC residual; then,
for a frame addressed to the wildcard, the `g - 7` payload bytes, cut to the capacity. -/
theorem recv_stream (rx : Radio) (G : List Nat) (buffer : Bytes) (cap : Nat)
    (hmode : rx.mode ≠ RadioMode.Tx) (hfull : rx.rx_buffer_full = false)
    (hvalid : rx.rx_buffer_valid = false) (hact : rx.rx_active = true)
    (hlen0 : rx.rx_buffer_len = 0) (hG : 1 ≤ G.length) :
    ((G.getD 0 0 < 7 ∨ 67 < G.getD 0 0 ∨ G.length < G.getD 0 0) →
      (recv (rx_bytes rx G) buffer cap).1 = false) ∧
    (7 ≤ G.getD 0 0 → G.getD 0 0 ≤ 67 → G.getD 0 0 ≤ G.length →
      crc_of 0xFFFF (G.take (G.getD 0 0)) ≠ 0xF0B8 →
      (recv (rx_bytes rx G) buffer cap).1 = false) ∧
    (7 ≤ G.getD 0 0 → G.getD 0 0 ≤ 67 → G.getD 0 0 ≤ G.length →
      crc_of 0xFFFF (G.take (G.getD 0 0)) = 0xF0B8 → G.getD 1 0 = DEFAULT_ADDRESS →
      (recv (rx_bytes rx G) buffer cap).1 = true ∧
      (recv (rx_bytes rx G) buffer cap).2.2.1 = min cap (G.getD 0 0 - 7) ∧
      ∀ j, j < min cap (G.getD 0 0 - 7) →
        (recv (rx_bytes rx G) buffer cap).2.1 j = G.getD (5 + j) 0) := by
  obtain ⟨hnone, hsome⟩ := rx_bytes_stream rx G hmode hfull hact hlen0 hG
  refine ⟨?_, ?_, ?_⟩
  · intro hcase
    obtain ⟨f1, f2⟩ := hnone hcase
    exact recv_of_not_available _ _ _ (available_false_of_idle _ f1 (f2.trans hvalid))
  · intro h7 h67 hle hcrc
    obtain ⟨d1, d2, d3, d4, d5, d6, d7⟩ := hsome h7 h67 hle
    have hlist := toList_eq_take _ G (G.getD 0 0) hle d4
    apply recv_of_not_available
    apply (available_full _ d7 d2).1
    rw [d3, hlist]; exact hcrc
  · intro h7 h67 hle hcrc hto
    obtain ⟨d1, d2, d3, d4, d5, d6, d7⟩ := hsome h7 h67 hle
    have hlist := toList_eq_take _ G (G.getD 0 0) hle d4
    obtain ⟨a1, a2, a3, a4, a5, a6, a7⟩ := (available_full _ d7 d2).2
      (by rw [d3, hlist]; exact hcrc) (by rw [d4 1 (by omega)]; exact hto)
    obtain ⟨r1, r2, r3⟩ := recv_of_available _ buffer cap a1
    have hml : min cap (((available (rx_bytes rx G)).2.rx_buffer_len + 256 - RADIO_HEADER_LEN - 3)
        % 256) = min cap (G.getD 0 0 - 7) := by
      rw [a6, d3]; simp only [RADIO_HEADER_LEN]; omega
    refine ⟨r1, by rw [r2, hml], ?_⟩
    intro j hj
    rw [r3 j, hml, if_pos hj, a7, d4 _ (by simp only [RADIO_HEADER_LEN]; omega)]
    rfl

theorem getD_set (l : List Nat) (i v j : Nat) (hi : i < l.length) :
    (l.set i v).getD j 0 = if j = i then v else l.getD j 0 := by
  rw [List.getD_eq_getElem?_getD, List.getD_eq_getElem?_getD, List.getElem?_set]
  by_cases h : i = j
  · subst h; simp [hi]
  · have h' : ¬ j = i := fun e => h e.symm
    simp [h, h']

theorem lt_256_of_mem (F : List Nat) (h : ∀ k, k < F.length → F.getD k 0 < 256) :
    ∀ x ∈ F, x < 256 := by
  intro x hx
  obtain ⟨k, hk, rfl⟩ := List.getElem_of_mem hx
  have := h k hk
  rwa [List.getD_eq_getElem _ _ hk] at this

/-- A byte changed behind the length byte of a frame with the CRC residual destroys the
residual. -/
theorem crc_of_set_ne (F : List Nat) (i v : Nat) (hi : i < F.length)
    (hbytes : ∀ k, k < F.length → F.getD k 0 < 256) (hv : v < 256) (hne : v ≠ F.getD i 0)
    (hcrc : crc_of 0xFFFF F = 0xF0B8) : crc_of 0xFFFF (F.set i v) ≠ 0xF0B8 := by
  have hmem := lt_256_of_mem F hbytes
  have hF : F = F.take i ++ F.getD i 0 :: F.drop (i + 1) := by
    rw [List.getD_eq_getElem _ _ hi, ← List.drop_eq_getElem_cons hi, List.take_append_drop]
  rw [List.set_eq_take_cons_drop v hi, ← hcrc]
  conv_rhs => rw [hF]
  exact crc_of_changed_byte _ _ _ _ (hbytes i hi) hv
    (fun x hx => hmem x (List.mem_of_mem_drop hx)) hne

/-! ## Theorems: flash access -/

theorem or_shiftLeft_8 (a b : Nat) (ha : a < 256) : a ||| (b <<< 8) = 256 * b + a := by
  rw [Nat.or_comm, Nat.shiftLeft_eq, Nat.mul_comm b]
  exact (Nat.mul_add_lt_is_or (i := 8) ha b).symm

theorem word_lo (a b : Nat) (ha : a < 256) : (a ||| (b <<< 8)) % 65536 % 256 = a := by
  rw [or_shiftLeft_8 a b ha]; omega

theorem word_hi (a b : Nat) (ha : a < 256) (hb : b < 256) :
    (((a ||| (b <<< 8)) % 65536) >>> 8) % 256 = b := by
  rw [or_shiftLeft_8 a b ha, Nat.shiftRight_eq_div_pow, show (2 : Nat) ^ 8 = 256 by norm_num]
  omega

theorem boot_page_fill_get (temp : Bytes) (p i word j : Nat) (hp : p % 128 = 0)
    (hi : i % 2 = 0) (hi128 : i < 128) :
    boot_page_fill temp (p + i) word j =
      if j = i + 1 then (word >>> 8) % 256 else if j = i then word % 256 else temp j := by
  have hw : (p + i) % SPM_PAGESIZE / 2 * 2 = i := by
    simp only [SPM_PAGESIZE]; omega
  simp only [boot_page_fill, hw, store]

/-- The fill loop of `write_page` for a whole page of bytes at an aligned address: the
temporary buffer receives the data from index `i` on. -/
theorem write_page_fill_get (p : Nat) (data : Bytes) (hp : p % 128 = 0)
    (hdata : ∀ j, j < 128 → data j < 256) :
    ∀ (n i : Nat) (temp : Bytes), i % 2 = 0 → i ≤ 128 → 128 ≤ i + 2 * n → ∀ j,
      write_page_fill p data 128 n i temp j = if i ≤ j ∧ j < 128 then data j else temp j := by
  intro n
  induction n with
  | zero =>
    intro i temp _ h1 h2 j
    have : ¬ (i ≤ j ∧ j < 128) := by omega
    simp [write_page_fill, this]
  | succ n ih =>
    intro i temp hi h1 h2 j
    unfold write_page_fill
    by_cases hlt : i < 128
    · have hlt1 : i + 1 < 128 := by omega
      simp only [hlt, if_true, hlt1]
      rw [ih (i + 2) _ (by omega) (by omega) (by omega) j, boot_page_fill_get _ _ _ _ _ hp hi hlt]
      by_cases hj1 : j = i + 1
      · subst hj1
        rw [if_neg (show ¬ (i + 2 ≤ i + 1 ∧ i + 1 < 128) by omega), if_pos rfl,
          if_pos (show i ≤ i + 1 ∧ i + 1 < 128 by omega)]
        exact word_hi _ _ (hdata i hlt) (hdata (i + 1) hlt1)
      · by_cases hj0 : j = i
        · subst hj0
          rw [if_neg (show ¬ (j + 2 ≤ j ∧ j < 128) by omega), if_neg hj1, if_pos rfl,
            if_pos (show j ≤ j ∧ j < 128 by omega)]
          exact word_lo _ _ (hdata j hlt)
        · rw [if_neg hj1, if_neg hj0]
          by_cases hc : i + 2 ≤ j ∧ j < 128
          · rw [if_pos hc, if_pos (show i ≤ j ∧ j < 128 by omega)]
          · rw [if_neg hc, if_neg (show ¬ (i ≤ j ∧ j < 128) by omega)]
    · have c2 : ¬ (i ≤ j ∧ j < 128) := by omega
      simp only [hlt, c2, if_false]

/-- The effect of `write_page` with a whole page of bytes at a page-aligned address: the page
holds the data, every other byte of the flash is as before. -/
theorem write_page_get (flash : Bytes) (p : Nat) (data : Bytes) (hp : p % 128 = 0)
    (hdata : ∀ j, j < 128 → data j < 256) (a : Nat) :
    write_page flash p data SPM_PAGESIZE a =
      if a / 128 = p % 32768 / 128 then data (a % 128) else flash a := by
  simp only [write_page, boot_page_write, boot_page_erase, SPM_PAGESIZE, FLASHEND]
  rw [write_page_fill_get p data hp hdata 128 0 _ (by decide) (by decide) (by decide)]
  rw [if_pos (show 0 ≤ a % 128 ∧ a % 128 < 128 by omega)]
  simp only [Nat.reduceAdd]
  split_ifs <;> rfl

theorem pgm_read_byte_near_lt (flash : Bytes) (a : Nat) : pgm_read_byte_near flash a < 256 := by
  unfold pgm_read_byte_near
  exact Nat.mod_lt _ (by decide)

/-- The page that `set_recovery_state` writes back: the page read from flash with the four
marker bytes at its end replaced. -/
theorem set_recovery_state_eq (flash : Bytes) (b : Bool) :
    set_recovery_state flash b =
      write_page flash 32640
        (if b then
          store (store (store (store (fun i => pgm_read_byte_near flash ((32640 + i) % 65536))
            124 0xEF) 125 0xBE) 126 0xAD) 127 0xDE
         else
          store (store (store (store (fun i => pgm_read_byte_near flash ((32640 + i) % 65536))
            124 0xFF) 125 0xFF) 126 0xFF) 127 0xFF) SPM_PAGESIZE := by
  have hp : RECOVERY_BYTES_ADDR &&& 0xFF80 = 32640 := by decide
  have ho : RECOVERY_BYTES_ADDR - 32640 = 124 := by decide
  have h0 : RECOVERY_BYTES &&& 0xFF = 0xEF := by decide
  have h1 : (RECOVERY_BYTES >>> 8) &&& 0xFF = 0xBE := by decide
  have h2 : (RECOVERY_BYTES >>> 16) &&& 0xFF = 0xAD := by decide
  have h3 : (RECOVERY_BYTES >>> 24) &&& 0xFF = 0xDE := by decide
  unfold set_recovery_state
  simp only [hp, ho, h0, h1, h2, h3]

theorem recovery_page_bytes (flash : Bytes) (b : Bool) : ∀ j, j < 128 →
    (if b then
      store (store (store (store (fun i => pgm_read_byte_near flash ((32640 + i) % 65536))
        124 0xEF) 125 0xBE) 126 0xAD) 127 0xDE
     else
      store (store (store (store (fun i => pgm_read_byte_near flash ((32640 + i) % 65536))
        124 0xFF) 125 0xFF) 126 0xFF) 127 0xFF) j < 256 := by
  intro j _
  have := pgm_read_byte_near_lt flash ((32640 + j) % 65536)
  cases b <;> simp only [store, Bool.false_eq_true, if_false, if_true] <;> split_ifs <;> omega

/-- The flash after `set_recovery_state`, byte by byte. -/
theorem set_recovery_state_get (flash : Bytes) (b : Bool) (a : Nat) :
    set_recovery_state flash b a =
      if a / 128 = 255 then
        (if b then
          store (store (store (store (fun i => pgm_read_byte_near flash ((32640 + i) % 65536))
            124 0xEF) 125 0xBE) 126 0xAD) 127 0xDE
         else
          store (store (store (store (fun i => pgm_read_byte_near flash ((32640 + i) % 65536))
            124 0xFF) 125 0xFF) 126 0xFF) 127 0xFF) (a % 128)
      else flash a := by
  rw [set_recovery_state_eq, write_page_get flash 32640 _ (by decide) (recovery_page_bytes flash b)]

/-- After `set_recovery_state(b)`, `check_recovery_bytes()` returns `b`. -/
theorem check_set_recovery_state (flash : Bytes) (b : Bool) :
    check_recovery_bytes (set_recovery_state flash b) = b := by
  unfold check_recovery_bytes pgm_read_byte_near
  simp only [RECOVERY_BYTES_ADDR, FLASHEND, RECOVERY_BYTES, set_recovery_state_get]
  cases b <;> simp [store]

/-! ## Theorems: the programming engine and the bootloader -/

/-- The function `process_record` returns true only from the end-of-file case. -/
theorem process_record_true (e e1 : Engine) (h : process_record e = (e1, some true)) :
    e1 = eof_case e := by
  unfold process_record at h
  simp only at h
  split_ifs at h <;> simp at h
  exact h.symm

theorem check_eof_case (e : Engine) : check_recovery_bytes (eof_case e).flash = false := by
  simp only [eof_case]
  exact check_set_recovery_state _ false

/-- An iteration of `program_flash` that returns true leaves the recovery marker clear. -/
theorem program_step_true (BUFFER_SIZE : Nat) (e e1 : Engine) (p : Poll)
    (h : program_step BUFFER_SIZE e p = (e1, some true)) :
    check_recovery_bytes e1.flash = false := by
  unfold program_step at h
  split at h
  · split_ifs at h <;> simp at h
  · rw [process_record_true _ _ h]
    exact check_eof_case _

/-- When `program_flash` returns true the recovery marker is clear. -/
theorem program_loop_true (BUFFER_SIZE : Nat) (polls : List Poll) : ∀ (e e1 : Engine),
    program_loop BUFFER_SIZE polls e = (e1, some true) →
    check_recovery_bytes e1.flash = false := by
  induction polls with
  | nil => intro e e1 h; simp [program_loop] at h
  | cons p ps ih =>
    intro e e1 h
    unfold program_loop at h
    rcases hs : program_step BUFFER_SIZE e p with ⟨e2, res⟩
    rw [hs] at h
    cases res with
    | none => exact ih e2 e1 h
    | some b =>
      simp only [Prod.mk.injEq, Option.some.injEq] at h
      obtain ⟨rfl, rfl⟩ := h
      exact program_step_true BUFFER_SIZE e e2 p hs

/-- Every jump out of the main loop happens with the recovery marker clear. -/
theorem main_loop_jumped (BUFFER_SIZE : Nat) (rounds : List Round) :
    ∀ (flash : Bytes) (sessions : Nat) (log : List Event),
      (main_loop BUFFER_SIZE rounds flash sessions log).outcome = Outcome.jumped →
      check_recovery_bytes (main_loop BUFFER_SIZE rounds flash sessions log).flash = false := by
  induction rounds with
  | nil => intro flash sessions log h; simp [main_loop] at h
  | cons rd rest ih =>
    intro flash sessions log
    unfold main_loop
    simp only
    cases hc : check_recovery_bytes flash
    · simp only [Bool.false_eq_true, if_false]
      cases hw : rd.windows with
      | nil => simp
      | cons w ws =>
        simp only
        cases hl : listen_for_boot_signal w
        · intro _; exact hc
        · simp only
          rcases hr : program_flash BUFFER_SIZE flash rd.buffer rd.page_buffer rd.start rd.polls
            with ⟨e1, res⟩
          cases res with
          | none => simp
          | some b =>
            cases b
            · exact ih _ _ _
            · intro _; exact program_loop_true BUFFER_SIZE _ _ _ hr
    · simp only [if_true]
      cases ha : rd.windows.any listen_for_boot_signal
      · simp
      · simp only [if_true]
        rcases hr : program_flash BUFFER_SIZE flash rd.buffer rd.page_buffer rd.start rd.polls
          with ⟨e1, res⟩
        cases res with
        | none => simp
        | some b =>
          cases b
          · exact ih _ _ _
          · intro _; exact program_loop_true BUFFER_SIZE _ _ _ hr

theorem recv_payload_get (payload : List Nat) (buffer : Bytes) (len j : Nat) :
    (recv_payload payload buffer len).1 j =
      if j < min len payload.length then payload.getD j 0 else buffer j := by
  have hmin : (if len > payload.length then payload.length else len) = min len payload.length := by
    split_ifs <;> omega
  simp only [recv_payload, hmin, recv_copy_get]
  split_ifs
  · congr 1; omega
  · rfl

theorem recv_payload_len (payload : List Nat) (buffer : Bytes) (len : Nat) :
    (recv_payload payload buffer len).2 = min len payload.length := by
  simp only [recv_payload]
  split_ifs <;> omega

/-- The test of `listen_for_boot_signal` accepts exactly the payloads that begin with
`'B'`, `'O'`, `'O'`, `'T'`. -/
theorem is_boot_signal_iff (payload : List Nat) :
    is_boot_signal payload = true ↔ [0x42, 0x4F, 0x4F, 0x54] <+: payload := by
  unfold is_boot_signal
  simp only [recv_payload_len, recv_payload_get, Bool.and_eq_true, decide_eq_true_eq]
  match payload with
  | [] => simp
  | [_] => simp
  | [_, _] => simp
  | [_, _, _] => simp
  | a :: b :: c :: d :: rest =>
    simp [List.prefix_cons_inj, List.cons_prefix_cons]
    tauto

/-- With the marker set and no boot signal in any window, the main loop stays in its first
iteration, listening. -/
theorem main_loop_locked (BUFFER_SIZE : Nat) (rounds : List Round) (flash : Bytes)
    (sessions : Nat) (log : List Event) (hc : check_recovery_bytes flash = true)
    (hno : ∀ rd ∈ rounds, ∀ w ∈ rd.windows, ∀ p ∈ w, ¬ [0x42, 0x4F, 0x4F, 0x54] <+: p) :
    (main_loop BUFFER_SIZE rounds flash sessions log).outcome = Outcome.running ∧
    (main_loop BUFFER_SIZE rounds flash sessions log).sessions = sessions ∧
    (main_loop BUFFER_SIZE rounds flash sessions log).flash = flash := by
  cases rounds with
  | nil => simp [main_loop]
  | cons rd rest =>
    have hany : rd.windows.any listen_for_boot_signal = false := by
      rw [List.any_eq_false]
      intro w hw
      simp only [listen_for_boot_signal, Bool.not_eq_true, List.any_eq_false]
      intro p hp
      have := hno rd (List.mem_cons_self _ _) w hw p hp
      rw [← is_boot_signal_iff] at this
      simpa using this
    simp [main_loop, hc, hany]

/-! ## Theorems: the recovery marker within a session -/

/-- The function `write_page` leaves every byte outside the addressed page as it is. -/
theorem write_page_other (flash : Bytes) (p : Nat) (data : Bytes) (len a : Nat)
    (ha : a / 128 ≠ p % 32768 / 128) : write_page flash p data len a = flash a := by
  simp only [write_page, boot_page_write, boot_page_erase, SPM_PAGESIZE, FLASHEND, Nat.reduceAdd,
    if_neg ha]

/-- The function `check_recovery_bytes` reads the last page of the flash only. -/
theorem check_recovery_bytes_congr (f g : Bytes) (h : ∀ a, a / 128 = 255 → f a = g a) :
    check_recovery_bytes f = check_recovery_bytes g := by
  unfold check_recovery_bytes pgm_read_byte_near
  simp only [RECOVERY_BYTES_ADDR, FLASHEND, Nat.reduceAdd, Nat.reduceSub, Nat.reduceMod]
  simp only [h 32764 (by decide), h 32765 (by decide), h 32766 (by decide), h 32767 (by decide)]

theorem check_write_page (flash : Bytes) (p : Nat) (data : Bytes) (len : Nat)
    (hp : p < BOOT_START) :
    check_recovery_bytes (write_page flash p data len) = check_recovery_bytes flash := by
  apply check_recovery_bytes_congr
  intro a ha
  apply write_page_other
  simp only [BOOT_START, FLASHEND, BOOTSIZE] at hp
  omega

theorem check_flush_page (e : Engine)
    (hp : e.current_page_addr = 0xFFFF ∨ e.current_page_addr < BOOT_START) :
    check_recovery_bytes (flush_page e).flash = check_recovery_bytes e.flash := by
  unfold flush_page
  split_ifs with h
  · rcases hp with hp | hp
    · exact absurd hp h.2
    · exact check_write_page _ _ _ _ hp
  · rfl

theorem marker_precedes_append_of_mem (l l2 : List Event)
    (hm : Event.set_recovery_state true ∈ l) (hp : marker_precedes l = true) :
    marker_precedes (l ++ l2) = true := by
  induction l with
  | nil => simp at hm
  | cons ev l ih =>
    cases ev with
    | write_page a d => simp [marker_precedes] at hp
    | data_record a n => simp [marker_precedes] at hp
    | send m =>
      have hm' : Event.set_recovery_state true ∈ l := by simpa using hm
      simp only [marker_precedes] at hp
      simpa [marker_precedes] using ih hm' hp
    | set_recovery_state b =>
      cases b
      · have hm' : Event.set_recovery_state true ∈ l := by simpa using hm
        have hp' : marker_precedes l = true := by simpa [marker_precedes] using hp
        simpa [marker_precedes] using ih hm' hp'
      · simp [marker_precedes]

theorem marker_precedes_append_sends (l l2 : List Event)
    (hs : ∀ ev ∈ l, ∃ m, ev = Event.send m) :
    marker_precedes (l ++ l2) = marker_precedes l2 := by
  induction l with
  | nil => rfl
  | cons ev l ih =>
    obtain ⟨m, rfl⟩ := hs ev (List.mem_cons_self _ _)
    simpa [marker_precedes] using ih (fun x hx => hs x (List.mem_cons_of_mem _ hx))

theorem marker_post_of_inv (e : Engine) (h : marker_inv e) : marker_post (e, none) := by
  obtain ⟨i1, i2, i3, i4, _⟩ := h
  refine ⟨?_, i4⟩
  rw [i1]
  constructor
  · intro hm; exact ⟨(i2 hm).2, by simp⟩
  · rintro ⟨⟨a, n, hmem⟩, _⟩
    cases hmod : e.is_flash_modified
    · obtain ⟨m, hm⟩ := (i3 hmod).1 _ hmem
      cases hm
    · rfl

theorem flush_page_keeps (e : Engine) :
    (flush_page e).is_flash_modified = e.is_flash_modified ∧
    (flush_page e).current_page_addr = e.current_page_addr ∧
    (flush_page e).page_buffer = e.page_buffer ∧
    (flush_page e).page_dirty = e.page_dirty ∧
    (flush_page e).buffer = e.buffer ∧
    (flush_page e).last_update_time = e.last_update_time := by
  unfold flush_page
  split_ifs <;> simp

/-- What `flush_page` appends to the log: a page write when the buffer is dirty. -/
theorem flush_page_log (e : Engine) :
    (flush_page e).log = e.log ++
      (if e.page_dirty ∧ e.current_page_addr ≠ 0xFFFF then
        [Event.write_page e.current_page_addr (Bytes.toList e.page_buffer SPM_PAGESIZE)]
       else []) := by
  unfold flush_page
  split_ifs <;> simp

theorem mark_modified_marker (e : Engine) (h : marker_inv e) :
    check_recovery_bytes (mark_modified e).flash = true ∧
    (mark_modified e).is_flash_modified = true ∧
    Event.set_recovery_state true ∈ (mark_modified e).log ∧
    marker_precedes (mark_modified e).log = true ∧
    (mark_modified e).current_page_addr = e.current_page_addr ∧
    (∀ ev ∈ e.log, ev ∈ (mark_modified e).log) := by
  obtain ⟨i1, i2, i3, i4, _⟩ := h
  cases hmod : e.is_flash_modified
  · have he : mark_modified e = { e with
        flash := set_recovery_state e.flash true
        is_flash_modified := true
        log := e.log ++ [Event.set_recovery_state true] } := by
      simp [mark_modified, hmod]
    rw [he]
    refine ⟨check_set_recovery_state _ true, rfl, by simp, ?_, rfl, ?_⟩
    · show marker_precedes (e.log ++ [Event.set_recovery_state true]) = true
      rw [marker_precedes_append_sends _ _ (i3 hmod).1]; rfl
    · intro ev hev; simp [hev]
  · have he : mark_modified e = e := by simp [mark_modified, hmod]
    rw [he]
    exact ⟨by rw [i1, hmod], hmod, (i2 hmod).1, i4, rfl, fun _ h => h⟩

theorem switch_page_marker (e : Engine) (page_addr : Nat)
    (hp : e.current_page_addr = 0xFFFF ∨ e.current_page_addr < BOOT_START) :
    check_recovery_bytes (switch_page e page_addr).flash = check_recovery_bytes e.flash ∧
    (switch_page e page_addr).is_flash_modified = e.is_flash_modified ∧
    (switch_page e page_addr).current_page_addr = page_addr ∧
    (∃ l, (switch_page e page_addr).log = e.log ++ l) := by
  unfold switch_page
  split_ifs with h
  · obtain ⟨k1, _⟩ := flush_page_keeps e
    exact ⟨check_flush_page e hp, k1, rfl, _, flush_page_log e⟩
  · exact ⟨rfl, rfl, by simpa using h, [], by simp⟩

theorem and_FF80_le (a : Nat) : a &&& 0xFF80 ≤ a :=
  Nat.and_le_left

/-- The data case keeps the marker invariant when the record targets an application
address. -/
theorem data_case_marker (e : Engine) (address data_len : Nat) (data : Bytes)
    (h : marker_inv e) (happ : address < BOOT_START) :
    marker_inv (data_case e address data_len data) := by
  obtain ⟨m1, m2, m3, m4, m5, m6⟩ := mark_modified_marker e h
  have hp5 := h.2.2.2.2
  rw [← m5] at hp5
  obtain ⟨s1, s2, s3, l, s4⟩ := switch_page_marker (mark_modified e) (address &&& 0xFF80) hp5
  have hmem : Event.set_recovery_state true ∈
      (switch_page (mark_modified e) (address &&& 0xFF80)).log := by
    rw [s4]; exact List.mem_append_left _ m3
  have hprec : marker_precedes (switch_page (mark_modified e) (address &&& 0xFF80)).log = true := by
    rw [s4]; exact marker_precedes_append_of_mem _ _ m3 m4
  unfold data_case marker_inv
  simp only
  refine ⟨by rw [s1, m1, s2, m2], ?_, ?_, ?_, ?_⟩
  · intro _
    refine ⟨?_, address, data_len, ?_⟩
    · simp [hmem]
    · simp
  · intro hf
    rw [s2, m2] at hf
    cases hf
  · rw [List.append_assoc]
    exact marker_precedes_append_of_mem _ _ hmem hprec
  · right
    rw [s3]
    exact Nat.lt_of_le_of_lt (and_FF80_le address) happ

/-- The four ways an iteration with a frame can go. -/
theorem process_record_cases (e : Engine) :
    (record_calc e.buffer ≠ e.buffer (4 + e.buffer 0) ∧
      process_record e = ({ e with log := e.log ++ [Event.send CHK] }, none)) ∨
    (record_calc e.buffer = e.buffer (4 + e.buffer 0) ∧ e.buffer 3 = 0 ∧
      process_record e =
        (data_case e (((e.buffer 1 <<< 8) ||| e.buffer 2) % 65536) (e.buffer 0)
          (fun i => e.buffer (4 + i)), none)) ∨
    (record_calc e.buffer = e.buffer (4 + e.buffer 0) ∧ e.buffer 3 = 1 ∧
      process_record e = (eof_case e, some true)) ∨
    (record_calc e.buffer = e.buffer (4 + e.buffer 0) ∧ e.buffer 3 ≠ 0 ∧ e.buffer 3 ≠ 1 ∧
      process_record e = ({ e with log := e.log ++ [Event.send PRG] }, none)) := by
  unfold process_record
  simp only
  by_cases hc : record_calc e.buffer = e.buffer (4 + e.buffer 0)
  · by_cases h0 : e.buffer 3 = 0
    · right; left; simp [hc, h0]
    · by_cases h1 : e.buffer 3 = 1
      · right; right; left; simp [hc, h1]
      · right; right; right; simp [hc, h0, h1]
  · left; simp [hc]

theorem marker_inv_send (e : Engine) (m : List Nat) (h : marker_inv e) :
    marker_inv { e with log := e.log ++ [Event.send m] } := by
  obtain ⟨i1, i2, i3, i4, i5⟩ := h
  refine ⟨i1, ?_, ?_, ?_, i5⟩
  · intro hm
    obtain ⟨a1, a, n, a2⟩ := i2 hm
    exact ⟨List.mem_append_left _ a1, a, n, List.mem_append_left _ a2⟩
  · intro hm
    refine ⟨?_, (i3 hm).2⟩
    intro ev hev
    rcases List.mem_append.mp hev with h1 | h1
    · exact (i3 hm).1 ev h1
    · exact ⟨m, by simpa using h1⟩
  · show marker_precedes (e.log ++ [Event.send m]) = true
    cases hmod : e.is_flash_modified
    · rw [marker_precedes_append_sends _ _ (i3 hmod).1]; rfl
    · exact marker_precedes_append_of_mem _ _ (i2 hmod).1 i4

theorem marker_post_of_inv_ne (e : Engine) (b : Option Bool) (h : marker_inv e)
    (hb : b ≠ some true) : marker_post (e, b) := by
  obtain ⟨h1, h2⟩ := marker_post_of_inv e h
  refine ⟨?_, h2⟩
  constructor
  · intro hm; exact ⟨(h1.mp hm).1, hb⟩
  · rintro ⟨hd, _⟩; exact h1.mpr ⟨hd, by simp⟩

theorem eof_case_marker (e : Engine) (h : marker_inv e) : marker_post (eof_case e, some true) := by
  obtain ⟨i1, i2, i3, i4, i5⟩ := h
  refine ⟨?_, ?_⟩
  · rw [check_eof_case]; simp
  · show marker_precedes ((flush_page e).log ++ [Event.set_recovery_state false, Event.send DNE])
      = true
    rw [flush_page_log]
    cases hmod : e.is_flash_modified
    · have hd := (i3 hmod).2
      simp only [hd, Bool.false_eq_true, false_and, if_false, List.append_nil]
      rw [marker_precedes_append_sends _ _ (i3 hmod).1]; rfl
    · rw [List.append_assoc]
      exact marker_precedes_append_of_mem _ _ (i2 hmod).1 i4

theorem timeout_clear_marker (e : Engine) (h : marker_inv e) (hmod : e.is_flash_modified = false) :
    marker_post ({ e with
      flash := set_recovery_state e.flash false
      log := e.log ++ [Event.set_recovery_state false] }, some false) := by
  obtain ⟨i1, i2, i3, i4, i5⟩ := h
  refine ⟨?_, ?_⟩
  · show check_recovery_bytes (set_recovery_state e.flash false) = true ↔ _
    rw [check_set_recovery_state]
    constructor
    · intro hf; cases hf
    · rintro ⟨⟨a, n, hmem⟩, _⟩
      rcases List.mem_append.mp hmem with h1 | h1
      · obtain ⟨m, hm⟩ := (i3 hmod).1 _ h1
        cases hm
      · simp at h1
  · show marker_precedes (e.log ++ [Event.set_recovery_state false]) = true
    rw [marker_precedes_append_sends _ _ (i3 hmod).1]; rfl

theorem data_case_log (e : Engine) (address data_len : Nat) (data : Bytes) :
    Event.data_record address data_len ∈ (data_case e address data_len data).log ∧
    ∀ ev ∈ e.log, ev ∈ (data_case e address data_len data).log := by
  have hm : ∀ ev ∈ e.log, ev ∈ (mark_modified e).log := by
    intro ev hev
    unfold mark_modified
    split_ifs
    · simp [hev]
    · exact hev
  have hs : ∀ ev ∈ (mark_modified e).log,
      ev ∈ (switch_page (mark_modified e) (address &&& 0xFF80)).log := by
    intro ev hev
    unfold switch_page
    split_ifs
    · show ev ∈ (flush_page (mark_modified e)).log
      rw [flush_page_log]; exact List.mem_append_left _ hev
    · exact hev
  unfold data_case
  simp only
  refine ⟨by simp, ?_⟩
  intro ev hev
  exact List.mem_append_left _ (List.mem_append_left _ (hs ev (hm ev hev)))

/-- One iteration keeps the marker invariant, and what C7 says holds after it. -/
theorem program_step_marker (BUFFER_SIZE : Nat) (e : Engine) (p : Poll) (h : marker_inv e)
    (happ : ∀ a n, Event.data_record a n ∈ (program_step BUFFER_SIZE e p).1.log →
      a < BOOT_START) :
    ((program_step BUFFER_SIZE e p).2 = none → marker_inv (program_step BUFFER_SIZE e p).1) ∧
    marker_post (program_step BUFFER_SIZE e p) := by
  unfold program_step at happ ⊢
  cases hf : p.frame with
  | none =>
    simp only [hf] at happ ⊢
    split_ifs with ht hmod
    · exact ⟨by simp, marker_post_of_inv_ne e _ h (by simp)⟩
    · exact ⟨by simp, timeout_clear_marker e h (by simpa using hmod)⟩
    · exact ⟨fun _ => h, marker_post_of_inv e h⟩
  | some payload =>
    simp only [hf] at happ ⊢
    have h0 : marker_inv { e with
        buffer := (recv_payload payload e.buffer (BUFFER_SIZE % 256)).1
        last_update_time := p.now } := h
    generalize ({ e with
        buffer := (recv_payload payload e.buffer (BUFFER_SIZE % 256)).1
        last_update_time := p.now } : Engine) = e0 at h0 happ ⊢
    rcases process_record_cases e0 with ⟨_, hr⟩ | ⟨_, _, hr⟩ | ⟨_, _, hr⟩ | ⟨_, _, _, hr⟩
    · rw [hr]
      have := marker_inv_send e0 CHK h0
      exact ⟨fun _ => this, marker_post_of_inv _ this⟩
    · rw [hr] at happ ⊢
      have hd := data_case_marker e0 _ (e0.buffer 0) (fun i => e0.buffer (4 + i)) h0
        (happ _ _ (data_case_log e0 _ _ _).1)
      exact ⟨fun _ => hd, marker_post_of_inv _ hd⟩
    · rw [hr]
      exact ⟨by simp, eof_case_marker e0 h0⟩
    · rw [hr]
      have := marker_inv_send e0 PRG h0
      exact ⟨fun _ => this, marker_post_of_inv _ this⟩

theorem eof_case_log (e : Engine) : ∀ ev ∈ e.log, ev ∈ (eof_case e).log := by
  intro ev hev
  show ev ∈ (flush_page e).log ++ [Event.set_recovery_state false, Event.send DNE]
  rw [flush_page_log]
  exact List.mem_append_left _ (List.mem_append_left _ hev)

/-- An iteration only appends to the log. -/
theorem program_step_log (BUFFER_SIZE : Nat) (e : Engine) (p : Poll) :
    ∀ ev ∈ e.log, ev ∈ (program_step BUFFER_SIZE e p).1.log := by
  intro ev hev
  unfold program_step
  cases hf : p.frame with
  | none =>
    simp only
    split_ifs
    · exact hev
    · exact List.mem_append_left _ hev
    · exact hev
  | some payload =>
    simp only
    have h0 : ev ∈ ({ e with
        buffer := (recv_payload payload e.buffer (BUFFER_SIZE % 256)).1
        last_update_time := p.now } : Engine).log := hev
    generalize ({ e with
        buffer := (recv_payload payload e.buffer (BUFFER_SIZE % 256)).1
        last_update_time := p.now } : Engine) = e0 at h0 ⊢
    rcases process_record_cases e0 with ⟨_, hr⟩ | ⟨_, _, hr⟩ | ⟨_, _, hr⟩ | ⟨_, _, _, hr⟩
    · rw [hr]; exact List.mem_append_left _ h0
    · rw [hr]; exact (data_case_log e0 _ _ _).2 ev h0
    · rw [hr]; exact eof_case_log e0 ev h0
    · rw [hr]; exact List.mem_append_left _ h0

theorem program_loop_log (BUFFER_SIZE : Nat) (polls : List Poll) : ∀ (e : Engine),
    ∀ ev ∈ e.log, ev ∈ (program_loop BUFFER_SIZE polls e).1.log := by
  induction polls with
  | nil => intro e ev hev; exact hev
  | cons p ps ih =>
    intro e ev hev
    unfold program_loop
    have hs := program_step_log BUFFER_SIZE e p ev hev
    rcases hr : program_step BUFFER_SIZE e p with ⟨e2, res⟩
    rw [hr] at hs
    cases res with
    | none => exact ih e2 ev hs
    | some b => exact hs

/-- What C7 says holds of a session that starts in a state with the marker invariant. -/
theorem program_loop_marker (BUFFER_SIZE : Nat) (polls : List Poll) : ∀ (e : Engine),
    marker_inv e →
    (∀ a n, Event.data_record a n ∈ (program_loop BUFFER_SIZE polls e).1.log → a < BOOT_START) →
    marker_post (program_loop BUFFER_SIZE polls e) := by
  induction polls with
  | nil => intro e h _; exact marker_post_of_inv e h
  | cons p ps ih =>
    intro e h happ
    unfold program_loop at happ ⊢
    rcases hr : program_step BUFFER_SIZE e p with ⟨e2, res⟩
    rw [hr] at happ
    cases res with
    | none =>
      simp only at happ ⊢
      have hstep := program_step_marker BUFFER_SIZE e p h (by
        intro a n hmem
        rw [hr] at hmem
        exact happ a n (program_loop_log BUFFER_SIZE ps e2 _ hmem))
      rw [hr] at hstep
      exact ih e2 (hstep.1 rfl) happ
    | some b =>
      simp only at happ ⊢
      have hstep := program_step_marker BUFFER_SIZE e p h (by
        intro a n hmem
        rw [hr] at hmem
        exact happ a n hmem)
      rw [hr] at hstep
      exact hstep.2

theorem marker_inv_init (flash buffer page_buffer : Bytes) (start : Nat)
    (hclear : check_recovery_bytes flash = false) :
    marker_inv (program_init flash buffer page_buffer start) := by
  refine ⟨hclear, ?_, ?_, rfl, Or.inl rfl⟩
  · intro h; cases h
  · intro _; exact ⟨by simp [program_init], rfl⟩

/-- Only a data record can set the marker: an iteration that starts with the marker clear and
ends with it set has logged a data record. -/
theorem program_step_sets_marker (BUFFER_SIZE : Nat) (e : Engine) (p : Poll)
    (hclear : check_recovery_bytes e.flash = false)
    (hset : check_recovery_bytes (program_step BUFFER_SIZE e p).1.flash = true) :
    (program_step BUFFER_SIZE e p).2 = none ∧
    ∃ a n, Event.data_record a n ∈ (program_step BUFFER_SIZE e p).1.log := by
  unfold program_step at hset ⊢
  cases hf : p.frame with
  | none =>
    simp only [hf] at hset ⊢
    split_ifs at hset ⊢ with ht hmod
    · rw [hclear] at hset; cases hset
    · simp only [check_set_recovery_state] at hset; cases hset
    · rw [hclear] at hset; cases hset
  | some payload =>
    simp only [hf] at hset ⊢
    have h0 : check_recovery_bytes ({ e with
        buffer := (recv_payload payload e.buffer (BUFFER_SIZE % 256)).1
        last_update_time := p.now } : Engine).flash = false := hclear
    generalize ({ e with
        buffer := (recv_payload payload e.buffer (BUFFER_SIZE % 256)).1
        last_update_time := p.now } : Engine) = e0 at h0 hset ⊢
    rcases process_record_cases e0 with ⟨_, hr⟩ | ⟨_, _, hr⟩ | ⟨_, _, hr⟩ | ⟨_, _, _, hr⟩
    · rw [hr] at hset; rw [h0] at hset; cases hset
    · rw [hr]; exact ⟨rfl, _, _, (data_case_log e0 _ _ _).1⟩
    · rw [hr] at hset; rw [check_eof_case] at hset; cases hset
    · rw [hr] at hset; rw [h0] at hset; cases hset

/-! ## Theorems: update records as the engine reads them -/

theorem testBit_FF80 (i : Nat) : (0xFF80 : Nat).testBit i = (decide (7 ≤ i) && decide (i < 16)) := by
  by_cases h : i < 16
  · interval_cases i <;> rfl
  · rw [Nat.testBit_lt_two_pow (x := 0xFF80) (i := i)]
    · simp [h]
    · calc (0xFF80 : Nat) < 2 ^ 16 := by decide
        _ ≤ 2 ^ i := Nat.pow_le_pow_right (by decide) (by omega)

/-- The mask `address & ~(SPM_PAGESIZE - 1)` gives the base address of the page. -/
theorem and_FF80 (a : Nat) (ha : a < 65536) : a &&& 0xFF80 = a / 128 * 128 := by
  have hr : a / 128 * 128 = (a >>> 7) <<< 7 := by
    simp [Nat.shiftLeft_eq, Nat.shiftRight_eq_div_pow]
  rw [hr]
  apply Nat.eq_of_testBit_eq
  intro i
  rw [Nat.testBit_and, testBit_FF80, Nat.testBit_shiftLeft, Nat.testBit_shiftRight]
  by_cases h7 : 7 ≤ i
  · by_cases h16 : i < 16
    · simp [h7, h16, show 7 + (i - 7) = i by omega]
    · have : a.testBit i = false := by
        apply Nat.testBit_lt_two_pow
        calc a < 2 ^ 16 := ha
          _ ≤ 2 ^ i := Nat.pow_le_pow_right (by decide) (by omega)
      simp [h7, h16, show 7 + (i - 7) = i by omega, this]
  · simp [h7]

theorem mk_record_length (a t : Nat) (d : List Nat) : (mk_record a t d).length = d.length + 5 := by
  simp [mk_record]

/-- The bytes of a record, by position. -/
theorem mk_record_get (a t : Nat) (d : List Nat) :
    (mk_record a t d).getD 0 0 = d.length ∧ (mk_record a t d).getD 1 0 = a / 256 ∧
    (mk_record a t d).getD 2 0 = a % 256 ∧ (mk_record a t d).getD 3 0 = t ∧
    (∀ i, i < d.length → (mk_record a t d).getD (4 + i) 0 = d.getD i 0) ∧
    (mk_record a t d).getD (4 + d.length) 0 =
      (256 - (d.length + a / 256 + a % 256 + t + d.sum) % 256) % 256 := by
  refine ⟨rfl, rfl, rfl, rfl, ?_, ?_⟩
  · intro i hi
    simp only [mk_record, List.cons_append, List.nil_append]
    rw [show 4 + i = i + 1 + 1 + 1 + 1 by omega]
    simp only [List.getD_cons_succ]
    rw [List.getD_append _ _ _ _ hi]
  · simp only [mk_record, List.cons_append, List.nil_append]
    rw [show 4 + d.length = d.length + 1 + 1 + 1 + 1 by omega]
    simp only [List.getD_cons_succ]
    rw [List.getD_append_right _ _ _ _ (le_refl _)]
    simp

theorem sum_fold (buffer : Bytes) (d : List Nat) :
    ∀ (n : Nat) (s : Nat), n ≤ d.length → (∀ i, i < n → buffer (4 + i) = d.getD i 0) →
      (List.range n).foldl (fun sum i => (sum + buffer (4 + i)) % 256) (s % 256) =
        (s + (d.take n).sum) % 256 := by
  intro n
  induction n with
  | zero => intro s _ _; simp
  | succ n ih =>
    intro s hn hb
    rw [List.range_succ, List.foldl_append, ih s (by omega) (fun i hi => hb i (by omega))]
    simp only [List.foldl_cons, List.foldl_nil]
    rw [hb n (by omega), take_succ_getD d n (by omega), List.sum_append]
    simp only [List.sum_cons, List.sum_nil, Nat.add_zero]
    omega

/-- The engine finds the checksum of a record correct when the buffer holds the record. -/
theorem record_calc_mk (buffer : Bytes) (a t : Nat) (d : List Nat)
    (hb : ∀ j, j < d.length + 5 → buffer j = (mk_record a t d).getD j 0) :
    record_calc buffer = buffer (4 + buffer 0) := by
  obtain ⟨g0, g1, g2, g3, g4, g5⟩ := mk_record_get a t d
  have b0 : buffer 0 = d.length := by rw [hb 0 (by omega), g0]
  have b1 : buffer 1 = a / 256 := by rw [hb 1 (by omega), g1]
  have b2 : buffer 2 = a % 256 := by rw [hb 2 (by omega), g2]
  have b3 : buffer 3 = t := by rw [hb 3 (by omega), g3]
  have bd : ∀ i, i < d.length → buffer (4 + i) = d.getD i 0 := by
    intro i hi; rw [hb (4 + i) (by omega), g4 i hi]
  unfold record_calc
  simp only [b0, b1, b2, b3]
  rw [hb (4 + d.length) (by omega), g5, sum_fold buffer d d.length _ (le_refl _) bd,
    List.take_length]
  omega

/-! ## Theorems: the data case and the page buffer -/

/-- The copy loop of the data case: it stores the record's bytes from `offset` on, up to the
end of the page, and sets the dirty flag when it stores at least one. -/
theorem copy_record_get (data : Bytes) (n offset o : Nat) :
    ∀ (fuel i : Nat) (pb : Bytes) (dirty : Bool), n ≤ fuel + i →
      (copy_record data n offset fuel i (pb, dirty)).1 o =
        (if offset + i ≤ o ∧ o < offset + n ∧ o < 128 then data (o - offset) else pb o) ∧
      (copy_record data n offset fuel i (pb, dirty)).2 =
        (dirty || decide (i < n ∧ offset + i < 128)) := by
  intro fuel
  induction fuel with
  | zero =>
    intro i pb dirty h
    have c1 : ¬ (offset + i ≤ o ∧ o < offset + n ∧ o < 128) := by omega
    have c2 : ¬ (i < n ∧ offset + i < 128) := by omega
    simp [copy_record, c1, c2]
  | succ fuel ih =>
    intro i pb dirty h
    unfold copy_record
    by_cases hc : i < n ∧ offset + i < SPM_PAGESIZE
    · rw [if_pos hc]
      obtain ⟨h1, h2⟩ := ih (i + 1) (store pb (offset + i) (data i)) true (by omega)
      simp only [SPM_PAGESIZE] at hc
      rw [h1, h2]
      refine ⟨?_, by simp [hc]⟩
      by_cases ho : o = offset + i
      · subst ho
        rw [if_neg (by omega), if_pos (by omega), store_same]
        congr 1; omega
      · rw [store_other _ _ _ _ ho]
        by_cases hc2 : offset + (i + 1) ≤ o ∧ o < offset + n ∧ o < 128
        · rw [if_pos hc2, if_pos (by omega)]
        · rw [if_neg hc2, if_neg (by omega)]
    · rw [if_neg hc]
      simp only [SPM_PAGESIZE] at hc
      have c1 : ¬ (offset + i ≤ o ∧ o < offset + n ∧ o < 128) := by omega
      simp [c1, hc]

theorem page_writes_append (l l2 : List Event) :
    page_writes (l ++ l2) = page_writes l ++ page_writes l2 := by
  induction l with
  | nil => rfl
  | cons ev l ih => cases ev <;> simp [page_writes, ih]

/-- The copy stage of the data case, once the page buffer is that of the record's page. -/
theorem data_case_eq (e : Engine) (address data_len : Nat) (data : Bytes) :
    data_case e address data_len data =
      { switch_page (mark_modified e) (address &&& 0xFF80) with
        page_buffer := (copy_record data data_len
          ((address + 65536 - (switch_page (mark_modified e) (address &&& 0xFF80)).current_page_addr)
            % 65536) data_len 0
          ((switch_page (mark_modified e) (address &&& 0xFF80)).page_buffer,
           (switch_page (mark_modified e) (address &&& 0xFF80)).page_dirty)).1
        page_dirty := (copy_record data data_len
          ((address + 65536 - (switch_page (mark_modified e) (address &&& 0xFF80)).current_page_addr)
            % 65536) data_len 0
          ((switch_page (mark_modified e) (address &&& 0xFF80)).page_buffer,
           (switch_page (mark_modified e) (address &&& 0xFF80)).page_dirty)).2
        log := (switch_page (mark_modified e) (address &&& 0xFF80)).log ++
          [Event.data_record address data_len] ++ [Event.send PRG] } :=
  rfl

/-- The receive buffer after a frame that fits holds the frame's payload. -/
theorem recv_payload_fits (payload : List Nat) (buffer : Bytes) (cap : Nat)
    (hfit : payload.length ≤ cap) : ∀ j, j < payload.length →
      (recv_payload payload buffer cap).1 j = payload.getD j 0 := by
  intro j hj
  rw [recv_payload_get, if_pos (by omega)]

theorem program_loop_cons_none (BUFFER_SIZE : Nat) (p : Poll) (ps : List Poll) (e e2 : Engine)
    (hs : program_step BUFFER_SIZE e p = (e2, none)) :
    program_loop BUFFER_SIZE (p :: ps) e = program_loop BUFFER_SIZE ps e2 := by
  simp [program_loop, hs]

theorem program_loop_cons_some (BUFFER_SIZE : Nat) (p : Poll) (ps : List Poll) (e e2 : Engine)
    (b : Bool) (hs : program_step BUFFER_SIZE e p = (e2, some b)) :
    program_loop BUFFER_SIZE (p :: ps) e = (e2, some b) := by
  simp [program_loop, hs]

theorem program_loop_append (BUFFER_SIZE : Nat) (ps qs : List Poll) : ∀ (e : Engine),
    (program_loop BUFFER_SIZE ps e).2 = none →
    program_loop BUFFER_SIZE (ps ++ qs) e =
      program_loop BUFFER_SIZE qs (program_loop BUFFER_SIZE ps e).1 := by
  induction ps with
  | nil => intro e _; rfl
  | cons p ps ih =>
    intro e h
    rcases hs : program_step BUFFER_SIZE e p with ⟨e2, res⟩
    cases res with
    | none =>
      rw [program_loop_cons_none BUFFER_SIZE p ps e e2 hs] at h ⊢
      rw [List.cons_append, program_loop_cons_none BUFFER_SIZE p (ps ++ qs) e e2 hs]
      exact ih e2 h
    | some b =>
      rw [program_loop_cons_some BUFFER_SIZE p ps e e2 b hs] at h
      simp at h

theorem run_page_append (c : DataRecord) (cs : List DataRecord) (r : DataRecord) :
    run_page (c :: cs ++ [r]) = run_page (c :: cs) := rfl

theorem transmit_timer_tick (r : Radio) (hm : r.mode = RadioMode.Tx) (hl : r.tx_buffer_len < 256) :
    (transmit_timer r).tx_buffer_len = r.tx_buffer_len ∧
    (tx_ticks_left r = 0 → (transmit_timer r).mode ≠ RadioMode.Tx) ∧
    (tx_ticks_left r ≠ 0 → (transmit_timer r).mode = RadioMode.Tx ∧
      tx_ticks_left (transmit_timer r) + 1 = tx_ticks_left r) := by
  obtain ⟨mode, address, hto, frm, hid, flags, index, bit, sample, len, buf⟩ := r
  simp only at hm hl
  subst hm
  simp only [transmit_timer, set_mode_idle, tx_ticks_left]
  by_cases hs : sample = 0
  · subst hs
    by_cases hi : index ≥ len
    · simp [hi]
    · by_cases hb : (bit + 1) % 256 ≥ 6
      · simp [hi, hb]
        split_ifs <;> omega
      · simp [hi, hb]
        split_ifs <;> omega
  · simp [hs]
    split_ifs <;> simp_all <;> omega

theorem wait_ticks_done : ∀ (fuel : Nat) (r : Radio), r.tx_buffer_len < 256 →
    tx_ticks_left r < fuel → (wait_ticks fuel r).mode ≠ RadioMode.Tx := by
  intro fuel
  induction fuel with
  | zero => intro r _ h; omega
  | succ n ih =>
    intro r hl hf
    unfold wait_ticks
    by_cases hm : r.mode = RadioMode.Tx
    · rw [if_pos hm]
      obtain ⟨h1, h2, h3⟩ := transmit_timer_tick r hm hl
      by_cases h0 : tx_ticks_left r = 0
      · cases n with
        | zero => unfold wait_ticks; exact h2 h0
        | succ k => unfold wait_ticks; rw [if_neg (h2 h0)]; exact h2 h0
      · obtain ⟨_, h4⟩ := h3 h0
        exact ih _ (by rw [h1]; exact hl) (by omega)
    · rw [if_neg hm]; exact hm

theorem tx_ticks_left_le (r : Radio) (hl : r.tx_buffer_len < 256) :
    tx_ticks_left r ≤ 8 + 8 * (7 + 6 * 254) := by
  unfold tx_ticks_left
  split_ifs <;> omega

theorem wait_packet_send_done (r : Radio) (hl : r.tx_buffer_len < 256) :
    (wait_packet_send r).mode ≠ RadioMode.Tx := by
  have := tx_ticks_left_le r hl
  exact wait_ticks_done _ r hl (by omega)

theorem wait_ticks_len (fuel : Nat) : ∀ r : Radio,
    (wait_ticks fuel r).tx_buffer_len = r.tx_buffer_len := by
  induction fuel with
  | zero => intro r; rfl
  | succ n ih =>
    intro r
    unfold wait_ticks
    split_ifs with hm
    · rw [ih]
      simp only [transmit_timer, set_mode_idle]
      split_ifs <;> rfl
    · rfl

theorem send_mode (t : Radio) (data : Bytes) (len : Nat) (hlen : len ≤ 60)
    (hl : t.tx_buffer_len < 256) :
    (send t data len).2.mode = RadioMode.Tx ∧ (send t data len).2.tx_index = 0 ∧
    (send t data len).2.tx_bit = 0 ∧ (send t data len).2.tx_sample = 0 := by
  have hw := wait_packet_send_done t hl
  have hnot : ¬ len > RADIO_MAX_MESSAGE_LEN := by
    simp [RADIO_MAX_MESSAGE_LEN, RADIO_MAX_PAYLOAD_LEN, RADIO_HEADER_LEN]; omega
  simp [send, hnot, set_mode_tx, hw]

theorem set_mode_keeps_tx (r : Radio) :
    (set_mode_idle r).tx_buffer = r.tx_buffer ∧ (set_mode_idle r).tx_buffer_len = r.tx_buffer_len ∧
    (set_mode_rx r).tx_buffer = r.tx_buffer ∧ (set_mode_rx r).tx_buffer_len = r.tx_buffer_len := by
  simp only [set_mode_idle, set_mode_rx]
  split_ifs <;> exact ⟨rfl, rfl, rfl, rfl⟩

theorem validate_keeps_tx (r : Radio) :
    (validate_rx_buffer r).tx_buffer = r.tx_buffer ∧
    (validate_rx_buffer r).tx_buffer_len = r.tx_buffer_len := by
  simp only [validate_rx_buffer]
  split_ifs <;> exact ⟨rfl, rfl⟩

theorem available_keeps_tx (r : Radio) :
    (available r).2.tx_buffer = r.tx_buffer ∧ (available r).2.tx_buffer_len = r.tx_buffer_len := by
  obtain ⟨_, _, h3, h4⟩ := set_mode_keeps_tx r
  obtain ⟨h5, h6⟩ := validate_keeps_tx (set_mode_rx r)
  simp only [available]
  split_ifs
  · exact ⟨rfl, rfl⟩
  · exact ⟨by simp only []; rw [h5, h3], by simp only []; rw [h6, h4]⟩
  · exact ⟨h3, h4⟩

theorem recv_keeps_tx (r : Radio) (buffer : Bytes) (len : Nat) :
    (recv r buffer len).2.2.2.tx_buffer = r.tx_buffer ∧
    (recv r buffer len).2.2.2.tx_buffer_len = r.tx_buffer_len := by
  obtain ⟨h1, h2⟩ := available_keeps_tx r
  simp only [recv]
  split_ifs <;> exact ⟨h1, h2⟩

theorem receive_byte_keeps_tx (r : Radio) (b : Nat) :
    (receive_byte r b).tx_buffer = r.tx_buffer ∧
    (receive_byte r b).tx_buffer_len = r.tx_buffer_len := by
  simp only [receive_byte, set_mode_idle]
  split_ifs <;> exact ⟨rfl, rfl⟩

theorem receive_timer_frame_keeps_tx (r : Radio) :
    (receive_timer_frame r).tx_buffer = r.tx_buffer ∧
    (receive_timer_frame r).tx_buffer_len = r.tx_buffer_len := by
  simp only [receive_timer_frame, receive_timer_active]
  split_ifs
  · exact receive_byte_keeps_tx _ _
  · exact ⟨rfl, rfl⟩
  · exact ⟨rfl, rfl⟩
  · exact ⟨rfl, rfl⟩

theorem receive_timer_keeps_tx (r : Radio) (rx_sample : Bool) :
    (receive_timer r rx_sample).tx_buffer = r.tx_buffer ∧
    (receive_timer r rx_sample).tx_buffer_len = r.tx_buffer_len := by
  simp only [receive_timer]
  split_ifs <;>
    first
    | exact ⟨rfl, rfl⟩
    | exact receive_timer_frame_keeps_tx _

theorem transmit_timer_len (r : Radio) :
    (transmit_timer r).tx_buffer_len = r.tx_buffer_len := by
  simp only [transmit_timer, set_mode_idle]
  split_ifs <;> rfl

theorem send_keeps_preamble (t : Radio) (data : Bytes) (len : Nat) :
    (∀ j, j < PREAMBLE_LEN → (send t data len).2.tx_buffer j = t.tx_buffer j) ∧
    (t.tx_buffer_len < 256 → (send t data len).2.tx_buffer_len < 256) := by
  by_cases hlen : len ≤ 60
  · obtain ⟨_, h2, h3⟩ := send_ok t data len hlen
    refine ⟨fun j hj => ?_, fun _ => by omega⟩
    rw [h2]
    exact put_list_below _ _ _ _ (by omega)
  · have hgt : len > RADIO_MAX_MESSAGE_LEN := by
      simp [RADIO_MAX_MESSAGE_LEN, RADIO_MAX_PAYLOAD_LEN, RADIO_HEADER_LEN]; omega
    simp [send, hgt]

theorem tx_ready_of_eq (a r : Radio) (h1 : a.tx_buffer = r.tx_buffer)
    (h2 : a.tx_buffer_len = r.tx_buffer_len) (h : tx_ready r) : tx_ready a :=
  ⟨fun i hi => by rw [h1]; exact h.1 i hi, by rw [h2]; exact h.2⟩

theorem apply_op_tx_ready (r : Radio) (op : RadioOp) (h : tx_ready r) :
    tx_ready (apply_op r op) := by
  cases op with
  | init => exact tx_ready_of_eq _ r (set_mode_keeps_tx r).1 (set_mode_keeps_tx r).2.1 h
  | available => exact tx_ready_of_eq _ r (available_keeps_tx r).1 (available_keeps_tx r).2 h
  | recv buffer len =>
    exact tx_ready_of_eq _ r (recv_keeps_tx r buffer len).1 (recv_keeps_tx r buffer len).2 h
  | send data len =>
    obtain ⟨h1, h2⟩ := send_keeps_preamble r data len
    exact ⟨fun i hi => (h1 i hi).trans (h.1 i hi), h2 h.2⟩
  | wait_packet_send =>
    exact tx_ready_of_eq _ r (wait_ticks_keeps _ r).2.2.2.2 (wait_ticks_len _ r) h
  | handle_timer_interrupt rx_sample =>
    have : (handle_timer_interrupt r rx_sample).tx_buffer = r.tx_buffer ∧
        (handle_timer_interrupt r rx_sample).tx_buffer_len = r.tx_buffer_len := by
      simp only [handle_timer_interrupt]
      cases r.mode with
      | Idle => exact ⟨rfl, rfl⟩
      | Tx => exact ⟨(transmit_timer_keeps r).2.2.2.2, transmit_timer_len r⟩
      | Rx => exact receive_timer_keeps_tx r rx_sample
    exact tx_ready_of_eq _ r this.1 this.2 h
  | set_mode_idle => exact tx_ready_of_eq _ r (set_mode_keeps_tx r).1 (set_mode_keeps_tx r).2.1 h
  | set_mode_rx =>
    exact tx_ready_of_eq _ r (set_mode_keeps_tx r).2.2.1 (set_mode_keeps_tx r).2.2.2 h
  | set_mode_tx => exact tx_ready_of_eq _ r (set_mode_tx_keeps r).1 (set_mode_tx_keeps r).2 h

theorem Radio_ctor_tx_ready (u : Radio) (hu : u.tx_buffer_len < 256) : tx_ready (Radio_ctor u) := by
  refine ⟨fun i hi => ?_, hu⟩
  simp only [Radio_ctor, if_pos hi]

theorem foldl_apply_op_tx_ready (ops : List RadioOp) : ∀ r : Radio, tx_ready r →
    tx_ready (ops.foldl apply_op r) := by
  induction ops with
  | nil => intro r h; exact h
  | cons op ops ih => intro r h; exact ih _ (apply_op_tx_ready r op h)

theorem Radio_after_tx_ready (u : Radio) (ops : List RadioOp) (hu : u.tx_buffer_len < 256) :
    tx_ready (Radio_after u ops) :=
  foldl_apply_op_tx_ready ops _ (Radio_ctor_tx_ready u hu)

/-! ## Theorems: the cells `send` writes, and the address filter -/

theorem put_list_above (bs : List Nat) : ∀ (buf : Bytes) (index j : Nat),
    PREAMBLE_LEN + index + 2 * bs.length ≤ j → put_list buf index bs j = buf j := by
  induction bs with
  | nil => intro buf index j _; rfl
  | cons b bs ih =>
    intro buf index j hj
    simp only [List.length_cons] at hj
    simp only [put_list]
    rw [ih _ _ _ (by omega)]
    simp only [put_symbols]
    rw [store_other _ _ _ _ (by omega), store_other _ _ _ _ (by omega)]

theorem mem_send_writes (len j : Nat) :
    j ∈ send_writes len ↔ 8 ≤ j ∧ j ≤ 2 * len + 21 := by
  simp only [send_writes, List.mem_map, List.mem_range, PREAMBLE_LEN]
  constructor
  · rintro ⟨i, hi, rfl⟩
    omega
  · intro h
    exact ⟨j - 8, by omega, by omega⟩

/-- With a full frame pending and the mode not `Tx`, `available` returns true exactly when the
CRC of the frame is right and either the frame is addressed to this node or to the wildcard, or
`rx_buffer_valid` was true before the call. -/
theorem available_full_iff (r : Radio) (hmode : r.mode ≠ RadioMode.Tx)
    (hfull : r.rx_buffer_full = true) :
    (available r).1 = true ↔
      crc_of 0xFFFF (Bytes.toList r.rx_buffer r.rx_buffer_len) = 0xF0B8 ∧
      (r.rx_buffer 1 = r.address ∨ r.rx_buffer 1 = DEFAULT_ADDRESS ∨ r.rx_buffer_valid = true) := by
  obtain ⟨m1, m2, m3, m4, m5⟩ := set_mode_rx_keeps r
  by_cases hc : crc_of 0xFFFF (Bytes.toList r.rx_buffer r.rx_buffer_len) = 0xF0B8
  · by_cases ha : r.rx_buffer 1 = r.address
    · simp [available, hmode, m1, hfull, validate_rx_buffer, validate_crc, m2, m3, m5, hc, ha]
    · by_cases hd : r.rx_buffer 1 = DEFAULT_ADDRESS
      · simp [available, hmode, m1, hfull, validate_rx_buffer, validate_crc, m2, m3, m5, hc, hd]
      · simp [available, hmode, m1, hfull, validate_rx_buffer, validate_crc, m2, m3, m4, m5, hc,
          ha, hd]
  · simp [available, hmode, m1, hfull, validate_rx_buffer, validate_crc, m2, m3, hc]

/-- The address filter of `validate_rx_buffer` as it works when `rx_buffer_valid` is false
before the call: a frame reported by `available` has a right CRC and is addressed to this node
or to the wildcard. -/
theorem available_filters (r : Radio) (hmode : r.mode ≠ RadioMode.Tx)
    (hfull : r.rx_buffer_full = true) (hvalid : r.rx_buffer_valid = false)
    (h : (available r).1 = true) :
    crc_of 0xFFFF (Bytes.toList r.rx_buffer r.rx_buffer_len) = 0xF0B8 ∧
    (r.rx_buffer 1 = r.address ∨ r.rx_buffer 1 = DEFAULT_ADDRESS) := by
  obtain ⟨h1, h2⟩ := (available_full_iff r hmode hfull).1 h
  refine ⟨h1, ?_⟩
  rcases h2 with h2 | h2 | h2
  · exact Or.inl h2
  · exact Or.inr h2
  · rw [hvalid] at h2; cases h2

/-- What `available` leaves behind when the mode is not `Tx`: the receive buffer as it was, no
full frame pending, the mode `Rx`, and the validity flag equal to the value returned. -/
theorem available_state (r : Radio) (hmode : r.mode ≠ RadioMode.Tx) :
    (available r).2.rx_buffer = r.rx_buffer ∧
    (available r).2.rx_buffer_len = r.rx_buffer_len ∧
    (available r).2.rx_buffer_full = false ∧
    (available r).2.mode = RadioMode.Rx ∧
    (available r).2.rx_buffer_valid = (available r).1 := by
  have hrx : (set_mode_rx r).mode = RadioMode.Rx := by
    simp only [set_mode_rx]; split_ifs with h
    · exact h
    · rfl
  obtain ⟨m1, m2, m3, m4, m5⟩ := set_mode_rx_keeps r
  have hv : (validate_rx_buffer (set_mode_rx r)).rx_buffer = r.rx_buffer ∧
      (validate_rx_buffer (set_mode_rx r)).rx_buffer_len = r.rx_buffer_len ∧
      (validate_rx_buffer (set_mode_rx r)).mode = RadioMode.Rx := by
    simp only [validate_rx_buffer]
    split_ifs <;> exact ⟨m3, m2, hrx⟩
  simp only [available, if_neg hmode]
  by_cases hfull : (set_mode_rx r).rx_buffer_full = true
  · simp only [hfull, if_true]
    exact ⟨hv.1, hv.2.1, trivial, hv.2.2, trivial⟩
  · simp only [hfull]
    exact ⟨m3, m2, by simpa using hfull, hrx, trivial⟩

theorem recv_state (r : Radio) (buffer : Bytes) (len : Nat) (h : (available r).1 = true) :
    (recv r buffer len).2.2.2 = { (available r).2 with rx_buffer_valid := false } := by
  simp only [recv, h]
  rfl

theorem recv_false (r : Radio) (buffer : Bytes) (len : Nat) (h : (available r).1 = false) :
    (recv r buffer len).1 = false ∧ (recv r buffer len).2.1 = buffer ∧
    (recv r buffer len).2.2.1 = len := by
  simp only [recv, h]
  exact ⟨rfl, rfl, rfl⟩

/-! ## Theorems: replies, results and invariants of a session -/

theorem program_step_some (BUFFER_SIZE : Nat) (e : Engine) (p : Poll) (payload : List Nat)
    (hf : p.frame = some payload) :
    program_step BUFFER_SIZE e p = process_record (take_frame BUFFER_SIZE e payload p.now) := by
  unfold program_step
  simp only [hf]
  rfl

theorem program_step_none (BUFFER_SIZE : Nat) (e : Engine) (p : Poll) (hf : p.frame = none) :
    program_step BUFFER_SIZE e p =
      if (p.now + 4294967296 - e.last_update_time) % 4294967296 > PROGRAMMING_TIMEOUT_MS then
        if e.is_flash_modified then (e, some false)
        else
          ({ e with
            flash := set_recovery_state e.flash false
            log := e.log ++ [Event.set_recovery_state false] }, some false)
      else (e, none) := by
  unfold program_step
  simp only [hf]

theorem program_loop_single (BUFFER_SIZE : Nat) (p : Poll) (e : Engine) :
    program_loop BUFFER_SIZE [p] e = program_step BUFFER_SIZE e p := by
  unfold program_loop
  rcases hr : program_step BUFFER_SIZE e p with ⟨e2, res⟩
  cases res with
  | none => simp only [program_loop]
  | some b => rfl

theorem checksum_fold (buffer : Bytes) : ∀ (n s : Nat),
    (List.range n).foldl (fun sum i => (sum + buffer (4 + i)) % 256) (s % 256) =
      (s + ((List.range n).map (fun i => buffer (4 + i))).sum) % 256 := by
  intro n
  induction n with
  | zero => intro s; simp
  | succ n ih =>
    intro s
    rw [List.range_succ, List.foldl_append, ih, List.map_append, List.sum_append]
    simp only [List.foldl_cons, List.foldl_nil, List.map_cons, List.map_nil, List.sum_cons,
      List.sum_nil]
    omega

/-- The checksum the engine computes is the one the record format prescribes. -/
theorem record_calc_eq (buffer : Bytes) : record_calc buffer = spec_checksum buffer := by
  simp only [record_calc, spec_checksum, record_sum]
  rw [checksum_fold]
  omega

theorem replies_append (l l2 : List Event) : replies (l ++ l2) = replies l ++ replies l2 := by
  induction l with
  | nil => rfl
  | cons ev l ih => cases ev <;> simp [replies, ih]

theorem replies_flush_page (e : Engine) : replies (flush_page e).log = replies e.log := by
  rw [flush_page_log, replies_append]
  split_ifs <;> simp [replies]

theorem mark_modified_fields (e : Engine) :
    (mark_modified e).is_flash_modified = true ∧
    (mark_modified e).current_page_addr = e.current_page_addr ∧
    (mark_modified e).page_dirty = e.page_dirty ∧
    replies (mark_modified e).log = replies e.log ∧
    page_writes (mark_modified e).log = page_writes e.log := by
  unfold mark_modified
  cases hm : e.is_flash_modified with
  | true => simp [hm]
  | false => simp [hm, replies_append, page_writes_append, replies, page_writes]

theorem switch_page_fields (e : Engine) (page_addr : Nat) :
    (switch_page e page_addr).is_flash_modified = e.is_flash_modified ∧
    (switch_page e page_addr).current_page_addr = page_addr ∧
    replies (switch_page e page_addr).log = replies e.log := by
  unfold switch_page
  split_ifs with h
  · exact ⟨(flush_page_keeps e).1, rfl, replies_flush_page e⟩
  · exact ⟨rfl, (not_not.mp h), rfl⟩

theorem data_case_fields (e : Engine) (address data_len : Nat) (data : Bytes) :
    (data_case e address data_len data).is_flash_modified = true ∧
    (data_case e address data_len data).current_page_addr = address &&& 0xFF80 ∧
    (data_case e address data_len data).flash
      = (switch_page (mark_modified e) (address &&& 0xFF80)).flash ∧
    replies (data_case e address data_len data).log = replies e.log ++ [PRG] := by
  rw [data_case_eq]
  obtain ⟨s1, s2, s3⟩ := switch_page_fields (mark_modified e) (address &&& 0xFF80)
  obtain ⟨m1, m2, m3, m4, m5⟩ := mark_modified_fields e
  refine ⟨by rw [← m1, ← s1], s2, rfl, ?_⟩
  simp only [replies_append, s3, m4]
  simp [replies]

theorem eof_case_replies (e : Engine) : replies (eof_case e).log = replies e.log ++ [DNE] := by
  show replies ((flush_page e).log ++ [Event.set_recovery_state false, Event.send DNE]) = _
  rw [replies_append, replies_flush_page]
  simp [replies]

/-- The engine sends one reply for the record in its buffer, the one the protocol prescribes. -/
theorem process_record_replies (e : Engine) :
    replies (process_record e).1.log = replies e.log ++ [reply_of e.buffer] := by
  unfold reply_of
  rw [← record_calc_eq]
  rcases process_record_cases e with ⟨hc, hr⟩ | ⟨hc, ht, hr⟩ | ⟨hc, ht, hr⟩ | ⟨hc, ht0, ht1, hr⟩
  · rw [hr, if_pos (fun h => hc h.symm)]
    simp [replies_append, replies]
  · rw [hr, if_neg (not_not.mpr hc.symm), if_neg (by rw [ht]; decide)]
    exact (data_case_fields e _ _ _).2.2.2
  · rw [hr, if_neg (not_not.mpr hc.symm), if_pos ht]
    exact eof_case_replies e
  · rw [hr, if_neg (not_not.mpr hc.symm), if_neg ht1]
    simp [replies_append, replies]

/-- The engine returns, and returns true, exactly on a checksum-valid record of type 0x01. -/
theorem process_record_result (e : Engine) :
    ((process_record e).2 = some true ↔
      e.buffer (4 + e.buffer 0) = spec_checksum e.buffer ∧ e.buffer 3 = 0x01) ∧
    (process_record e).2 ≠ some false := by
  rw [← record_calc_eq]
  rcases process_record_cases e with ⟨hc, hr⟩ | ⟨hc, ht, hr⟩ | ⟨hc, ht, hr⟩ | ⟨hc, ht0, ht1, hr⟩
  · rw [hr]
    exact ⟨⟨(fun h => by cases h), fun h => absurd h.1.symm hc⟩, by simp⟩
  · rw [hr]
    exact ⟨⟨(fun h => by cases h), fun h => by rw [ht] at h; exact absurd h.2 (by decide)⟩, by simp⟩
  · rw [hr]
    exact ⟨⟨fun _ => ⟨hc.symm, ht⟩, fun _ => rfl⟩, by simp⟩
  · rw [hr]
    exact ⟨⟨(fun h => by cases h), fun h => absurd h.2 ht1⟩, by simp⟩

theorem session_inv_init (flash buffer page_buffer : Bytes) (start : Nat) :
    session_inv flash (program_init flash buffer page_buffer start) := by
  refine ⟨⟨(fun h => by cases h), (fun ⟨a, n, h⟩ => by cases h)⟩, (fun _ => ⟨rfl, rfl⟩),
    (fun h => by cases h)⟩

theorem session_inv_send (flash0 : Bytes) (e : Engine) (m : List Nat) (h : session_inv flash0 e) :
    session_inv flash0 { e with log := e.log ++ [Event.send m] } := by
  obtain ⟨h1, h2, h3⟩ := h
  refine ⟨?_, h2, h3⟩
  show e.is_flash_modified = true ↔ ∃ a n, Event.data_record a n ∈ e.log ++ [Event.send m]
  rw [h1]
  constructor
  · rintro ⟨a, n, hm⟩
    exact ⟨a, n, List.mem_append_left _ hm⟩
  · rintro ⟨a, n, hm⟩
    rcases List.mem_append.mp hm with hm | hm
    · exact ⟨a, n, hm⟩
    · simp at hm

theorem and_FF80_ne (a : Nat) : a &&& 0xFF80 ≠ 0xFFFF := by
  have : a &&& 0xFF80 ≤ 0xFF80 := Nat.and_le_right
  omega

theorem process_record_session (flash0 : Bytes) (e : Engine) (h : session_inv flash0 e)
    (hn : (process_record e).2 = none) : session_inv flash0 (process_record e).1 := by
  rcases process_record_cases e with ⟨_, hr⟩ | ⟨_, _, hr⟩ | ⟨_, _, hr⟩ | ⟨_, _, _, hr⟩
  · rw [hr]; exact session_inv_send flash0 e CHK h
  · rw [hr]
    obtain ⟨d1, d2, _, _⟩ := data_case_fields e (((e.buffer 1 <<< 8) ||| e.buffer 2) % 65536)
      (e.buffer 0) (fun i => e.buffer (4 + i))
    refine ⟨⟨fun _ => ⟨_, _, (data_case_log e _ _ _).1⟩, fun _ => d1⟩, ?_, ?_⟩
    · intro hf
      rw [d1] at hf
      cases hf
    · intro _
      rw [d2]
      exact and_FF80_ne _
  · rw [hr] at hn; cases hn
  · rw [hr]; exact session_inv_send flash0 e PRG h

theorem program_step_session (BUFFER_SIZE : Nat) (flash0 : Bytes) (e : Engine) (p : Poll)
    (h : session_inv flash0 e) (hn : (program_step BUFFER_SIZE e p).2 = none) :
    session_inv flash0 (program_step BUFFER_SIZE e p).1 := by
  cases hf : p.frame with
  | none =>
    rw [program_step_none BUFFER_SIZE e p hf] at hn ⊢
    split_ifs at hn ⊢ with ht hm
    · exact h
  | some payload =>
    rw [program_step_some BUFFER_SIZE e p payload hf] at hn ⊢
    exact process_record_session flash0 _ h hn

theorem process_record_time (e : Engine) :
    (process_record e).1.last_update_time = e.last_update_time := by
  rcases process_record_cases e with ⟨_, hr⟩ | ⟨_, _, hr⟩ | ⟨_, _, hr⟩ | ⟨_, _, _, hr⟩
  · rw [hr]
  · rw [hr, data_case_eq]
    show (switch_page (mark_modified e) _).last_update_time = _
    have hmm : (mark_modified e).last_update_time = e.last_update_time := by
      unfold mark_modified; split_ifs <;> rfl
    unfold switch_page
    split_ifs
    · show (flush_page (mark_modified e)).last_update_time = _
      rw [(flush_page_keeps _).2.2.2.2.2, hmm]
    · exact hmm
  · rw [hr]
    show (flush_page e).last_update_time = _
    exact (flush_page_keeps e).2.2.2.2.2
  · rw [hr]

theorem program_step_time (BUFFER_SIZE : Nat) (e : Engine) (p : Poll)
    (hn : (program_step BUFFER_SIZE e p).2 = none) :
    (program_step BUFFER_SIZE e p).1.last_update_time =
      if p.frame.isSome then p.now else e.last_update_time := by
  cases hf : p.frame with
  | none =>
    rw [program_step_none BUFFER_SIZE e p hf] at hn ⊢
    simp only [Option.isSome_none, Bool.false_eq_true, if_false]
    split_ifs at hn ⊢ with ht hm
    · rfl
  | some payload =>
    rw [program_step_some BUFFER_SIZE e p payload hf, process_record_time]
    rfl

/-- A session that is still running has the session invariant, and its timeout counts from
the last frame received. -/
theorem program_loop_session (BUFFER_SIZE : Nat) (flash0 : Bytes) (polls : List Poll) :
    ∀ (e : Engine), session_inv flash0 e → (program_loop BUFFER_SIZE polls e).2 = none →
      session_inv flash0 (program_loop BUFFER_SIZE polls e).1 ∧
      (program_loop BUFFER_SIZE polls e).1.last_update_time
        = last_frame_time e.last_update_time polls := by
  induction polls with
  | nil => intro e h _; exact ⟨h, rfl⟩
  | cons p ps ih =>
    intro e h hn
    rcases hr : program_step BUFFER_SIZE e p with ⟨e2, res⟩
    cases res with
    | none =>
      rw [program_loop_cons_none BUFFER_SIZE p ps e e2 hr] at hn ⊢
      have hs := program_step_session BUFFER_SIZE flash0 e p h (by rw [hr])
      have ht := program_step_time BUFFER_SIZE e p (by rw [hr])
      rw [hr] at hs ht
      obtain ⟨i1, i2⟩ := ih e2 hs hn
      refine ⟨i1, ?_⟩
      rw [i2]
      simp only [] at ht
      rw [ht]
      rfl
    | some b =>
      rw [program_loop_cons_some BUFFER_SIZE p ps e e2 b hr] at hn
      cases hn

theorem marker_kept_init (flash buffer page_buffer : Bytes) (start : Nat) :
    marker_kept (program_init flash buffer page_buffer start) :=
  ⟨(fun h => by cases h), Or.inl rfl⟩

theorem process_record_marker_kept (e : Engine) (h : marker_kept e)
    (happ : ∀ a n, Event.data_record a n ∈ (process_record e).1.log → a < BOOT_START)
    (hn : (process_record e).2 = none) : marker_kept (process_record e).1 := by
  rcases process_record_cases e with ⟨_, hr⟩ | ⟨_, _, hr⟩ | ⟨_, _, hr⟩ | ⟨_, _, _, hr⟩
  · rw [hr]; exact h
  · rw [hr] at happ ⊢
    have ha := happ _ _ (data_case_log e _ _ _).1
    obtain ⟨d1, d2, d3, _⟩ := data_case_fields e (((e.buffer 1 <<< 8) ||| e.buffer 2) % 65536)
      (e.buffer 0) (fun i => e.buffer (4 + i))
    obtain ⟨m1, m2, _, _, _⟩ := mark_modified_fields e
    have hp : (mark_modified e).current_page_addr = 0xFFFF ∨
        (mark_modified e).current_page_addr < BOOT_START := by rw [m2]; exact h.2
    have hcm : check_recovery_bytes (mark_modified e).flash = true := by
      unfold mark_modified
      cases hm : e.is_flash_modified with
      | true => simpa [hm] using h.1 hm
      | false => simpa [hm] using check_set_recovery_state e.flash true
    refine ⟨fun _ => ?_, Or.inr ?_⟩
    · rw [d3, (switch_page_marker (mark_modified e) _ hp).1]
      exact hcm
    · rw [d2]
      exact lt_of_le_of_lt (and_FF80_le _) ha
  · rw [hr] at hn; cases hn
  · rw [hr]; exact h

theorem program_step_marker_kept (BUFFER_SIZE : Nat) (e : Engine) (p : Poll) (h : marker_kept e)
    (happ : ∀ a n, Event.data_record a n ∈ (program_step BUFFER_SIZE e p).1.log →
      a < BOOT_START)
    (hn : (program_step BUFFER_SIZE e p).2 = none) :
    marker_kept (program_step BUFFER_SIZE e p).1 := by
  cases hf : p.frame with
  | none =>
    rw [program_step_none BUFFER_SIZE e p hf] at hn ⊢
    split_ifs at hn ⊢ with ht hm
    · exact h
  | some payload =>
    rw [program_step_some BUFFER_SIZE e p payload hf] at hn happ ⊢
    exact process_record_marker_kept _ h happ hn

/-- In a session whose data records target application addresses, the marker is set once a
data record has been processed, whatever the flash held at entry. -/
theorem program_loop_marker_kept (BUFFER_SIZE : Nat) (polls : List Poll) :
    ∀ (e : Engine), marker_kept e →
      (∀ a n, Event.data_record a n ∈ (program_loop BUFFER_SIZE polls e).1.log →
        a < BOOT_START) →
      (program_loop BUFFER_SIZE polls e).2 = none →
      marker_kept (program_loop BUFFER_SIZE polls e).1 := by
  induction polls with
  | nil => intro e h _ _; exact h
  | cons p ps ih =>
    intro e h happ hn
    rcases hr : program_step BUFFER_SIZE e p with ⟨e2, res⟩
    cases res with
    | none =>
      rw [program_loop_cons_none BUFFER_SIZE p ps e e2 hr] at hn happ ⊢
      have hs := program_step_marker_kept BUFFER_SIZE e p h (by
        intro a n hmem
        rw [hr] at hmem
        exact happ a n (program_loop_log BUFFER_SIZE ps e2 _ hmem)) (by rw [hr])
      rw [hr] at hs
      exact ih e2 hs happ hn
    | some b =>
      rw [program_loop_cons_some BUFFER_SIZE p ps e e2 b hr] at hn
      cases hn

/-- A record built by `mk_record` that fits the receive buffer is checksum-valid for the
engine and shows its type. -/
theorem take_frame_mk_record (BUFFER_SIZE : Nat) (e : Engine) (a t : Nat) (d : List Nat)
    (now : Nat) (hfit : 5 + d.length ≤ BUFFER_SIZE % 256) :
    (take_frame BUFFER_SIZE e (mk_record a t d) now).buffer
        (4 + (take_frame BUFFER_SIZE e (mk_record a t d) now).buffer 0)
      = spec_checksum (take_frame BUFFER_SIZE e (mk_record a t d) now).buffer ∧
    (take_frame BUFFER_SIZE e (mk_record a t d) now).buffer 3 = t := by
  have hb : ∀ j, j < d.length + 5 →
      (take_frame BUFFER_SIZE e (mk_record a t d) now).buffer j = (mk_record a t d).getD j 0 := by
    intro j hj
    exact recv_payload_fits (mk_record a t d) e.buffer (BUFFER_SIZE % 256)
      (by rw [mk_record_length]; omega) j (by rw [mk_record_length]; exact hj)
  refine ⟨?_, ?_⟩
  · rw [← record_calc_eq]
    exact (record_calc_mk _ a t d hb).symm
  · rw [hb 3 (by omega)]
    exact (mk_record_get a t d).2.2.2.1

theorem program_step_of_none (BUFFER_SIZE : Nat) (e : Engine) (p : Poll)
    (h : (program_step BUFFER_SIZE e p).2 = none) :
    program_step BUFFER_SIZE e p = ((program_step BUFFER_SIZE e p).1, none) := by
  rw [← h]

theorem process_record_none (e : Engine) (h : e.buffer 3 ≠ 0x01) :
    (process_record e).2 = none := by
  obtain ⟨h1, h2⟩ := process_record_result e
  cases hr : (process_record e).2 with
  | none => rfl
  | some b =>
    cases b with
    | true => exact absurd (h1.1 hr).2 h
    | false => exact absurd hr h2

/-- One data record and the end-of-file record: the replies are `PRG`, `DNE` and the call
returns true. -/
theorem session_prg_dne (BUFFER_SIZE : Nat) (flash buffer page_buffer : Bytes) (start : Nat)
    (a a2 : Nat) (d d2 : List Nat) (now1 now2 : Nat)
    (hfit : 5 + d.length ≤ BUFFER_SIZE % 256) (hfit2 : 5 + d2.length ≤ BUFFER_SIZE % 256) :
    replies (program_flash BUFFER_SIZE flash buffer page_buffer start
      [⟨some (mk_record a 0 d), now1⟩, ⟨some (mk_record a2 1 d2), now2⟩]).1.log = [PRG, DNE] ∧
    (program_flash BUFFER_SIZE flash buffer page_buffer start
      [⟨some (mk_record a 0 d), now1⟩, ⟨some (mk_record a2 1 d2), now2⟩]).2 = some true := by
  have hs1 := program_step_some BUFFER_SIZE (program_init flash buffer page_buffer start)
    ⟨some (mk_record a 0 d), now1⟩ (mk_record a 0 d) rfl
  obtain ⟨v1, t1⟩ := take_frame_mk_record BUFFER_SIZE
    (program_init flash buffer page_buffer start) a 0 d now1 hfit
  have hn1 : (program_step BUFFER_SIZE (program_init flash buffer page_buffer start)
      ⟨some (mk_record a 0 d), now1⟩).2 = none := by
    rw [hs1]
    exact process_record_none _ (by rw [t1]; decide)
  have hr1 : replies (program_step BUFFER_SIZE (program_init flash buffer page_buffer start)
      ⟨some (mk_record a 0 d), now1⟩).1.log = [PRG] := by
    rw [hs1, process_record_replies]
    unfold reply_of
    rw [if_neg (not_not.mpr v1), if_neg (by rw [t1]; decide)]
    rfl
  have hloop : program_flash BUFFER_SIZE flash buffer page_buffer start
      [⟨some (mk_record a 0 d), now1⟩, ⟨some (mk_record a2 1 d2), now2⟩]
      = program_step BUFFER_SIZE
          (program_step BUFFER_SIZE (program_init flash buffer page_buffer start)
            ⟨some (mk_record a 0 d), now1⟩).1 ⟨some (mk_record a2 1 d2), now2⟩ := by
    unfold program_flash
    rw [program_loop_cons_none BUFFER_SIZE _ _ _ _
      (program_step_of_none BUFFER_SIZE _ _ hn1), program_loop_single]
  rw [hloop]
  generalize (program_step BUFFER_SIZE (program_init flash buffer page_buffer start)
      ⟨some (mk_record a 0 d), now1⟩).1 = e2 at hr1 ⊢
  have hs2 := program_step_some BUFFER_SIZE e2 ⟨some (mk_record a2 1 d2), now2⟩
    (mk_record a2 1 d2) rfl
  obtain ⟨v2, t2⟩ := take_frame_mk_record BUFFER_SIZE e2 a2 1 d2 now2 hfit2
  rw [hs2]
  refine ⟨?_, (process_record_result _).1.2 ⟨v2, t2⟩⟩
  rw [process_record_replies]
  unfold reply_of
  rw [if_neg (not_not.mpr v2), if_pos t2]
  show replies e2.log ++ [DNE] = _
  rw [hr1]
  rfl

/-- The end-of-file case: a dirty page buffer is written to its page, then the marker is
cleared. -/
theorem eof_case_flush (e : Engine) :
    check_recovery_bytes (eof_case e).flash = false ∧
    (e.page_dirty = true → e.current_page_addr ≠ 0xFFFF →
      page_writes (eof_case e).log = page_writes e.log ++
        [(e.current_page_addr, Bytes.toList e.page_buffer SPM_PAGESIZE)] ∧
      (eof_case e).flash = set_recovery_state
        (write_page e.flash e.current_page_addr e.page_buffer SPM_PAGESIZE) false) ∧
    (e.page_dirty = false →
      page_writes (eof_case e).log = page_writes e.log ∧
      (eof_case e).flash = set_recovery_state e.flash false) := by
  refine ⟨check_eof_case e, fun hd hc => ?_, fun hd => ?_⟩
  · have hf : flush_page e = { e with
        flash := write_page e.flash e.current_page_addr e.page_buffer SPM_PAGESIZE
        log := e.log ++ [Event.write_page e.current_page_addr
          (Bytes.toList e.page_buffer SPM_PAGESIZE)] } := by
      unfold flush_page
      rw [if_pos ⟨hd, hc⟩]
    unfold eof_case
    simp only [hf]
    simp [page_writes_append, page_writes]
  · have hf : flush_page e = e := by
      unfold flush_page
      rw [if_neg (by rw [hd]; simp)]
    unfold eof_case
    simp only [hf]
    simp [page_writes_append, page_writes]

/-! ## Theorems: the marker bytes, and a changed byte in the receive buffer -/

/-- The marker update leaves every byte outside the four marker bytes as it was, given that
the marker's page holds bytes. -/
theorem set_recovery_state_frame (flash : Bytes) (b : Bool)
    (hbytes : ∀ a, a / 128 = 255 → flash a < 256) (a : Nat)
    (ha : a < FLASHEND - 3 ∨ FLASHEND < a) : set_recovery_state flash b a = flash a := by
  rw [set_recovery_state_get]
  simp only [FLASHEND] at ha
  by_cases hpg : a / 128 = 255
  · rw [if_pos hpg]
    have hrd : pgm_read_byte_near flash ((32640 + a % 128) % 65536) = flash a := by
      simp only [pgm_read_byte_near, FLASHEND]
      have h1 : (32640 + a % 128) % 65536 % (32767 + 1) = a := by omega
      rw [h1]
      exact Nat.mod_eq_of_lt (hbytes a hpg)
    cases b with
    | true =>
      simp only [if_true]
      rw [store_other _ _ _ _ (by omega), store_other _ _ _ _ (by omega),
        store_other _ _ _ _ (by omega), store_other _ _ _ _ (by omega)]
      exact hrd
    | false =>
      simp only [Bool.false_eq_true, if_false]
      rw [store_other _ _ _ _ (by omega), store_other _ _ _ _ (by omega),
        store_other _ _ _ _ (by omega), store_other _ _ _ _ (by omega)]
      exact hrd
  · rw [if_neg hpg]

theorem set_recovery_state_marker (flash : Bytes) (b : Bool) :
    [set_recovery_state flash b 0x7FFC, set_recovery_state flash b 0x7FFD,
      set_recovery_state flash b 0x7FFE, set_recovery_state flash b 0x7FFF]
      = if b then [0xEF, 0xBE, 0xAD, 0xDE] else [0xFF, 0xFF, 0xFF, 0xFF] := by
  simp only [set_recovery_state_get]
  cases b <;> simp [store]

theorem toList_length (m : Bytes) (n : Nat) : (Bytes.toList m n).length = n := by
  simp [Bytes.toList]

theorem toList_getD (m : Bytes) (n k : Nat) (hk : k < n) : (Bytes.toList m n).getD k 0 = m k := by
  rw [List.getD_eq_getElem _ _ (by rw [toList_length]; exact hk)]
  simp [Bytes.toList]

theorem toList_store (m : Bytes) (n i v : Nat) (hi : i < n) :
    Bytes.toList (store m i v) n = (Bytes.toList m n).set i v := by
  apply List.ext_getElem
  · rw [List.length_set, toList_length, toList_length]
  · intro k h1 h2
    rw [toList_length] at h1
    simp only [Bytes.toList, List.getElem_map, List.getElem_range, List.getElem_set, store]
    by_cases hk : k = i
    · subst hk; simp
    · rw [if_neg hk, if_neg (fun h => hk h.symm)]

/-- One byte of a frame with a right CRC changed, its length kept: the CRC is wrong. -/
theorem crc_of_store_ne (rx_buffer : Bytes) (n i v : Nat) (hi : i < n)
    (hbytes : ∀ k, k < n → rx_buffer k < 256) (hv : v < 256) (hne : v ≠ rx_buffer i)
    (hcrc : crc_of 0xFFFF (Bytes.toList rx_buffer n) = 0xF0B8) :
    crc_of 0xFFFF (Bytes.toList (store rx_buffer i v) n) ≠ 0xF0B8 := by
  rw [toList_store _ _ _ _ hi]
  apply crc_of_set_ne _ _ _ (by rw [toList_length]; exact hi) _ hv _ hcrc
  · intro k hk
    rw [toList_length] at hk
    rw [toList_getD _ _ _ hk]
    exact hbytes k hk
  · rw [toList_getD _ _ _ hi]
    exact hne

/-! ## Theorems: a transmission tick by tick -/

theorem and_bit_mask (x b : Nat) (hb : b < 16) :
    decide ((x &&& ((1 <<< b) % 65536)) ≠ 0) = x.testBit b := by
  have h : 2 ^ b < 65536 := by
    have : 2 ^ b < 2 ^ 16 := Nat.pow_lt_pow_right (by norm_num) hb
    simpa using this
  rw [Nat.one_shiftLeft, Nat.mod_eq_of_lt h, Nat.and_two_pow]
  cases x.testBit b <;> simp

/-- The pin after a call of `transmit_timer` is what the call wrote, or what it was. -/
theorem transmit_timer_pin (r : Radio) :
    (transmit_timer r).tx_pin = (transmit_pin_write r).getD r.tx_pin := by
  simp only [transmit_timer, transmit_pin_write, set_mode_idle]
  split_ifs <;> rfl

theorem tx_at_step (t0 r : Radio) (j : Nat) (h : tx_at t0 j r) (hlen : t0.tx_buffer_len ≤ 255)
    (hj : j < 48 * t0.tx_buffer_len) :
    tx_at t0 (j + 1) (transmit_timer r) ∧
    (j % 8 ≠ 0 → transmit_pin_write r = none) ∧
    (j % 8 = 0 → transmit_pin_write r =
      some ((t0.tx_buffer (j / 8 / 6)).testBit (j / 8 % 6))) := by
  obtain ⟨mode, address, hto, frm, hid, flags, index, bit, sample, len, buf, pin⟩ := r
  obtain ⟨h1, h2, h3, h4, h5, h6, h7⟩ := h
  simp only at h1 h2 h3 h4 h5 h6 h7
  subst h1 h2 h3 h4 h5 h6
  by_cases h8 : j % 8 = 0
  · have hs : j % 8 = 0 := h8
    have hidx : (j + 7) / 8 / 6 = j / 8 / 6 := by omega
    have hbit : (j + 7) / 8 % 6 = j / 8 % 6 := by omega
    have hlt : ¬ (j + 7) / 8 / 6 ≥ t0.tx_buffer_len := by omega
    have hmask := and_bit_mask (t0.tx_buffer (j / 8 / 6)) (j / 8 % 6) (by omega)
    refine ⟨?_, fun h => absurd h8 h, fun _ => ?_⟩
    · simp only [tx_at, transmit_timer, set_mode_idle, hs, hlt, if_true, if_false]
      by_cases hb6 : ((j + 7) / 8 % 6 + 1) % 256 ≥ 6
      · simp only [hb6, if_true]
        refine ⟨by simp, by simp, by simp, by simp; omega, by simp; omega, by simp; omega, ?_⟩
        intro _
        simp only [hidx, hbit, hmask, Nat.add_sub_cancel]
        simp
      · simp only [hb6, if_false]
        refine ⟨by simp, by simp, by simp, by simp; omega, by simp; omega, by simp; omega, ?_⟩
        intro _
        simp only [hidx, hbit, hmask, Nat.add_sub_cancel]
        simp
    · simp only [transmit_pin_write, hs, if_true, hidx, hbit, hmask]
      rw [hidx] at hlt
      rw [if_neg hlt]
  · refine ⟨?_, fun _ => ?_, fun h => absurd h h8⟩
    · simp only [tx_at, transmit_timer, h8, if_false]
      have hp : (j + 1 - 1) / 8 = (j - 1) / 8 := by omega
      by_cases hs7 : (j % 8 + 1) % 256 > 7
      · simp only [hs7, if_true]
        refine ⟨trivial, trivial, trivial, by omega, by omega, by omega, ?_⟩
        intro _
        rw [h7 (by omega), Nat.add_sub_cancel]
        have : j / 8 = (j - 1) / 8 := by omega
        rw [this]
      · simp only [hs7, if_false]
        refine ⟨trivial, trivial, trivial, by omega, by omega, by omega, ?_⟩
        intro _
        rw [h7 (by omega), Nat.add_sub_cancel]
        have : j / 8 = (j - 1) / 8 := by omega
        rw [this]
    · simp only [transmit_pin_write, h8, if_false]

theorem tx_at_zero (r : Radio) (hmode : r.mode ≠ RadioMode.Tx) :
    tx_at (set_mode_tx r) 0 (set_mode_tx r) := by
  simp [tx_at, set_mode_tx, hmode]

theorem set_mode_tx_len (r : Radio) : (set_mode_tx r).tx_buffer_len = r.tx_buffer_len :=
  (set_mode_tx_keeps r).2

/-- The state of a transmission before each of its calls of `transmit_timer`. -/
theorem tx_at_iterate (t0 : Radio) (hlen : t0.tx_buffer_len ≤ 255) (h0 : tx_at t0 0 t0) :
    ∀ j, j ≤ 48 * t0.tx_buffer_len → tx_at t0 j (transmit_timer^[j] t0) := by
  intro j
  induction j with
  | zero => intro _; exact h0
  | succ j ih =>
    intro hj
    rw [Function.iterate_succ_apply']
    exact (tx_at_step t0 _ j (ih (by omega)) hlen (by omega)).1

/-- The call after the last bit ends the transmission: mode `Idle`, pin low. -/
theorem tx_at_end (t0 r : Radio) (h : tx_at t0 (48 * t0.tx_buffer_len) r) :
    (transmit_timer r).mode = RadioMode.Idle ∧ transmit_pin_write r = some false ∧
    (transmit_timer r).tx_pin = false := by
  obtain ⟨mode, address, hto, frm, hid, flags, index, bit, sample, len, buf, pin⟩ := r
  obtain ⟨h1, h2, h3, h4, h5, h6, h7⟩ := h
  simp only at h1 h2 h3 h4 h5 h6 h7
  subst h1 h2 h3 h4 h5 h6
  have hs : 48 * t0.tx_buffer_len % 8 = 0 := by omega
  have hi : (48 * t0.tx_buffer_len + 7) / 8 / 6 ≥ t0.tx_buffer_len := by omega
  simp [transmit_timer, transmit_pin_write, set_mode_idle, hs, hi]

/-! ## Theorems: the receive window bit by bit -/

/-- The function `receive_timer` is its first part followed, when the ramp has run over, by
the window update and the frame assembly. -/
theorem receive_timer_eq (r : Radio) (rx_sample : Bool) :
    receive_timer r rx_sample =
      if (receive_timer_pll r rx_sample).rx_pll_ramp < RADIO_RX_RAMP_LEN then
        receive_timer_pll r rx_sample
      else
        receive_timer_frame { receive_timer_pll r rx_sample with
          rx_bits := shift_window (receive_timer_pll r rx_sample).rx_bits
            (decide ((receive_timer_pll r rx_sample).rx_integrator ≥ 5))
          rx_pll_ramp := (receive_timer_pll r rx_sample).rx_pll_ramp - RADIO_RX_RAMP_LEN
          rx_integrator := 0 } := by
  simp only [receive_timer, receive_timer_pll, shift_window, decide_eq_true_eq]

theorem shift_window_eq (w : Nat) (b : Bool) (hw : w < 4096) :
    shift_window w b = w / 2 + 2048 * b.toNat := by
  simp only [shift_window, Nat.shiftRight_eq_div_pow, Nat.pow_one]
  cases b with
  | false => simp
  | true =>
    simp only [if_true, Bool.toNat_true, Nat.mul_one]
    have h : w / 2 < 2 ^ 11 := by
      rw [show (2 : Nat) ^ 11 = 2048 by norm_num]; omega
    have h2 := Nat.mul_add_lt_is_or h 1
    rw [show (2 : Nat) ^ 11 * 1 = 2048 by norm_num] at h2
    rw [Nat.or_comm, ← h2]
    omega

theorem shift_window_lt (w : Nat) (b : Bool) (hw : w < 4096) : shift_window w b < 4096 := by
  rw [shift_window_eq w b hw]
  have := Bool.toNat_le b
  omega

theorem symbol_bits_eq (s : Nat) :
    symbol_bits s = [s.testBit 0, s.testBit 1, s.testBit 2, s.testBit 3, s.testBit 4,
      s.testBit 5] := rfl

theorem symbol_value : ∀ s, s < 64 →
    (s.testBit 0).toNat + 2 * (s.testBit 1).toNat + 4 * (s.testBit 2).toNat +
    8 * (s.testBit 3).toNat + 16 * (s.testBit 4).toNat + 32 * (s.testBit 5).toNat = s := by
  decide

theorem or_shiftLeft_6 (a b : Nat) (ha : a < 64) : a ||| (b <<< 6) = 64 * b + a := by
  rw [Nat.or_comm, Nat.shiftLeft_eq, Nat.mul_comm b]
  exact (Nat.mul_add_lt_is_or (i := 6) ha b).symm

/-- Twelve bits shifted in replace the window: the first six make up bits 0 to 5, the last six
bits 6 to 11. -/
theorem window_after_symbols (w s1 s2 : Nat) (hw : w < 4096) (h1 : s1 < 64) (h2 : s2 < 64) :
    window_after w (symbol_bits s1 ++ symbol_bits s2) = s1 ||| (s2 <<< 6) := by
  rw [or_shiftLeft_6 s1 s2 h1]
  have v1 := symbol_value s1 h1
  have v2 := symbol_value s2 h2
  simp only [symbol_bits_eq, window_after, List.cons_append, List.nil_append, List.foldl_cons,
    List.foldl_nil]
  have e0 := shift_window_eq w (s1.testBit 0) hw
  have l0 := shift_window_lt w (s1.testBit 0) hw
  generalize shift_window w (s1.testBit 0) = w0 at e0 l0 ⊢
  have e1 := shift_window_eq w0 (s1.testBit 1) l0
  have l1 := shift_window_lt w0 (s1.testBit 1) l0
  generalize shift_window w0 (s1.testBit 1) = w1 at e1 l1 ⊢
  have e2 := shift_window_eq w1 (s1.testBit 2) l1
  have l2 := shift_window_lt w1 (s1.testBit 2) l1
  generalize shift_window w1 (s1.testBit 2) = w2 at e2 l2 ⊢
  have e3 := shift_window_eq w2 (s1.testBit 3) l2
  have l3 := shift_window_lt w2 (s1.testBit 3) l2
  generalize shift_window w2 (s1.testBit 3) = w3 at e3 l3 ⊢
  have e4 := shift_window_eq w3 (s1.testBit 4) l3
  have l4 := shift_window_lt w3 (s1.testBit 4) l3
  generalize shift_window w3 (s1.testBit 4) = w4 at e4 l4 ⊢
  have e5 := shift_window_eq w4 (s1.testBit 5) l4
  have l5 := shift_window_lt w4 (s1.testBit 5) l4
  generalize shift_window w4 (s1.testBit 5) = w5 at e5 l5 ⊢
  have e6 := shift_window_eq w5 (s2.testBit 0) l5
  have l6 := shift_window_lt w5 (s2.testBit 0) l5
  generalize shift_window w5 (s2.testBit 0) = w6 at e6 l6 ⊢
  have e7 := shift_window_eq w6 (s2.testBit 1) l6
  have l7 := shift_window_lt w6 (s2.testBit 1) l6
  generalize shift_window w6 (s2.testBit 1) = w7 at e7 l7 ⊢
  have e8 := shift_window_eq w7 (s2.testBit 2) l7
  have l8 := shift_window_lt w7 (s2.testBit 2) l7
  generalize shift_window w7 (s2.testBit 2) = w8 at e8 l8 ⊢
  have e9 := shift_window_eq w8 (s2.testBit 3) l8
  have l9 := shift_window_lt w8 (s2.testBit 3) l8
  generalize shift_window w8 (s2.testBit 3) = w9 at e9 l9 ⊢
  have e10 := shift_window_eq w9 (s2.testBit 4) l9
  have l10 := shift_window_lt w9 (s2.testBit 4) l9
  generalize shift_window w9 (s2.testBit 4) = w10 at e10 l10 ⊢
  have e11 := shift_window_eq w10 (s2.testBit 5) l10
  generalize shift_window w10 (s2.testBit 5) = w11 at e11 ⊢
  have b0 := Bool.toNat_le (s1.testBit 0)
  have b1 := Bool.toNat_le (s1.testBit 1)
  have b2 := Bool.toNat_le (s1.testBit 2)
  have b3 := Bool.toNat_le (s1.testBit 3)
  have b4 := Bool.toNat_le (s1.testBit 4)
  have b5 := Bool.toNat_le (s1.testBit 5)
  have b6 := Bool.toNat_le (s2.testBit 0)
  have b7 := Bool.toNat_le (s2.testBit 1)
  have b8 := Bool.toNat_le (s2.testBit 2)
  have b9 := Bool.toNat_le (s2.testBit 3)
  have b10 := Bool.toNat_le (s2.testBit 4)
  have b11 := Bool.toNat_le (s2.testBit 5)
  omega

theorem convert_loop_lt (symbol : Nat) : ∀ (count i : Nat), i + count ≤ 16 →
    convert_loop symbol count i < 16 := by
  intro count
  induction count with
  | zero => intro i _; simp [convert_loop]
  | succ n ih =>
    intro i hi
    simp only [convert_loop]
    split_ifs
    · omega
    · exact ih (i + 1) (by omega)

theorem convert_lt (symbol : Nat) : convert_to_4bit_symbols symbol < 16 := by
  unfold convert_to_4bit_symbols
  apply convert_loop_lt
  have : (symbol >>> 2) &&& 8 ≤ 8 := Nat.and_le_right
  omega

/-- The byte decoded from a window that holds the symbol `s1` in bits 0 to 5 and `s2` in bits
6 to 11. -/
theorem decode_window_pair (s1 s2 : Nat) (h1 : s1 < 64) (h2 : s2 < 64) :
    decode_window (s1 ||| (s2 <<< 6)) =
      (convert_to_4bit_symbols s1 <<< 4) ||| convert_to_4bit_symbols s2 := by
  have hw := or_shiftLeft_6 s1 s2 h1
  have ha : (s1 ||| (s2 <<< 6)) &&& 0x3F = s1 := by
    rw [hw, and_63]; omega
  have hb : ((s1 ||| (s2 <<< 6)) >>> 6) % 256 = s2 := by
    rw [hw, Nat.shiftRight_eq_div_pow]; norm_num; omega
  have c1 := convert_lt s1
  have c2 := convert_lt s2
  have hor : (convert_to_4bit_symbols s1 <<< 4) ||| convert_to_4bit_symbols s2
      = 16 * convert_to_4bit_symbols s1 + convert_to_4bit_symbols s2 := by
    rw [Nat.shiftLeft_eq, Nat.mul_comm]
    exact (Nat.mul_add_lt_is_or (i := 4) c2 _).symm
  simp only [decode_window, ha, hb]
  rw [hor]
  omega

theorem receive_bits_cons (r : Radio) (b : Bool) (bits : List Bool) :
    receive_bits r (b :: bits) =
      receive_bits (receive_timer_frame { r with rx_bits := shift_window r.rx_bits b }) bits :=
  rfl

theorem receive_bits_snoc (r : Radio) (bits : List Bool) (b : Bool) :
    receive_bits r (bits ++ [b]) =
      receive_timer_frame { receive_bits r bits with
        rx_bits := shift_window (receive_bits r bits).rx_bits b } := by
  simp [receive_bits, List.foldl_append]

/-- An inactive receiver stays as it is, the window apart, as long as the window does not
show the start symbol. -/
theorem receive_bits_inactive (bits : List Bool) : ∀ (r : Radio), r.rx_active = false →
    (∀ k, 1 ≤ k → k ≤ bits.length →
      window_after r.rx_bits (bits.take k) ≠ RADIO_START_SYMBOL) →
    receive_bits r bits = { r with rx_bits := window_after r.rx_bits bits } := by
  induction bits with
  | nil => intro r _ _; rfl
  | cons b bs ih =>
    intro r hact hno
    have h1 : shift_window r.rx_bits b ≠ RADIO_START_SYMBOL := by
      have := hno 1 (le_refl _) (by simp)
      simpa [window_after] using this
    have hstep : receive_timer_frame { r with rx_bits := shift_window r.rx_bits b }
        = { r with rx_bits := shift_window r.rx_bits b } := by
      simp [receive_timer_frame, hact, h1]
    rw [receive_bits_cons, hstep, ih { r with rx_bits := shift_window r.rx_bits b } hact]
    · rfl
    · intro k hk1 hk2
      have := hno (k + 1) (by omega) (by simp; omega)
      simpa [window_after] using this

/-- An active receiver counts the bits of a symbol pair in; nothing else changes before the
twelfth. -/
theorem receive_bits_active (bits : List Bool) : ∀ (r : Radio) (c : Nat), r.rx_active = true →
    r.rx_bit_count = c → c + bits.length < 12 →
    receive_bits r bits = { r with
      rx_bits := window_after r.rx_bits bits, rx_bit_count := c + bits.length } := by
  induction bits with
  | nil => intro r c _ hc _; subst hc; rfl
  | cons b bs ih =>
    intro r c hact hc hlen
    simp only [List.length_cons] at hlen
    have hstep : receive_timer_frame { r with rx_bits := shift_window r.rx_bits b }
        = { r with rx_bits := shift_window r.rx_bits b, rx_bit_count := c + 1 } := by
      have h1 : (c + 1) % 256 = c + 1 := by omega
      have h2 : ¬ c + 1 ≥ 12 := by omega
      simp [receive_timer_frame, receive_timer_active, hact, hc, h1, h2]
    rw [receive_bits_cons, hstep,
      ih { r with rx_bits := shift_window r.rx_bits b, rx_bit_count := c + 1 } (c + 1) hact rfl
        (by omega)]
    simp only [List.length_cons, window_after, List.foldl_cons]
    rw [show c + 1 + bs.length = c + (bs.length + 1) by omega]

/-- The bits of two symbols make an active receiver hand the byte they decode to, to the frame
assembly. -/
theorem receive_bits_pair (r : Radio) (s1 s2 : Nat) (hact : r.rx_active = true)
    (hc : r.rx_bit_count = 0) (hw : r.rx_bits < 4096) (h1 : s1 < 64) (h2 : s2 < 64) :
    receive_bits r (symbol_bits s1 ++ symbol_bits s2) =
      receive_byte { r with rx_bits := s1 ||| (s2 <<< 6), rx_bit_count := 12 }
        ((convert_to_4bit_symbols s1 <<< 4) ||| convert_to_4bit_symbols s2) := by
  have hsplit : symbol_bits s1 ++ symbol_bits s2 =
      (symbol_bits s1 ++ [s2.testBit 0, s2.testBit 1, s2.testBit 2, s2.testBit 3,
        s2.testBit 4]) ++ [s2.testBit 5] := by
    simp [symbol_bits_eq]
  have hwin := window_after_symbols r.rx_bits s1 s2 hw h1 h2
  rw [hsplit] at hwin ⊢
  generalize hA : symbol_bits s1 ++ [s2.testBit 0, s2.testBit 1, s2.testBit 2, s2.testBit 3,
      s2.testBit 4] = A at hwin ⊢
  have hlen : A.length = 11 := by rw [← hA]; simp [symbol_bits_eq]
  have hsnoc : window_after r.rx_bits (A ++ [s2.testBit 5])
      = shift_window (window_after r.rx_bits A) (s2.testBit 5) := by
    simp [window_after, List.foldl_append]
  rw [receive_bits_snoc, receive_bits_active A r 0 hact hc (by omega)]
  show receive_timer_frame { r with
    rx_bits := shift_window (window_after r.rx_bits A) (s2.testBit 5)
    rx_bit_count := 0 + A.length } = _
  rw [← hsnoc, hwin, hlen, ← decode_window_pair s1 s2 h1 h2]
  exact receive_timer_frame_pair r (s1 ||| (s2 <<< 6)) hact

/-- The window shows the start symbol after the 48 bits of the preamble and after no shorter
prefix of them. -/
theorem preamble_window : ∀ n, n ≤ 48 →
    (window_after 0 (preamble_bits.take n) = RADIO_START_SYMBOL ↔ n = 48) := by
  decide

theorem preamble_bits_last : preamble_bits = preamble_bits.take 47 ++ [true] := by
  decide

/-- An inactive receiver with an empty window, given the bits of the preamble: it is inactive
after every shorter prefix and starts a frame at the 48th bit. -/
theorem receive_bits_preamble (r : Radio) (hact : r.rx_active = false) (hw : r.rx_bits = 0) :
    (∀ n, n < 48 → receive_bits r (preamble_bits.take n) =
      { r with rx_bits := window_after 0 (preamble_bits.take n) }) ∧
    receive_bits r preamble_bits = { r with
      rx_bits := RADIO_START_SYMBOL, rx_active := true, rx_bit_count := 0, rx_buffer_len := 0 } := by
  have hpre : ∀ n, n < 48 → receive_bits r (preamble_bits.take n) =
      { r with rx_bits := window_after 0 (preamble_bits.take n) } := by
    intro n hn
    rw [receive_bits_inactive _ r hact, hw]
    intro k hk1 hk2
    rw [List.length_take] at hk2
    rw [hw, List.take_take, Nat.min_eq_left (by omega)]
    intro h
    have := (preamble_window k (by omega)).1 h
    omega
  refine ⟨hpre, ?_⟩
  have h48 : window_after 0 preamble_bits = RADIO_START_SYMBOL := by
    have := (preamble_window 48 (le_refl _)).2 rfl
    rwa [show preamble_bits.take 48 = preamble_bits by decide] at this
  have hsnoc : window_after 0 (preamble_bits.take 47 ++ [true])
      = shift_window (window_after 0 (preamble_bits.take 47)) true := by
    simp [window_after, List.foldl_append]
  rw [← preamble_bits_last] at hsnoc
  rw [preamble_bits_last, receive_bits_snoc, hpre 47 (by omega)]
  show receive_timer_frame { r with
    rx_bits := shift_window (window_after 0 (preamble_bits.take 47)) true } = _
  rw [← hsnoc, h48]
  simp [receive_timer_frame, hact]

theorem xor_odd_iff (x y : Nat) :
    (x ^^^ y) % 2 = 1 ↔ ¬ (x % 2 = 1 ↔ y % 2 = 1) := by
  have h := Nat.testBit_xor x y 0
  simp only [Nat.testBit_zero] at h
  by_cases hx : x % 2 = 1 <;> by_cases hy : y % 2 = 1 <;> simp [hx, hy] at h ⊢ <;> omega

/-- The bit step is linear over XOR. -/
theorem crc_bit_step_xor (x y : Nat) :
    crc_bit_step (x ^^^ y) = crc_bit_step x ^^^ crc_bit_step y := by
  have h := xor_odd_iff x y
  unfold crc_bit_step
  rw [shiftRight_xor]
  by_cases hx : x % 2 = 1 <;> by_cases hy : y % 2 = 1
  · have hxy : ¬ (x ^^^ y) % 2 = 1 := by rw [h]; simp [hx, hy]
    rw [if_neg hxy, if_pos hx, if_pos hy]
    rw [Nat.xor_assoc, Nat.xor_comm 33800, Nat.xor_assoc, Nat.xor_self, Nat.xor_zero]
  · have hxy : (x ^^^ y) % 2 = 1 := by rw [h]; simp [hx, hy]
    rw [if_pos hxy, if_pos hx, if_neg hy]
    rw [Nat.xor_assoc, Nat.xor_assoc, Nat.xor_comm 33800]
  · have hxy : (x ^^^ y) % 2 = 1 := by rw [h]; simp [hx, hy]
    rw [if_pos hxy, if_neg hx, if_pos hy, Nat.xor_assoc]
  · have hxy : ¬ (x ^^^ y) % 2 = 1 := by rw [h]; simp [hx, hy]
    rw [if_neg hxy, if_neg hx, if_neg hy]

theorem crc_bit_step_iterate_xor (n : Nat) : ∀ (x y : Nat),
    crc_bit_step^[n] (x ^^^ y) = crc_bit_step^[n] x ^^^ crc_bit_step^[n] y := by
  induction n with
  | zero => intro x y; rfl
  | succ n ih =>
    intro x y
    rw [Function.iterate_succ_apply, Function.iterate_succ_apply, Function.iterate_succ_apply,
      crc_bit_step_xor, ih]

theorem crc_bit_step_double (m : Nat) : crc_bit_step (2 * m) = m := by
  unfold crc_bit_step
  rw [if_neg (by omega), Nat.shiftRight_eq_div_pow]
  omega

/-- Eight bit steps move a value that sits above the low byte down by eight bits. -/
theorem crc_bit_step_high (h : Nat) : crc_bit_step^[8] (h <<< 8) = h := by
  rw [Nat.shiftLeft_eq]
  simp only [Function.iterate_succ_apply, Function.iterate_zero, id]
  rw [show h * 2 ^ 8 = 2 * (2 * (2 * (2 * (2 * (2 * (2 * (2 * h))))))) by omega]
  simp only [crc_bit_step_double]

set_option maxRecDepth 100000 in
/-- Eight bit steps on a byte give what `updateCRC` computes from a zero CRC. -/
theorem crc_bit_step_byte : ∀ b, b < 256 → crc_bit_step^[8] b = updateCRC 0 b := by
  decide

theorem xor_split_byte (c d : Nat) (hd : d < 256) :
    c ^^^ d = ((d ^^^ (c &&& 0xFF)) % 256) ^^^ ((c >>> 8) <<< 8) := by
  apply Nat.eq_of_testBit_eq
  intro i
  rw [show (256 : Nat) = 2 ^ 8 by norm_num, show (0xFF : Nat) = 2 ^ 8 - 1 by norm_num]
  simp only [Nat.testBit_xor, Nat.testBit_mod_two_pow, Nat.testBit_and,
    Nat.testBit_two_pow_sub_one, Nat.testBit_shiftLeft, Nat.testBit_shiftRight]
  by_cases hi : i < 8
  · have h8 : ¬ 8 ≤ i := by omega
    simp [hi, h8, Bool.xor_comm]
  · have hdi : d.testBit i = false := testBit_of_lt_256 hd (by omega)
    have h8 : 8 + (i - 8) = i := by omega
    simp [hi, hdi, h8]
    omega

/-- The table-free `updateCRC` computes the bitwise CRC step. -/
theorem updateCRC_eq_bitwise (crc data : Nat) (hc : crc < 65536) (hd : data < 256) :
    updateCRC crc data = crc_bitwise crc data := by
  unfold crc_bitwise
  rw [xor_split_byte crc data hd, crc_bit_step_iterate_xor, crc_bit_step_high,
    crc_bit_step_byte _ (Nat.mod_lt _ (by norm_num))]
  exact updateCRC_split crc data hc

/-! ## Theorems: the bounds of the receive buffer -/

theorem flush_page_buffer (e : Engine) (b : Bytes) :
    flush_page { e with buffer := b } = { flush_page e with buffer := b } := by
  unfold flush_page
  split_ifs <;> rfl

theorem mark_modified_buffer (e : Engine) (b : Bytes) :
    mark_modified { e with buffer := b } = { mark_modified e with buffer := b } := by
  unfold mark_modified
  split_ifs <;> rfl

theorem switch_page_buffer (e : Engine) (b : Bytes) (page_addr : Nat) :
    switch_page { e with buffer := b } page_addr = { switch_page e page_addr with buffer := b } := by
  unfold switch_page
  simp only [flush_page_buffer]
  split_ifs <;> rfl

theorem data_case_buffer (e : Engine) (b : Bytes) (address data_len : Nat) (data : Bytes) :
    data_case { e with buffer := b } address data_len data =
      { data_case e address data_len data with buffer := b } := by
  simp only [data_case_eq, mark_modified_buffer, switch_page_buffer]

theorem eof_case_buffer (e : Engine) (b : Bytes) :
    eof_case { e with buffer := b } = { eof_case e with buffer := b } := by
  unfold eof_case
  simp only [flush_page_buffer]

/-- The copy loop reads the data only at the indices below `data_len`. -/
theorem copy_record_congr (d d2 : Bytes) (n offset : Nat) (s : Bytes × Bool)
    (h : ∀ i, i < n → offset + i < 128 → d i = d2 i) :
    copy_record d n offset n 0 s = copy_record d2 n offset n 0 s := by
  obtain ⟨pb, dirty⟩ := s
  have h1 := fun o => copy_record_get d n offset o n 0 pb dirty (by omega)
  have h2 := fun o => copy_record_get d2 n offset o n 0 pb dirty (by omega)
  apply Prod.ext
  · funext o
    rw [(h1 o).1, (h2 o).1]
    split_ifs with hc
    · exact h (o - offset) (by omega) (by omega)
    · rfl
  · rw [(h1 0).2, (h2 0).2]

theorem data_case_congr (e : Engine) (address data_len : Nat) (d d2 : Bytes)
    (h : ∀ i, i < data_len → address % 128 + i < 128 → d i = d2 i)
    (ha : address < 65536) :
    data_case e address data_len d = data_case e address data_len d2 := by
  have hcur : (switch_page (mark_modified e) (address &&& 0xFF80)).current_page_addr
      = address &&& 0xFF80 := (switch_page_fields _ _).2.1
  have hoff : (address + 65536 - (switch_page (mark_modified e)
      (address &&& 0xFF80)).current_page_addr) % 65536 = address % 128 := by
    rw [hcur, and_FF80 address ha]; omega
  rw [data_case_eq, data_case_eq, hoff]
  rw [copy_record_congr d d2 data_len (address % 128) _ h]

theorem record_calc_congr (b b2 : Bytes) (h : ∀ j, j < 4 + b2 0 → b j = b2 j) :
    record_calc b = record_calc b2 := by
  have h0 : b 0 = b2 0 := h 0 (by omega)
  rw [record_calc_eq, record_calc_eq]
  unfold spec_checksum record_sum
  rw [h0, h 1 (by omega), h 2 (by omega), h 3 (by omega)]
  have hmap : (List.range (b2 0)).map (fun i => b (4 + i))
      = (List.range (b2 0)).map (fun i => b2 (4 + i)) := by
    apply List.map_congr_left
    intro i hi
    exact h (4 + i) (by have := List.mem_range.mp hi; omega)
  rw [hmap]

/-- The engine reads its receive buffer only below index `5 + data_len`: with another buffer
that agrees there, the iteration differs in the buffer alone. -/
theorem process_record_buffer (e : Engine) (b : Bytes)
    (hb : ∀ j, j < 5 + e.buffer 0 → b j = e.buffer j) :
    process_record { e with buffer := b } =
      ({ (process_record e).1 with buffer := b }, (process_record e).2) := by
  have h0 : b 0 = e.buffer 0 := hb 0 (by omega)
  have h1 : b 1 = e.buffer 1 := hb 1 (by omega)
  have h2 : b 2 = e.buffer 2 := hb 2 (by omega)
  have h3 : b 3 = e.buffer 3 := hb 3 (by omega)
  have hchk : b (4 + b 0) = e.buffer (4 + e.buffer 0) := by
    rw [h0]; exact hb _ (by omega)
  have hcalc : record_calc b = record_calc e.buffer :=
    record_calc_congr b e.buffer (fun j hj => hb j (by omega))
  have hdata : data_case e (((e.buffer 1 <<< 8) ||| e.buffer 2) % 65536) (e.buffer 0)
      (fun i => b (4 + i)) = data_case e (((e.buffer 1 <<< 8) ||| e.buffer 2) % 65536)
      (e.buffer 0) (fun i => e.buffer (4 + i)) :=
    data_case_congr e _ _ _ _ (fun i hi _ => hb (4 + i) (by omega))
      (Nat.mod_lt _ (by norm_num))
  simp only [process_record]
  rw [hcalc, hchk, h0, h1, h2, h3]
  split_ifs
  · rw [data_case_buffer, hdata]
  · rw [eof_case_buffer]
  · rfl
  · rfl

/-- Two engines that differ in the receive buffer alone, given the same complete frame, end
the iteration with the same result and differ in the receive buffer alone, and there only
behind the bytes received. -/
theorem program_step_buffer (BUFFER_SIZE : Nat) (e : Engine) (b : Bytes) (payload : List Nat)
    (now : Nat) (hc : complete_frame BUFFER_SIZE payload) :
    program_step BUFFER_SIZE { e with buffer := b } ⟨some payload, now⟩ =
      ({ (program_step BUFFER_SIZE e ⟨some payload, now⟩).1 with
          buffer := (recv_payload payload b (BUFFER_SIZE % 256)).1 },
        (program_step BUFFER_SIZE e ⟨some payload, now⟩).2) := by
  unfold complete_frame at hc
  rw [program_step_some BUFFER_SIZE _ _ payload rfl, program_step_some BUFFER_SIZE e _ payload rfl]
  have hx : take_frame BUFFER_SIZE { e with buffer := b } payload now
      = { take_frame BUFFER_SIZE e payload now with
          buffer := (recv_payload payload b (BUFFER_SIZE % 256)).1 } := rfl
  rw [hx]
  apply process_record_buffer
  intro j hj
  have hb0 : (take_frame BUFFER_SIZE e payload now).buffer 0 = payload.getD 0 0 := by
    show (recv_payload payload e.buffer (BUFFER_SIZE % 256)).1 0 = _
    rw [recv_payload_get, if_pos (by omega)]
  rw [hb0] at hj
  show (recv_payload payload b (BUFFER_SIZE % 256)).1 j
    = (recv_payload payload e.buffer (BUFFER_SIZE % 256)).1 j
  rw [recv_payload_get, recv_payload_get, if_pos (by omega), if_pos (by omega)]

/-- A frame with an empty payload copies nothing: the iteration parses what the receive buffer
held before. -/
theorem program_step_empty_frame (BUFFER_SIZE : Nat) (e : Engine) (now : Nat) :
    program_step BUFFER_SIZE e ⟨some [], now⟩ =
      process_record { e with last_update_time := now } := by
  rw [program_step_some BUFFER_SIZE e _ [] rfl]
  have hb : (recv_payload [] e.buffer (BUFFER_SIZE % 256)).1 = e.buffer := by
    funext j
    rw [recv_payload_get, if_neg (by simp)]
  unfold take_frame
  rw [hb]

/-! ## Theorems: a data record and its page -/

/-- The copy loop is its assignments: each index of `copy_record_writes` is assigned the data
byte of its position, in order, and the page is dirty once there is one. -/
theorem copy_record_writes_eq (data : Bytes) (data_len offset : Nat) :
    ∀ (fuel i : Nat) (s : Bytes × Bool),
      copy_record data data_len offset fuel i s =
        ((copy_record_writes data_len offset fuel i).foldl
            (fun pb k => store pb k (data (k - offset))) s.1,
          s.2 || !(copy_record_writes data_len offset fuel i).isEmpty) := by
  intro fuel
  induction fuel with
  | zero => intro i s; simp [copy_record, copy_record_writes]
  | succ fuel ih =>
    intro i s
    by_cases h : i < data_len ∧ offset + i < SPM_PAGESIZE
    · simp only [copy_record, copy_record_writes, if_pos h, ih, List.foldl_cons]
      simp
    · simp [copy_record, copy_record_writes, if_neg h]

/-- The indices the copy loop assigns are `offset + i` with `i` an iteration of the loop. -/
theorem mem_copy_record_writes (data_len offset k : Nat) :
    ∀ (fuel i : Nat), k ∈ copy_record_writes data_len offset fuel i →
      k < SPM_PAGESIZE ∧ ∃ j, i ≤ j ∧ j < data_len ∧ k = offset + j := by
  intro fuel
  induction fuel with
  | zero => intro i h; simp [copy_record_writes] at h
  | succ fuel ih =>
    intro i h
    by_cases hc : i < data_len ∧ offset + i < SPM_PAGESIZE
    · simp only [copy_record_writes, if_pos hc, List.mem_cons] at h
      rcases h with h | h
      · exact ⟨by rw [h]; exact hc.2, i, le_refl _, hc.1, h⟩
      · obtain ⟨h1, j, h2, h3, h4⟩ := ih (i + 1) h
        exact ⟨h1, j, by omega, h3, h4⟩
    · simp [copy_record_writes, if_neg hc] at h

theorem mark_modified_page_buffer (e : Engine) :
    (mark_modified e).page_buffer = e.page_buffer := by
  unfold mark_modified
  split_ifs <;> rfl

theorem switch_page_page_buffer (e : Engine) (page_addr j : Nat) :
    (switch_page e page_addr).page_buffer j =
      if j < 128 ∧ e.current_page_addr ≠ page_addr then 0xFF else e.page_buffer j := by
  unfold switch_page
  by_cases h : e.current_page_addr ≠ page_addr
  · rw [if_pos h]
    show (if j < SPM_PAGESIZE then 0xFF else (flush_page e).page_buffer j) = _
    rw [(flush_page_keeps e).2.2.1]
    by_cases hj : j < 128
    · rw [if_pos (show j < SPM_PAGESIZE from hj), if_pos ⟨hj, h⟩]
    · rw [if_neg (show ¬ j < SPM_PAGESIZE from hj), if_neg (fun c => hj c.1)]
  · rw [if_neg h, if_neg (fun c => h c.2)]

/-- The offset of a record in its page, as the data case computes it in 16 bits. -/
theorem data_case_offset (a : Nat) (ha : a < 65536) :
    (a + 65536 - (a &&& 0xFF80)) % 65536 = a % 128 := by
  rw [and_FF80 a ha]
  omega

/-- The page buffer after the data case: the bytes of the record that fall into the page, on
the 0xFF fill of a page switch or on what the page buffer held. -/
theorem data_case_page_buffer (e : Engine) (a n : Nat) (data : Bytes) (j : Nat)
    (ha : a < 65536) :
    (data_case e a n data).page_buffer j =
      if a % 128 ≤ j ∧ j < a % 128 + n ∧ j < 128 then data (j - a % 128)
      else if j < 128 ∧ e.current_page_addr ≠ a / 128 * 128 then 0xFF
      else e.page_buffer j := by
  rw [data_case_eq]
  show (copy_record data n _ n 0 _).1 j = _
  rw [(switch_page_fields (mark_modified e) (a &&& 0xFF80)).2.1, data_case_offset a ha,
    (copy_record_get data n (a % 128) j n 0 _ _ (by omega)).1, switch_page_page_buffer,
    (mark_modified_fields e).2.1, mark_modified_page_buffer, and_FF80 a ha]
  rfl

/-- The page buffer after the data case as the assignments of the copy loop, made on the page
buffer the page switch leaves. -/
theorem data_case_writes (e : Engine) (a n : Nat) (data : Bytes) (ha : a < 65536) :
    (data_case e a n data).page_buffer =
      (copy_record_writes n (a % 128) n 0).foldl
        (fun pb k => store pb k (data (k - a % 128)))
        (switch_page (mark_modified e) (a / 128 * 128)).page_buffer := by
  rw [data_case_eq]
  show (copy_record data n _ n 0 _).1 = _
  rw [(switch_page_fields (mark_modified e) (a &&& 0xFF80)).2.1, data_case_offset a ha,
    copy_record_writes_eq, and_FF80 a ha]

theorem program_step_none_buffer (BUFFER_SIZE : Nat) (e : Engine) (b : Bytes) (now : Nat) :
    program_step BUFFER_SIZE { e with buffer := b } ⟨none, now⟩ =
      ({ (program_step BUFFER_SIZE e ⟨none, now⟩).1 with buffer := b },
        (program_step BUFFER_SIZE e ⟨none, now⟩).2) := by
  rw [program_step_none _ _ _ rfl, program_step_none _ _ _ rfl]
  show (if (now + 4294967296 - e.last_update_time) % 4294967296 > PROGRAMMING_TIMEOUT_MS then
      if e.is_flash_modified then (_, some false) else (_, some false) else (_, none)) = _
  split_ifs <;> rfl

/-- A session of complete frames does not look at what the receive buffer held before: two
engines that differ in the receive buffer alone stay so, with the same result. -/
theorem program_loop_buffer (BUFFER_SIZE : Nat) :
    ∀ (polls : List Poll) (e : Engine) (b : Bytes), complete_frames BUFFER_SIZE polls →
      ∃ b2, program_loop BUFFER_SIZE polls { e with buffer := b } =
        ({ (program_loop BUFFER_SIZE polls e).1 with buffer := b2 },
          (program_loop BUFFER_SIZE polls e).2) := by
  intro polls
  induction polls with
  | nil => intro e b _; exact ⟨b, rfl⟩
  | cons p ps ih =>
    intro e b hc
    have hps : complete_frames BUFFER_SIZE ps :=
      fun q hq payload hf => hc q (List.mem_cons_of_mem _ hq) payload hf
    have hstep : ∃ b1, program_step BUFFER_SIZE { e with buffer := b } p =
        ({ (program_step BUFFER_SIZE e p).1 with buffer := b1 },
          (program_step BUFFER_SIZE e p).2) := by
      obtain ⟨frame, now⟩ := p
      cases frame with
      | none => exact ⟨b, program_step_none_buffer BUFFER_SIZE e b now⟩
      | some payload =>
        exact ⟨_, program_step_buffer BUFFER_SIZE e b payload now
          (hc _ (List.mem_cons_self _ _) payload rfl)⟩
    obtain ⟨b1, hb1⟩ := hstep
    simp only [program_loop, hb1]
    rcases hs : program_step BUFFER_SIZE e p with ⟨e1, res⟩
    cases res with
    | some v => exact ⟨b1, rfl⟩
    | none => exact ih e1 b1 hps

/-! ## Theorems: the exit by timeout, and one data record -/

/-- The exit by timeout: take a call of `program_flash` that is still running
after the iterations `pre`, `e0` its state then, and one more iteration `p`; `r` is the call
after it.  The timeout counts from the clock at entry or at the last frame received.  The call
returns false in iteration `p` exactly when `recv` yields no frame and more than
`PROGRAMMING_TIMEOUT_MS = 10000` ms have passed since then (the difference taken as `uint32_t`;
it is `now - last` when the clock has not wrapped).  On that exit no reply is sent and no page
is written.  If a data record was applied in the session, the exit changes nothing: the flash
and the page buffer are as before, so the pending page is not flushed, and the marker is as it
was, which is set when the data records target application addresses.  If none was applied,
the flash was that at entry, the exit calls `set_recovery_state(false)` and nothing else: the
marker is clear afterwards and, the marker's page holding bytes, every flash byte outside
`FLASHEND-3 .. FLASHEND` is as at entry; the value returned is false all the same. -/
theorem timeout_outcome (BUFFER_SIZE : Nat) (flash buffer page_buffer : Bytes) (start : Nat)
    (pre : List Poll) (p : Poll) (e0 : Engine) (r : Engine × Option Bool)
    (hrun : (program_flash BUFFER_SIZE flash buffer page_buffer start pre).2 = none)
    (he0 : e0 = (program_flash BUFFER_SIZE flash buffer page_buffer start pre).1)
    (hr : r = program_flash BUFFER_SIZE flash buffer page_buffer start (pre ++ [p])) :
    PROGRAMMING_TIMEOUT_MS = 10000 ∧
    e0.last_update_time = last_frame_time start pre ∧
    (r.2 = some false ↔
      p.frame = none ∧ (p.now + 4294967296 - e0.last_update_time) % 4294967296 > 10000) ∧
    (e0.last_update_time ≤ p.now → p.now < 4294967296 →
      (p.now + 4294967296 - e0.last_update_time) % 4294967296 = p.now - e0.last_update_time) ∧
    (r.2 = some false →
      replies r.1.log = replies e0.log ∧
      page_writes r.1.log = page_writes e0.log ∧
      ((∃ a n, Event.data_record a n ∈ e0.log) →
        r.1.flash = e0.flash ∧ r.1.page_buffer = e0.page_buffer ∧ r.1.log = e0.log ∧
        check_recovery_bytes r.1.flash = check_recovery_bytes e0.flash ∧
        ((∀ a n, Event.data_record a n ∈ e0.log → a < BOOT_START) →
          check_recovery_bytes r.1.flash = true)) ∧
      ((¬ ∃ a n, Event.data_record a n ∈ e0.log) →
        e0.flash = flash ∧
        r.1.flash = set_recovery_state flash false ∧
        r.1.log = e0.log ++ [Event.set_recovery_state false] ∧
        check_recovery_bytes r.1.flash = false ∧
        ((∀ a, a / 128 = 255 → flash a < 256) →
          ∀ a, a < FLASHEND - 3 ∨ FLASHEND < a → r.1.flash a = flash a))) := by
  have hses : session_inv flash (program_flash BUFFER_SIZE flash buffer page_buffer start pre).1 ∧
      (program_flash BUFFER_SIZE flash buffer page_buffer start pre).1.last_update_time
        = last_frame_time start pre :=
    program_loop_session BUFFER_SIZE flash pre _
      (session_inv_init flash buffer page_buffer start) hrun
  rw [← he0] at hses
  obtain ⟨hinv, htime⟩ := hses
  have hstep : r = program_step BUFFER_SIZE e0 p := by
    rw [hr, he0]
    unfold program_flash at hrun ⊢
    rw [program_loop_append BUFFER_SIZE pre [p] _ hrun, program_loop_single]
  obtain ⟨i1, i2, i3⟩ := hinv
  refine ⟨rfl, htime, ?_, fun h1 h2 => by omega, ?_⟩
  · cases hf : p.frame with
    | none =>
      rw [hstep, program_step_none BUFFER_SIZE e0 p hf]
      simp only [PROGRAMMING_TIMEOUT_MS]
      split_ifs with ht hm <;> simp [ht]
    | some payload =>
      rw [hstep, program_step_some BUFFER_SIZE e0 p payload hf]
      simp [(process_record_result (take_frame BUFFER_SIZE e0 payload p.now)).2]
  · intro hfalse
    cases hf : p.frame with
    | some payload =>
      rw [hstep, program_step_some BUFFER_SIZE e0 p payload hf] at hfalse
      exact absurd hfalse (process_record_result _).2
    | none =>
      rw [hstep, program_step_none BUFFER_SIZE e0 p hf] at hfalse ⊢
      split_ifs at hfalse ⊢ with ht hm
      · refine ⟨rfl, rfl, fun _ => ⟨rfl, rfl, rfl, rfl, fun happ => ?_⟩, fun hno => ?_⟩
        · have hk : marker_kept
              (program_flash BUFFER_SIZE flash buffer page_buffer start pre).1 :=
            program_loop_marker_kept BUFFER_SIZE pre _
              (marker_kept_init flash buffer page_buffer start)
              (by
                intro a n hmem
                have : Event.data_record a n ∈ e0.log := by rw [he0]; exact hmem
                exact happ a n this) hrun
          rw [← he0] at hk
          exact hk.1 hm
        · exact absurd (i1.1 hm) hno
      · have hm2 : e0.is_flash_modified = false := by simpa using hm
        obtain ⟨j1, j2⟩ := i2 hm2
        refine ⟨?_, ?_, fun hex => ?_, fun _ => ⟨j1, ?_, rfl, ?_, fun hb a ha => ?_⟩⟩
        · simp [replies_append, replies]
        · simp [page_writes_append, page_writes]
        · rw [← i1] at hex
          rw [hex] at hm2
          cases hm2
        · show set_recovery_state e0.flash false = _
          rw [j1]
        · exact check_set_recovery_state e0.flash false
        · show set_recovery_state e0.flash false a = flash a
          rw [j1, set_recovery_state_get]
          simp only [FLASHEND] at ha
          by_cases hpg : a / 128 = 255
          · rw [if_pos hpg]
            simp only [Bool.false_eq_true, if_false]
            rw [store_other _ _ _ _ (by omega), store_other _ _ _ _ (by omega),
              store_other _ _ _ _ (by omega), store_other _ _ _ _ (by omega)]
            simp only [pgm_read_byte_near, FLASHEND]
            have h1 : (32640 + a % 128) % 65536 % (32767 + 1) = a := by omega
            rw [h1]
            exact Nat.mod_eq_of_lt (hb a hpg)
          · rw [if_neg hpg]

/-- One data record and its page: let the receive buffer hold a checksum-valid
data record (type 0x00) with address `a` and `data_len` `n` when `program_flash` parses it.
The iteration does not return and replies "PRG", also when `a mod 128 + n > 128`.  The page
address becomes `a - a mod 128`, the page of the record.  The page buffer is changed by the
assignments of the copy loop, made on the buffer the page switch leaves; each of them is at an
index `a mod 128 + i` with `i < n`, below 128.  So cell `j` of the page buffer ends as byte
`j - a mod 128` of the data if `a mod 128 <= j < a mod 128 + n` and `j < 128`, else as the 0xFF
of the fill if the page was switched and `j < 128`, else as it was; from index 128 on nothing
changes.  The flash after the iteration is the flash after the flush of the page left, which
was computed before the record was copied.  The data bytes from `128 - a mod 128` on are not
used: with any other valid record that has the same header and the same bytes in the page,
the iteration and every session of complete frames that follows end with the same result,
flash, page buffer, page address, flags, clock and log. -/
theorem record_confined_to_page (BUFFER_SIZE : Nat) (e : Engine) (a n : Nat)
    (hn : n = e.buffer 0) (ha : a = ((e.buffer 1 <<< 8) ||| e.buffer 2) % 65536)
    (hvalid : e.buffer (4 + n) = spec_checksum e.buffer) (htype : e.buffer 3 = 0x00) :
    (process_record e).2 = none ∧
    replies (process_record e).1.log = replies e.log ++ [PRG] ∧
    (process_record e).1.current_page_addr = a / 128 * 128 ∧
    (process_record e).1.page_buffer =
      (copy_record_writes n (a % 128) n 0).foldl
        (fun pb k => store pb k (e.buffer (4 + (k - a % 128))))
        (switch_page (mark_modified e) (a / 128 * 128)).page_buffer ∧
    (∀ k, k ∈ copy_record_writes n (a % 128) n 0 →
      k < 128 ∧ ∃ i, i < n ∧ k = a % 128 + i) ∧
    (∀ j, (process_record e).1.page_buffer j =
      if a % 128 ≤ j ∧ j < a % 128 + n ∧ j < 128 then e.buffer (4 + (j - a % 128))
      else if j < 128 ∧ e.current_page_addr ≠ a / 128 * 128 then 0xFF
      else e.page_buffer j) ∧
    (∀ j, 128 ≤ j → (process_record e).1.page_buffer j = e.page_buffer j) ∧
    (process_record e).1.flash = (switch_page (mark_modified e) (a / 128 * 128)).flash ∧
    (∀ (b2 : Bytes) (polls : List Poll),
      (∀ j, j < 4 → b2 j = e.buffer j) →
      (∀ i, i < n → a % 128 + i < 128 → b2 (4 + i) = e.buffer (4 + i)) →
      b2 (4 + n) = spec_checksum b2 →
      complete_frames BUFFER_SIZE polls →
      (program_loop BUFFER_SIZE polls (process_record { e with buffer := b2 }).1).2
        = (program_loop BUFFER_SIZE polls (process_record e).1).2 ∧
      (program_loop BUFFER_SIZE polls (process_record { e with buffer := b2 }).1).1.flash
        = (program_loop BUFFER_SIZE polls (process_record e).1).1.flash ∧
      (program_loop BUFFER_SIZE polls (process_record { e with buffer := b2 }).1).1.page_buffer
        = (program_loop BUFFER_SIZE polls (process_record e).1).1.page_buffer ∧
      (program_loop BUFFER_SIZE polls
          (process_record { e with buffer := b2 }).1).1.current_page_addr
        = (program_loop BUFFER_SIZE polls (process_record e).1).1.current_page_addr ∧
      (program_loop BUFFER_SIZE polls (process_record { e with buffer := b2 }).1).1.page_dirty
        = (program_loop BUFFER_SIZE polls (process_record e).1).1.page_dirty ∧
      (program_loop BUFFER_SIZE polls
          (process_record { e with buffer := b2 }).1).1.is_flash_modified
        = (program_loop BUFFER_SIZE polls (process_record e).1).1.is_flash_modified ∧
      (program_loop BUFFER_SIZE polls
          (process_record { e with buffer := b2 }).1).1.last_update_time
        = (program_loop BUFFER_SIZE polls (process_record e).1).1.last_update_time ∧
      (program_loop BUFFER_SIZE polls (process_record { e with buffer := b2 }).1).1.log
        = (program_loop BUFFER_SIZE polls (process_record e).1).1.log) := by
  have ha16 : a < 65536 := by rw [ha]; exact Nat.mod_lt _ (by norm_num)
  have hcalc : record_calc e.buffer = e.buffer (4 + e.buffer 0) := by
    rw [record_calc_eq, ← hn, hvalid]
  have hrun : process_record e = (data_case e a n (fun i => e.buffer (4 + i)), none) := by
    rcases process_record_cases e with ⟨hc, _⟩ | ⟨_, _, hr⟩ | ⟨_, ht, _⟩ | ⟨_, ht0, _, _⟩
    · exact absurd hcalc hc
    · rw [hr, ha, hn]
    · rw [htype] at ht; exact absurd ht (by decide)
    · exact absurd htype ht0
  have hfields := data_case_fields e a n (fun i => e.buffer (4 + i))
  rw [and_FF80 a ha16] at hfields
  have hpb := fun j => data_case_page_buffer e a n (fun i => e.buffer (4 + i)) j ha16
  rw [hrun]
  refine ⟨rfl, hfields.2.2.2, hfields.2.1,
    data_case_writes e a n (fun i => e.buffer (4 + i)) ha16, ?_, hpb, ?_, hfields.2.2.1, ?_⟩
  · intro k hk
    obtain ⟨h1, i, _, h2, h3⟩ := mem_copy_record_writes n (a % 128) k n 0 hk
    exact ⟨h1, i, h2, h3⟩
  · intro j hj
    rw [hpb j, if_neg (by omega), if_neg (by omega)]
  · intro b2 polls hhead hkept hvalid2 hpolls
    have h0 : b2 0 = e.buffer 0 := hhead 0 (by omega)
    have hcalc2 : record_calc b2 = b2 (4 + b2 0) := by
      rw [record_calc_eq, h0, ← hn, hvalid2]
    have hrun2 : process_record { e with buffer := b2 }
        = ({ data_case e a n (fun i => e.buffer (4 + i)) with buffer := b2 }, none) := by
      rcases process_record_cases { e with buffer := b2 } with
        ⟨hc, _⟩ | ⟨_, _, hr⟩ | ⟨_, ht, _⟩ | ⟨_, ht0, _, _⟩
      · exact absurd hcalc2 hc
      · rw [hr]
        show (data_case { e with buffer := b2 } (((b2 1 <<< 8) ||| b2 2) % 65536) (b2 0)
          (fun i => b2 (4 + i)), none) = _
        rw [hhead 1 (by omega), hhead 2 (by omega), h0, ← ha, ← hn, data_case_buffer,
          data_case_congr e a n (fun i => b2 (4 + i)) (fun i => e.buffer (4 + i))
            (fun i hi hlt => hkept i hi hlt) ha16]
      · have h3 : b2 3 = 0 := by rw [hhead 3 (by omega)]; exact htype
        exact absurd (show b2 3 = 1 from ht) (by rw [h3]; decide)
      · exact absurd (show b2 3 = 0 by rw [hhead 3 (by omega)]; exact htype) ht0
    rw [hrun2]
    obtain ⟨b3, hb3⟩ := program_loop_buffer BUFFER_SIZE polls
      (data_case e a n (fun i => e.buffer (4 + i))) b2 hpolls
    rw [hb3]
    exact ⟨rfl, rfl, rfl, rfl, rfl, rfl, rfl, rfl⟩

/-! ## Main results -/

/-- C1 (modem round trip): for every payload `data` of length `len <= 60` sent by a
transmitter with the constructor's headers (0xFF, 0xFF, 0, 0), and a receiver with no full
frame pending, mode not Tx, that has just seen the start symbol (the frame is addressed to the
wildcard, so the receiver's own address and its previous validity flag do not matter): feeding the symbols
`send` wrote behind the preamble pairwise through the active-frame branch of `receive_timer`
marks the buffer full after exactly `len + 7` decoded bytes; then `available` returns true, the
rx header fields equal the transmitter's, and `recv` with capacity `cap >= len` returns true
with `*len = len` and the caller's buffer equal to `data`. -/
theorem C1_modem_round_trip (t rx : Radio) (data buffer : Bytes) (len cap : Nat)
    (hlen : len ≤ RADIO_MAX_MESSAGE_LEN) (hdata : ∀ i, i < len → data i < 256)
    (hto : t.tx_header_to = DEFAULT_ADDRESS) (hfrom : t.tx_header_from = DEFAULT_ADDRESS)
    (hid : t.tx_header_id = 0) (hflags : t.tx_header_flags = 0)
    (hmode : rx.mode ≠ RadioMode.Tx) (hfull : rx.rx_buffer_full = false)
    (hact : rx.rx_active = true) (hlen0 : rx.rx_buffer_len = 0)
    (hcap : len ≤ cap) (hcap8 : cap < 256) :
    (send t data len).1 = true ∧
    (∀ m, m < len + 7 →
      (rx_feed (fun k => (send t data len).2.tx_buffer (PREAMBLE_LEN + k)) m rx).rx_buffer_full
        = false) ∧
    (rx_feed (fun k => (send t data len).2.tx_buffer (PREAMBLE_LEN + k)) (len + 7) rx).rx_buffer_full
      = true ∧
    (available
      (rx_feed (fun k => (send t data len).2.tx_buffer (PREAMBLE_LEN + k)) (len + 7) rx)).1
      = true ∧
    (available
      (rx_feed (fun k => (send t data len).2.tx_buffer (PREAMBLE_LEN + k)) (len + 7) rx)).2.rx_header_to
      = t.tx_header_to ∧
    (available
      (rx_feed (fun k => (send t data len).2.tx_buffer (PREAMBLE_LEN + k)) (len + 7) rx)).2.rx_header_from
      = t.tx_header_from ∧
    (available
      (rx_feed (fun k => (send t data len).2.tx_buffer (PREAMBLE_LEN + k)) (len + 7) rx)).2.rx_header_id
      = t.tx_header_id ∧
    (available
      (rx_feed (fun k => (send t data len).2.tx_buffer (PREAMBLE_LEN + k)) (len + 7) rx)).2.rx_header_flags
      = t.tx_header_flags ∧
    (recv (rx_feed (fun k => (send t data len).2.tx_buffer (PREAMBLE_LEN + k)) (len + 7) rx)
      buffer cap).1 = true ∧
    (recv (rx_feed (fun k => (send t data len).2.tx_buffer (PREAMBLE_LEN + k)) (len + 7) rx)
      buffer cap).2.2.1 = len ∧
    (∀ i, i < len →
      (recv (rx_feed (fun k => (send t data len).2.tx_buffer (PREAMBLE_LEN + k)) (len + 7) rx)
        buffer cap).2.1 i = data i) := by
  have hlen60 : len ≤ 60 := by
    simpa [RADIO_MAX_MESSAGE_LEN, RADIO_MAX_PAYLOAD_LEN, RADIO_HEADER_LEN] using hlen
  obtain ⟨hs1, hs2, _⟩ := send_ok t data len hlen60
  have hF0 := tx_frame_count t data len hlen60
  have hFlen := tx_frame_length t data len
  have hsyms : ∀ k, k < (tx_frame t data len).length →
      (fun k => (send t data len).2.tx_buffer (PREAMBLE_LEN + k)) (2 * k)
        = SYMBOL ((tx_frame t data len).getD k 0 >>> 4) ∧
      (fun k => (send t data len).2.tx_buffer (PREAMBLE_LEN + k)) (2 * k + 1)
        = SYMBOL ((tx_frame t data len).getD k 0 &&& 0x0F) := by
    intro k hk
    obtain ⟨g1, g2⟩ := put_list_get (tx_frame t data len) t.tx_buffer 0 k hk
    simp only [hs2]
    exact ⟨by simpa using g1, by simpa [Nat.add_assoc] using g2⟩
  have hbytes := tx_frame_bytes t data len hdata (by rw [hto]; decide) (by rw [hfrom]; decide)
    (by rw [hid]; decide) (by rw [hflags]; decide)
  have hfeed := rx_feed_frame rx (tx_frame t data len)
    (fun k => (send t data len).2.tx_buffer (PREAMBLE_LEN + k)) hact hlen0 hmode
    (by omega) (by omega) hbytes hsyms
  obtain ⟨_, hdone⟩ := hfeed (len + 7) (by omega) (by omega) (by omega)
  obtain ⟨d1, d2, d3, d4, d5, d6, d7⟩ := hdone (by omega)
  rw [hF0] at d3 d4
  have hlist := toList_eq_take _ (tx_frame t data len) (len + 7) (by omega) d4
  rw [← hFlen, List.take_length] at hlist
  have hcrc : crc_of 0xFFFF (Bytes.toList
      (rx_feed (fun k => (send t data len).2.tx_buffer (PREAMBLE_LEN + k)) (len + 7) rx).rx_buffer
      (rx_feed (fun k => (send t data len).2.tx_buffer (PREAMBLE_LEN + k)) (len + 7) rx).rx_buffer_len)
      = 0xF0B8 := by
    rw [d3, ← hFlen, hlist]; exact tx_frame_crc t data len
  have hb : ∀ j, j < 5 →
      (rx_feed (fun k => (send t data len).2.tx_buffer (PREAMBLE_LEN + k)) (len + 7) rx).rx_buffer j
        = (tx_frame t data len).getD j 0 := fun j hj => d4 j (by omega)
  have hb1 := hb 1 (by omega)
  have hb2 := hb 2 (by omega)
  have hb3 := hb 3 (by omega)
  have hb4 := hb 4 (by omega)
  simp only [tx_frame_cons, List.getD_cons_succ, List.getD_cons_zero] at hb1 hb2 hb3 hb4
  obtain ⟨a1, a2, a3, a4, a5, a6, a7⟩ :=
    (available_full _ d7 d2).2 hcrc (by rw [hb1]; exact hto)
  obtain ⟨r1, r2, r3⟩ := recv_of_available _ buffer cap a1
  have hml : min cap (((available (rx_feed (fun k => (send t data len).2.tx_buffer
      (PREAMBLE_LEN + k)) (len + 7) rx)).2.rx_buffer_len + 256 - RADIO_HEADER_LEN - 3) % 256)
      = len := by
    rw [a6, d3]; simp only [RADIO_HEADER_LEN]; omega
  refine ⟨hs1, ?_, d2, a1, by rw [a2, hb1], by rw [a3, hb2], by rw [a4, hb3], by rw [a5, hb4],
    r1, by rw [r2, hml], ?_⟩
  · intro m hm
    by_cases hm0 : m = 0
    · subst hm0; exact hfull
    · obtain ⟨hacq, _⟩ := hfeed m (by omega) (by omega) (by omega)
      have := hacq (by omega)
      rw [this.2.2.2.2.1]; exact hfull
  · intro i hi
    rw [r3 i, hml, if_pos hi, a7, d4 _ (by simp only [RADIO_HEADER_LEN]; omega)]
    simp only [RADIO_HEADER_LEN]
    rw [show 4 + 1 + i = 5 + i by omega]
    exact tx_frame_payload t data len i hi

/-- C1 at a concrete input: the payload 1, 2, 3 sent by a fresh radio to a fresh listening
radio arrives with length 3. -/
theorem C1_modem_round_trip_witness :
    (recv (rx_feed (fun k => (send radio_new (ofList [1, 2, 3]) 3).2.tx_buffer (PREAMBLE_LEN + k))
      (3 + 7) radio_listening) (fun _ => 0) 60).2.2.1 = 3 :=
  (C1_modem_round_trip radio_new radio_listening (ofList [1, 2, 3]) (fun _ => 0) 3 60
    (by decide) (by decide) rfl rfl rfl rfl (by decide) rfl rfl rfl
    (by decide) (by decide)).2.2.2.2.2.2.2.2.2.1

/-- C2 as stated fails: in the frame of the payload 1, 2, 243, 255, 5 the length byte 12
replaced by 9 makes the receiver stop after nine bytes, which form a frame with a correct CRC;
so it is not true that `recv` returns false or delivers the five bytes sent (it returns true
and delivers the two-byte payload 1, 2). -/
theorem C2_counterexample :
    9 ≠ (tx_frame radio_new (ofList [1, 2, 243, 255, 5]) 5).getD 0 0 ∧
    ¬ ((recv (rx_bytes radio_listening
          ((tx_frame radio_new (ofList [1, 2, 243, 255, 5]) 5).set 0 9)) (fun _ => 0) 60).1 = false ∨
       ((recv (rx_bytes radio_listening
          ((tx_frame radio_new (ofList [1, 2, 243, 255, 5]) 5).set 0 9)) (fun _ => 0) 60).2.2.1 = 5 ∧
        ∀ i, i < 5 →
          (recv (rx_bytes radio_listening
            ((tx_frame radio_new (ofList [1, 2, 243, 255, 5]) 5).set 0 9)) (fun _ => 0) 60).2.1 i
            = ofList [1, 2, 243, 255, 5] i)) := by
  decide

/-- C2 (amended): let `F` be the `len + 7` bytes `send` encodes for a payload of length
`len <= 60` (the transmit buffer holds their symbols behind the preamble), and let byte `i` of
`F` be replaced by another byte `v`.  Given this stream, the
receiver delivers nothing (`recv` returns false) whenever a byte behind the length byte was
changed.  When the length byte itself was changed, it delivers nothing unless `7 <= v < len + 7`;
in that case the receiver takes the first `v` bytes for the frame, and whatever `recv` delivers
is the first `v - 7` bytes of the payload sent (cut to the capacity). -/
theorem C2_single_byte_corruption (t rx : Radio) (data buffer : Bytes) (len cap i v : Nat)
    (hlen : len ≤ RADIO_MAX_MESSAGE_LEN) (hdata : ∀ k, k < len → data k < 256)
    (hto : t.tx_header_to = DEFAULT_ADDRESS) (hfrom : t.tx_header_from = DEFAULT_ADDRESS)
    (hid : t.tx_header_id = 0) (hflags : t.tx_header_flags = 0)
    (hmode : rx.mode ≠ RadioMode.Tx) (hfull : rx.rx_buffer_full = false)
    (hvalid : rx.rx_buffer_valid = false) (hact : rx.rx_active = true)
    (hlen0 : rx.rx_buffer_len = 0)
    (hi : i < len + 7) (hv : v < 256) (hne : v ≠ (tx_frame t data len).getD i 0) :
    (send t data len).2.tx_buffer = put_list t.tx_buffer 0 (tx_frame t data len) ∧
    ((recv (rx_bytes rx ((tx_frame t data len).set i v)) buffer cap).1 = false ∨
     (i = 0 ∧ 7 ≤ v ∧ v < len + 7 ∧
      (recv (rx_bytes rx ((tx_frame t data len).set i v)) buffer cap).1 = true ∧
      (recv (rx_bytes rx ((tx_frame t data len).set i v)) buffer cap).2.2.1 = min cap (v - 7) ∧
      ∀ j, j < min cap (v - 7) →
        (recv (rx_bytes rx ((tx_frame t data len).set i v)) buffer cap).2.1 j = data j)) := by
  have hlen60 : len ≤ 60 := by
    simpa [RADIO_MAX_MESSAGE_LEN, RADIO_MAX_PAYLOAD_LEN, RADIO_HEADER_LEN] using hlen
  have hF0 := tx_frame_count t data len hlen60
  have hFlen := tx_frame_length t data len
  have hiF : i < (tx_frame t data len).length := by omega
  have hbytes := tx_frame_bytes t data len hdata (by rw [hto]; decide) (by rw [hfrom]; decide)
    (by rw [hid]; decide) (by rw [hflags]; decide)
  have hGlen : ((tx_frame t data len).set i v).length = len + 7 := by
    rw [List.length_set, hFlen]
  obtain ⟨s1, s2, s3⟩ := recv_stream rx ((tx_frame t data len).set i v) buffer cap
    hmode hfull hvalid hact hlen0 (by omega)
  have hG0 : ((tx_frame t data len).set i v).getD 0 0 = if 0 = i then v else len + 7 := by
    rw [getD_set _ _ _ _ hiF, hF0]
  refine ⟨(send_ok t data len hlen60).2.1, ?_⟩
  by_cases hi0 : i = 0
  · subst hi0
    rw [hF0] at hne
    simp only [if_true] at hG0
    rw [hG0, hGlen] at s1 s2 s3
    by_cases hrange : 7 ≤ v ∧ v < len + 7
    · by_cases hcrc : crc_of 0xFFFF (List.take v ((tx_frame t data len).set 0 v)) = 0xF0B8
      · right
        have hto1 : ((tx_frame t data len).set 0 v).getD 1 0 = DEFAULT_ADDRESS := by
          rw [getD_set _ _ _ _ hiF, if_neg (by omega), tx_frame_cons]
          exact hto
        obtain ⟨r1, r2, r3⟩ := s3 hrange.1 (by omega) (by omega) hcrc hto1
        refine ⟨rfl, hrange.1, hrange.2, r1, r2, ?_⟩
        intro j hj
        rw [r3 j hj, getD_set _ _ _ _ hiF, if_neg (by omega)]
        exact tx_frame_payload t data len j (by omega)
      · left
        exact s2 hrange.1 (by omega) (by omega) hcrc
    · left
      apply s1
      omega
  · left
    have hi' : ¬ (0 = i) := fun e => hi0 e.symm
    simp only [hi', if_false] at hG0
    rw [hG0, hGlen] at s2
    apply s2 (by omega) (by omega) (le_refl _)
    rw [← hGlen, List.take_length]
    exact crc_of_set_ne _ i v hiF hbytes hv hne (tx_frame_crc t data len)

/-- C2 (amended) at a concrete input: in the frame of the payload 1, 2, 3 the byte at
index 5, the first payload byte, is replaced by 9. -/
theorem C2_single_byte_corruption_witness :
    (send radio_new (ofList [1, 2, 3]) 3).2.tx_buffer =
      put_list radio_new.tx_buffer 0 (tx_frame radio_new (ofList [1, 2, 3]) 3) ∧
    ((recv (rx_bytes radio_listening ((tx_frame radio_new (ofList [1, 2, 3]) 3).set 5 9))
      (fun _ => 0) 60).1 = false ∨
    (5 = 0 ∧ 7 ≤ 9 ∧ 9 < 3 + 7 ∧
      (recv (rx_bytes radio_listening ((tx_frame radio_new (ofList [1, 2, 3]) 3).set 5 9))
        (fun _ => 0) 60).1 = true ∧
      (recv (rx_bytes radio_listening ((tx_frame radio_new (ofList [1, 2, 3]) 3).set 5 9))
        (fun _ => 0) 60).2.2.1 = min 60 (9 - 7) ∧
      ∀ j, j < min 60 (9 - 7) →
        (recv (rx_bytes radio_listening ((tx_frame radio_new (ofList [1, 2, 3]) 3).set 5 9))
          (fun _ => 0) 60).2.1 j = ofList [1, 2, 3] j)) :=
  C2_single_byte_corruption radio_new radio_listening (ofList [1, 2, 3]) (fun _ => 0) 3 60 5 9
    (by decide) (by decide) rfl rfl rfl rfl (by decide) rfl rfl rfl rfl
    (by decide) (by decide) (by decide)

set_option maxRecDepth 1000000 in
/-- C3 fails on the code.  Session 1 on erased flash applies a data record at address 0 and one
at address 0x80 and then times out: it returns false with the marker set, page 0 written and
the second record still in the page buffer.  Session 2 receives nothing and times out: its own
`is_flash_modified` is false, so it clears the marker and returns false.  The marker is now
clear although page 0 holds the new byte, page 0x80 was never written and no end-of-file
record has been processed; run from `bootloader_main`, the next boot window expires and the
bootloader jumps into this image. -/
theorem C3_marker_cleared_on_partial_image :
    (program_flash 64 (fun _ => 0xFF) (fun _ => 0) (fun _ => 0) 0
      [⟨some (mk_record 0 0 [0xAA]), 1⟩, ⟨some (mk_record 0x80 0 [0xBB]), 2⟩,
       ⟨none, 20000⟩]).2 = some false ∧
    check_recovery_bytes (program_flash 64 (fun _ => 0xFF) (fun _ => 0) (fun _ => 0) 0
      [⟨some (mk_record 0 0 [0xAA]), 1⟩, ⟨some (mk_record 0x80 0 [0xBB]), 2⟩,
       ⟨none, 20000⟩]).1.flash = true ∧
    (program_flash 64
      (program_flash 64 (fun _ => 0xFF) (fun _ => 0) (fun _ => 0) 0
        [⟨some (mk_record 0 0 [0xAA]), 1⟩, ⟨some (mk_record 0x80 0 [0xBB]), 2⟩,
         ⟨none, 20000⟩]).1.flash
      (fun _ => 0) (fun _ => 0) 30000 [⟨none, 50000⟩]).2 = some false ∧
    check_recovery_bytes (program_flash 64
      (program_flash 64 (fun _ => 0xFF) (fun _ => 0) (fun _ => 0) 0
        [⟨some (mk_record 0 0 [0xAA]), 1⟩, ⟨some (mk_record 0x80 0 [0xBB]), 2⟩,
         ⟨none, 20000⟩]).1.flash
      (fun _ => 0) (fun _ => 0) 30000 [⟨none, 50000⟩]).1.flash = false ∧
    (program_flash 64
      (program_flash 64 (fun _ => 0xFF) (fun _ => 0) (fun _ => 0) 0
        [⟨some (mk_record 0 0 [0xAA]), 1⟩, ⟨some (mk_record 0x80 0 [0xBB]), 2⟩,
         ⟨none, 20000⟩]).1.flash
      (fun _ => 0) (fun _ => 0) 30000 [⟨none, 50000⟩]).1.flash 0 = 0xAA ∧
    (program_flash 64
      (program_flash 64 (fun _ => 0xFF) (fun _ => 0) (fun _ => 0) 0
        [⟨some (mk_record 0 0 [0xAA]), 1⟩, ⟨some (mk_record 0x80 0 [0xBB]), 2⟩,
         ⟨none, 20000⟩]).1.flash
      (fun _ => 0) (fun _ => 0) 30000 [⟨none, 50000⟩]).1.flash 0x80 = 0xFF ∧
    (bootloader_main 64 true (fun _ => 0xFF)
      [⟨[[[0x42, 0x4F, 0x4F, 0x54]]], 0,
         [⟨some (mk_record 0 0 [0xAA]), 1⟩, ⟨some (mk_record 0x80 0 [0xBB]), 2⟩,
          ⟨none, 20000⟩], fun _ => 0, fun _ => 0⟩,
       ⟨[[[0x42, 0x4F, 0x4F, 0x54]]], 30000, [⟨none, 50000⟩], fun _ => 0, fun _ => 0⟩,
       ⟨[[]], 0, [], fun _ => 0, fun _ => 0⟩]).outcome = Outcome.jumped ∧
    replies (bootloader_main 64 true (fun _ => 0xFF)
      [⟨[[[0x42, 0x4F, 0x4F, 0x54]]], 0,
         [⟨some (mk_record 0 0 [0xAA]), 1⟩, ⟨some (mk_record 0x80 0 [0xBB]), 2⟩,
          ⟨none, 20000⟩], fun _ => 0, fun _ => 0⟩,
       ⟨[[[0x42, 0x4F, 0x4F, 0x54]]], 30000, [⟨none, 50000⟩], fun _ => 0, fun _ => 0⟩,
       ⟨[[]], 0, [], fun _ => 0, fun _ => 0⟩]).log = [RDY, PRG, PRG, RDY] := by
  decide

/-- C4: in every execution of `bootloader_main`, whatever the radio delivers, a call of
`jump_to_application` (on the radio-init-failure path, at the expiry of the boot window or
after a successful programming session) happens with a flash on which `check_recovery_bytes()`
returns false; and when the marker is set and no received frame begins with
`'B'`, `'O'`, `'O'`, `'T'`, neither `jump_to_application` nor `program_flash` is reached. -/
theorem C4_no_jump_with_marker_set (BUFFER_SIZE : Nat) (init_ok : Bool) (flash : Bytes)
    (rounds : List Round) :
    ((bootloader_main BUFFER_SIZE init_ok flash rounds).outcome = Outcome.jumped →
      check_recovery_bytes (bootloader_main BUFFER_SIZE init_ok flash rounds).flash = false) ∧
    (check_recovery_bytes flash = true →
      (∀ rd ∈ rounds, ∀ w ∈ rd.windows, ∀ p ∈ w, ¬ [0x42, 0x4F, 0x4F, 0x54] <+: p) →
      (bootloader_main BUFFER_SIZE init_ok flash rounds).outcome ≠ Outcome.jumped ∧
      (bootloader_main BUFFER_SIZE init_ok flash rounds).sessions = 0) := by
  constructor
  · unfold bootloader_main
    cases init_ok
    · cases hc : check_recovery_bytes flash
      · intro _; simpa using hc
      · simp
    · simpa using main_loop_jumped BUFFER_SIZE rounds flash 0 []
  · intro hc hno
    unfold bootloader_main
    cases init_ok
    · simp [hc]
    · obtain ⟨h1, h2, _⟩ := main_loop_locked BUFFER_SIZE rounds flash 0 [] hc hno
      simp [h1, h2]

/-- C4 at concrete inputs: on erased flash with a working radio and a boot window without
the signal the bootloader jumps, the marker being clear; with the marker set on erased flash
and a single frame with the payload 1, 2, 3 it neither jumps nor programs. -/
theorem C4_no_jump_with_marker_set_witness :
    check_recovery_bytes (bootloader_main 64 true (fun _ => 0xFF)
      [⟨[[]], 0, [], fun _ => 0, fun _ => 0⟩]).flash = false ∧
    (bootloader_main 64 true (set_recovery_state (fun _ => 0xFF) true)
      [⟨[[[1, 2, 3]]], 0, [], fun _ => 0, fun _ => 0⟩]).outcome ≠ Outcome.jumped ∧
    (bootloader_main 64 true (set_recovery_state (fun _ => 0xFF) true)
      [⟨[[[1, 2, 3]]], 0, [], fun _ => 0, fun _ => 0⟩]).sessions = 0 :=
  ⟨(C4_no_jump_with_marker_set 64 true (fun _ => 0xFF)
      [⟨[[]], 0, [], fun _ => 0, fun _ => 0⟩]).1 (by decide),
   (C4_no_jump_with_marker_set 64 true (set_recovery_state (fun _ => 0xFF) true)
      [⟨[[[1, 2, 3]]], 0, [], fun _ => 0, fun _ => 0⟩]).2
      (check_set_recovery_state _ true) (by decide)⟩

/-- C7: in a call of `program_flash` entered with the marker clear, for every sequence of loop
iterations whose processed data records target application addresses, at every iteration
boundary and at return: `check_recovery_bytes()` is true if and only if a checksum-valid data
record has been processed in this session and no end-of-file record has (the session has not
returned true); in the log, `set_recovery_state(true)` comes before the first copy of record
bytes into the page buffer and before any page write; and an iteration whose frame has a bad
checksum or a record type other than 0x00 (among them end-of-file) never sets the marker. -/
theorem C7_marker_tracks_data_records (BUFFER_SIZE : Nat) (flash buffer page_buffer : Bytes)
    (start : Nat) (polls : List Poll)
    (hclear : check_recovery_bytes flash = false)
    (happ : ∀ a n, Event.data_record a n ∈
      (program_flash BUFFER_SIZE flash buffer page_buffer start polls).1.log → a < BOOT_START) :
    (check_recovery_bytes (program_flash BUFFER_SIZE flash buffer page_buffer start polls).1.flash
        = true ↔
      (∃ a n, Event.data_record a n ∈
        (program_flash BUFFER_SIZE flash buffer page_buffer start polls).1.log) ∧
      (program_flash BUFFER_SIZE flash buffer page_buffer start polls).2 ≠ some true) ∧
    marker_precedes (program_flash BUFFER_SIZE flash buffer page_buffer start polls).1.log = true ∧
    (∀ (e : Engine) (payload : List Nat) (now : Nat),
      (record_calc (recv_payload payload e.buffer (BUFFER_SIZE % 256)).1 ≠
          (recv_payload payload e.buffer (BUFFER_SIZE % 256)).1
            (4 + (recv_payload payload e.buffer (BUFFER_SIZE % 256)).1 0) ∨
        (recv_payload payload e.buffer (BUFFER_SIZE % 256)).1 3 ≠ 0) →
      check_recovery_bytes (program_step BUFFER_SIZE e ⟨some payload, now⟩).1.flash = true →
      check_recovery_bytes e.flash = true) := by
  obtain ⟨h1, h2⟩ := program_loop_marker BUFFER_SIZE polls _
    (marker_inv_init flash buffer page_buffer start hclear) happ
  refine ⟨h1, h2, ?_⟩
  intro e payload now hkind hset
  simp only [program_step] at hset
  generalize hg : ({ e with
      buffer := (recv_payload payload e.buffer (BUFFER_SIZE % 256)).1
      last_update_time := now } : Engine) = e0 at hset
  have hb : e0.buffer = (recv_payload payload e.buffer (BUFFER_SIZE % 256)).1 := by rw [← hg]
  have hfl : e0.flash = e.flash := by rw [← hg]
  rw [← hb] at hkind
  rcases process_record_cases e0 with ⟨_, hr⟩ | ⟨hv, ht, hr⟩ | ⟨_, _, hr⟩ | ⟨_, _, _, hr⟩
  · rw [hr] at hset; rw [← hfl]; exact hset
  · rcases hkind with hk | hk
    · exact absurd hv hk
    · exact absurd ht hk
  · rw [hr, check_eof_case] at hset; cases hset
  · rw [hr] at hset; rw [← hfl]; exact hset

/-- C7 at a concrete input: on erased flash, one data record at address 0 carrying the byte
0xAA is processed; the marker is set afterwards. -/
theorem C7_marker_tracks_data_records_witness :
    check_recovery_bytes (program_flash 64 (fun _ => 0xFF) (fun _ => 0) (fun _ => 0) 0
      [⟨some (mk_record 0 0 [0xAA]), 1⟩]).1.flash = true :=
  ((C7_marker_tracks_data_records 64 (fun _ => 0xFF) (fun _ => 0) (fun _ => 0) 0
    [⟨some (mk_record 0 0 [0xAA]), 1⟩] (by decide) (by
      have hlog : (program_flash 64 (fun _ => 0xFF) (fun _ => 0) (fun _ => 0) 0
          [⟨some (mk_record 0 0 [0xAA]), 1⟩]).1.log =
          [Event.set_recovery_state true, Event.data_record 0 1, Event.send PRG] := by decide
      intro a n hmem
      rw [hlog] at hmem
      simp at hmem
      rw [hmem.1]
      decide)).1).mpr ⟨⟨0, 1, by decide⟩, by decide⟩

/-- C8: for every engine state and every received frame whose checksum byte, as the engine
reads it from its buffer, differs from the checksum the engine computes, one iteration of the
loop of `program_flash` sends exactly the reply `CHK`, leaves the flash (and with it the
recovery marker), the page buffer, the current page address, the dirty flag and the
image-modified flag unchanged, and does not end the session. -/
theorem C8_bad_checksum_changes_nothing (BUFFER_SIZE : Nat) (e : Engine) (payload : List Nat)
    (now : Nat)
    (hbad : record_calc (recv_payload payload e.buffer (BUFFER_SIZE % 256)).1 ≠
      (recv_payload payload e.buffer (BUFFER_SIZE % 256)).1
        (4 + (recv_payload payload e.buffer (BUFFER_SIZE % 256)).1 0)) :
    (program_step BUFFER_SIZE e ⟨some payload, now⟩).2 = none ∧
    (program_step BUFFER_SIZE e ⟨some payload, now⟩).1.log = e.log ++ [Event.send CHK] ∧
    CHK = [0x43, 0x48, 0x4B] ∧
    (program_step BUFFER_SIZE e ⟨some payload, now⟩).1.flash = e.flash ∧
    (program_step BUFFER_SIZE e ⟨some payload, now⟩).1.page_buffer = e.page_buffer ∧
    (program_step BUFFER_SIZE e ⟨some payload, now⟩).1.current_page_addr = e.current_page_addr ∧
    (program_step BUFFER_SIZE e ⟨some payload, now⟩).1.page_dirty = e.page_dirty ∧
    (program_step BUFFER_SIZE e ⟨some payload, now⟩).1.is_flash_modified = e.is_flash_modified := by
  simp only [program_step, process_record, hbad, if_false]
  simp [CHK]

/-- C8 at a concrete input: a fresh engine over erased flash receives the one-byte data record
`01 00 00 00 AA` with the wrong checksum byte `00`. -/
theorem C8_bad_checksum_changes_nothing_witness :
    (program_step 64 (program_init (fun _ => 0xFF) (fun _ => 0) (fun _ => 0) 0)
      ⟨some [1, 0, 0, 0, 0xAA, 0], 5⟩).1.log = [Event.send CHK] :=
  (C8_bad_checksum_changes_nothing 64 (program_init (fun _ => 0xFF) (fun _ => 0) (fun _ => 0) 0)
    [1, 0, 0, 0, 0xAA, 0] 5 (by decide)).2.1

set_option maxRecDepth 1000000 in
/-- C9 fails on the code.  A checksum-valid data record addressed to 0x7000, the first byte
of the bootloader section, followed by an end-of-file record: `program_flash` calls
`write_page` with the page address 0x7000, which is not below `BOOT_START`, and the byte at
0x7000 is replaced by the record's byte; both records are acknowledged and the session
succeeds. -/
theorem C9_bootloader_page_written :
    BOOT_START = 0x7000 ∧
    (page_writes (program_flash 64 (fun _ => 0xFF) (fun _ => 0) (fun _ => 0) 0
      [⟨some (mk_record 0x7000 0 [0xAA]), 1⟩, ⟨some (mk_record 0 1 []), 2⟩]).1.log).map Prod.fst
      = [0x7000] ∧
    (program_flash 64 (fun _ => 0xFF) (fun _ => 0) (fun _ => 0) 0
      [⟨some (mk_record 0x7000 0 [0xAA]), 1⟩, ⟨some (mk_record 0 1 []), 2⟩]).1.flash 0x7000
      = 0xAA ∧
    replies (program_flash 64 (fun _ => 0xFF) (fun _ => 0) (fun _ => 0) 0
      [⟨some (mk_record 0x7000 0 [0xAA]), 1⟩, ⟨some (mk_record 0 1 []), 2⟩]).1.log
      = [PRG, DNE] ∧
    (program_flash 64 (fun _ => 0xFF) (fun _ => 0) (fun _ => 0) 0
      [⟨some (mk_record 0x7000 0 [0xAA]), 1⟩, ⟨some (mk_record 0 1 []), 2⟩]).2 = some true := by
  decide

/-- C10: for every byte sequence `bs`, with `c` the CRC of `bs` from `0xFFFF` and `t = ~c`,
the CRC from `0xFFFF` of `bs` followed by the trailer bytes `t & 0xFF`, `t >> 8` (the order in
which `Radio::send` emits them) is the constant `0xF0B8` that `validate_rx_buffer` expects. -/
theorem C10_crc_residual (bs : List Nat) :
    crc_of 0xFFFF (bs ++ [not16 (crc_of 0xFFFF bs) &&& 0xFF, not16 (crc_of 0xFFFF bs) >>> 8])
      = 0xF0B8 :=
  crc_of_trailer bs

/-- C11 (wire frame layout): for every radio object `t`, built by the constructor and then
taken through any calls of its member functions and of the interrupt handler, and every payload
of length `len <= 60`: `send` returns true; `tx_buffer[0..8)` is the preamble; with
`B = [len+7, to, from, id, flags] ++ data ++ [c & 0xFF, c >> 8]`, `c` the complement of the CRC
from `0xFFFF` of the first `len + 5` bytes of `B`, the buffer holds at `8 + 2k` and `8 + 2k + 1`
the symbols of the high and the low nibble of `B[k]`, for every `k < len + 7`;
`tx_buffer_len = 2 len + 22`; and the mode is `Tx` with `tx_index`, `tx_bit` and `tx_sample`
zero (the busy wait at the head of `send` ends, so `set_mode_tx` does reset them). -/
theorem C11_wire_frame_layout (u : Radio) (ops : List RadioOp) (data : Bytes) (len : Nat)
    (t : Radio) (B : List Nat) (c : Nat)
    (hu : u.tx_buffer_len < 256) (ht : t = Radio_after u ops) (hlen : len ≤ 60)
    (hc : c = not16 (crc_of 0xFFFF (B.take (len + 5))))
    (hB : B = [len + 7, t.tx_header_to, t.tx_header_from, t.tx_header_id, t.tx_header_flags]
      ++ (List.range len).map data ++ [c &&& 0xFF, c >>> 8]) :
    (send t data len).1 = true ∧
    Bytes.toList (send t data len).2.tx_buffer 8
      = [0x2A, 0x2A, 0x2A, 0x2A, 0x2A, 0x2A, 0x38, 0x2C] ∧
    (∀ k, k < len + 7 →
      (send t data len).2.tx_buffer (8 + 2 * k) = symbols.getD (B.getD k 0 >>> 4) 0 ∧
      (send t data len).2.tx_buffer (8 + 2 * k + 1) = symbols.getD (B.getD k 0 &&& 0x0F) 0) ∧
    (send t data len).2.tx_buffer_len = 2 * len + 22 ∧
    (send t data len).2.mode = RadioMode.Tx ∧
    (send t data len).2.tx_index = 0 ∧
    (send t data len).2.tx_bit = 0 ∧
    (send t data len).2.tx_sample = 0 := by
  have hready : tx_ready t := by rw [ht]; exact Radio_after_tx_ready u ops hu
  obtain ⟨s1, s2, s3⟩ := send_ok t data len hlen
  obtain ⟨m1, m2, m3, m4⟩ := send_mode t data len hlen hready.2
  have hbody : tx_body t data len
      = [len + 7, t.tx_header_to, t.tx_header_from, t.tx_header_id, t.tx_header_flags]
        ++ (List.range len).map data := by
    simp only [tx_body, RADIO_HEADER_LEN]
    rw [show (len + 3 + 4) % 256 = len + 7 by omega]
  have htake : B.take (len + 5) = tx_body t data len := by
    rw [hB, hbody]
    apply List.take_left'
    simp
  have hBF : B = tx_frame t data len := by
    rw [hB, hc, htake, tx_frame, hbody]
  refine ⟨s1, ?_, ?_, s3, m1, m2, m3, m4⟩
  · have hp : ∀ j, j < 8 → (send t data len).2.tx_buffer j = preamble.getD j 0 := by
      intro j hj
      rw [(send_keeps_preamble t data len).1 j hj]
      exact hready.1 j hj
    simp only [Bytes.toList, List.range, List.range.loop, List.map]
    rw [hp 0 (by omega), hp 1 (by omega), hp 2 (by omega), hp 3 (by omega), hp 4 (by omega),
      hp 5 (by omega), hp 6 (by omega), hp 7 (by omega)]
    rfl
  · intro k hk
    obtain ⟨g1, g2⟩ := put_list_get (tx_frame t data len) t.tx_buffer 0 k
      (by rw [tx_frame_length]; exact hk)
    rw [s2, hBF]
    simp only [PREAMBLE_LEN, Nat.add_zero] at g1 g2
    exact ⟨g1, g2⟩

/-- C11 at a concrete input: a radio built over zeroed memory, after `init` and one call of
`available`, sends 1, 2, 3; the frame bytes are 10, FF, FF, 0, 0, 1, 2, 3, D8, 8D and the
symbol at `tx_buffer[8]` is that of the high nibble of the count. -/
theorem C11_wire_frame_layout_witness :
    (send (Radio_after radio_zero [RadioOp.init, RadioOp.available]) (ofList [1, 2, 3]) 3).1
      = true ∧
    Bytes.toList (send (Radio_after radio_zero [RadioOp.init, RadioOp.available])
      (ofList [1, 2, 3]) 3).2.tx_buffer 8 = [0x2A, 0x2A, 0x2A, 0x2A, 0x2A, 0x2A, 0x38, 0x2C] ∧
    (send (Radio_after radio_zero [RadioOp.init, RadioOp.available])
      (ofList [1, 2, 3]) 3).2.tx_buffer_len = 28 :=
  have h := C11_wire_frame_layout radio_zero [RadioOp.init, RadioOp.available]
    (ofList [1, 2, 3]) 3 (Radio_after radio_zero [RadioOp.init, RadioOp.available])
    [10, 0xFF, 0xFF, 0, 0, 1, 2, 3, 0xD8, 0x8D] 36312
    (by decide) rfl (by decide) (by decide) (by decide)
  ⟨h.1, h.2.1, h.2.2.2.1⟩

/-- C12 (send length limit): `send` returns false exactly when `len > 60`, the value of
`RADIO_MAX_MESSAGE_LEN`, and then it leaves the object as it was.  For `len <= 60` the
assignments to `tx_buffer` are at the indices 8 to `2 len + 21`, all below the capacity
`MAX_PAYLOAD_LEN * 2 + PREAMBLE_LEN = 142`; no other cell of `tx_buffer` differs afterwards,
whatever the buffer held; `tx_buffer_len = 2 len + 22` is stored without truncation; and the
busy wait at the head of `send` ends (within the ticks the model allows it) whenever the length
of the previous transmission is a byte. -/
theorem C12_send_length_limit (t : Radio) (data : Bytes) (len : Nat) :
    RADIO_MAX_MESSAGE_LEN = 60 ∧
    ((send t data len).1 = false ↔ len > 60) ∧
    (len > 60 → (send t data len).2 = t) ∧
    (len ≤ 60 →
      (∀ j ∈ send_writes len,
        8 ≤ j ∧ j ≤ 2 * len + 21 ∧ j < MAX_PAYLOAD_LEN * 2 + PREAMBLE_LEN) ∧
      (∀ j, j ∉ send_writes len → (send t data len).2.tx_buffer j = t.tx_buffer j) ∧
      (∀ j, j < 8 ∨ 2 * len + 21 < j → (send t data len).2.tx_buffer j = t.tx_buffer j) ∧
      (send t data len).2.tx_buffer_len = 2 * len + 22 ∧
      2 * len + 22 < 256 ∧
      (t.tx_buffer_len < 256 → (wait_packet_send t).mode ≠ RadioMode.Tx)) := by
  have h60 : RADIO_MAX_MESSAGE_LEN = 60 := rfl
  have hout : len ≤ 60 → ∀ j, j < 8 ∨ 2 * len + 21 < j →
      (send t data len).2.tx_buffer j = t.tx_buffer j := by
    intro hlen j hj
    rw [(send_ok t data len hlen).2.1]
    rcases hj with hj | hj
    · exact put_list_below _ _ _ _ (by simp only [PREAMBLE_LEN]; omega)
    · exact put_list_above _ _ _ _ (by rw [tx_frame_length]; simp only [PREAMBLE_LEN]; omega)
  refine ⟨h60, ?_, ?_, ?_⟩
  · by_cases hlen : len ≤ 60
    · rw [(send_ok t data len hlen).1]
      simp only [Bool.true_eq_false, false_iff]
      omega
    · have hgt : len > RADIO_MAX_MESSAGE_LEN := by rw [h60]; omega
      simp only [send, if_pos hgt, true_iff]
      omega
  · intro hgt
    have hgt2 : len > RADIO_MAX_MESSAGE_LEN := by rw [h60]; exact hgt
    simp only [send, if_pos hgt2]
  · intro hlen
    refine ⟨fun j hj => ?_, fun j hj => ?_, hout hlen, (send_ok t data len hlen).2.2, by omega,
      wait_packet_send_done t⟩
    · rw [mem_send_writes] at hj
      simp only [MAX_PAYLOAD_LEN, PREAMBLE_LEN]
      omega
    · rw [mem_send_writes] at hj
      exact hout hlen j (by omega)

/-- C12 at concrete inputs: a fresh radio refuses 61 bytes and stays as it was; for 60 bytes
the last index written is 141 and the length stored is 142. -/
theorem C12_send_length_limit_witness :
    (send radio_new (fun _ => 0) 61).2 = radio_new ∧
    (send radio_new (fun _ => 0) 60).2.tx_buffer_len = 142 ∧
    (∀ j ∈ send_writes 60, j ≤ 141) :=
  have h := C12_send_length_limit radio_new (fun _ => 0)
  ⟨(h 61).2.2.1 (by decide), ((h 60).2.2.2 (by decide)).2.2.2.1,
    fun j hj => (((h 60).2.2.2 (by decide)).1 j hj).2.1⟩

/-- C13 fails on the code.  A freshly built radio (every receive member zero) receives the
frame of the payload 1, 2, 3 addressed to the wildcard; `available` reports it and the caller
does not fetch it with `recv`.  The receiver then sees the start symbol and the frame
9, 5, FF, 0, 0, 9, 8, C4, 77, which has a right CRC and is addressed to node 5, while this node
has address 0xFF.  The mode is not `Tx` and the frame is pending, yet `available` returns true
and `recv` returns true and hands out the payload 9, 8 of the frame for node 5: the branch of
`validate_rx_buffer` that finds the address not matching leaves `rx_buffer_valid` as it was. -/
theorem C13_foreign_frame_reported :
    (available (rx_bytes radio_listening (tx_frame radio_new (ofList [1, 2, 3]) 3))).1 = true ∧
    tx_frame { radio_new with tx_header_to := 5 } (ofList [9, 8]) 2
      = [9, 5, 0xFF, 0, 0, 9, 8, 0xC4, 0x77] ∧
    (rx_bytes (receive_timer_frame
      { (available (rx_bytes radio_listening (tx_frame radio_new (ofList [1, 2, 3]) 3))).2 with
        rx_bits := RADIO_START_SYMBOL }) [9, 5, 0xFF, 0, 0, 9, 8, 0xC4, 0x77]).mode
      ≠ RadioMode.Tx ∧
    (rx_bytes (receive_timer_frame
      { (available (rx_bytes radio_listening (tx_frame radio_new (ofList [1, 2, 3]) 3))).2 with
        rx_bits := RADIO_START_SYMBOL }) [9, 5, 0xFF, 0, 0, 9, 8, 0xC4, 0x77]).rx_buffer_full
      = true ∧
    (rx_bytes (receive_timer_frame
      { (available (rx_bytes radio_listening (tx_frame radio_new (ofList [1, 2, 3]) 3))).2 with
        rx_bits := RADIO_START_SYMBOL }) [9, 5, 0xFF, 0, 0, 9, 8, 0xC4, 0x77]).address = 0xFF ∧
    (rx_bytes (receive_timer_frame
      { (available (rx_bytes radio_listening (tx_frame radio_new (ofList [1, 2, 3]) 3))).2 with
        rx_bits := RADIO_START_SYMBOL }) [9, 5, 0xFF, 0, 0, 9, 8, 0xC4, 0x77]).rx_buffer 1 = 5 ∧
    (available (rx_bytes (receive_timer_frame
      { (available (rx_bytes radio_listening (tx_frame radio_new (ofList [1, 2, 3]) 3))).2 with
        rx_bits := RADIO_START_SYMBOL }) [9, 5, 0xFF, 0, 0, 9, 8, 0xC4, 0x77])).1 = true ∧
    (recv (rx_bytes (receive_timer_frame
      { (available (rx_bytes radio_listening (tx_frame radio_new (ofList [1, 2, 3]) 3))).2 with
        rx_bits := RADIO_START_SYMBOL }) [9, 5, 0xFF, 0, 0, 9, 8, 0xC4, 0x77])
      (fun _ => 0) 60).1 = true ∧
    (recv (rx_bytes (receive_timer_frame
      { (available (rx_bytes radio_listening (tx_frame radio_new (ofList [1, 2, 3]) 3))).2 with
        rx_bits := RADIO_START_SYMBOL }) [9, 5, 0xFF, 0, 0, 9, 8, 0xC4, 0x77])
      (fun _ => 0) 60).2.2.1 = 2 ∧
    Bytes.toList (recv (rx_bytes (receive_timer_frame
      { (available (rx_bytes radio_listening (tx_frame radio_new (ofList [1, 2, 3]) 3))).2 with
        rx_bits := RADIO_START_SYMBOL }) [9, 5, 0xFF, 0, 0, 9, 8, 0xC4, 0x77])
      (fun _ => 0) 60).2.1 2 = [9, 8] := by
  decide

/-- C14 (recv semantics): with the mode not `Tx` and a valid frame of `n` bytes pending,
`7 <= n <= 67` (either already validated, `rx_buffer_valid` true, or still to be validated by
this call: buffer full, CRC right, addressed to this node or the wildcard), `recv` called with
capacity `c` returns true, sets `*len` to `min c (n - 7)`, copies `rx_buffer[5 + i]` to
`buffer[i]` for `i < *len`, leaves the rest of `buffer` as it was, and clears `rx_buffer_valid`,
so that a `recv` right after it returns false and changes neither its buffer nor its length.
With no valid and no full frame pending, `recv` returns false and leaves `buffer` and `*len`
unchanged. -/
theorem C14_recv_semantics (r : Radio) (buffer : Bytes) (c n : Nat)
    (hmode : r.mode ≠ RadioMode.Tx) (hn : r.rx_buffer_len = n) (h7 : 7 ≤ n) (h67 : n ≤ 67)
    (hpending : (r.rx_buffer_full = false ∧ r.rx_buffer_valid = true) ∨
      (r.rx_buffer_full = true ∧ crc_of 0xFFFF (Bytes.toList r.rx_buffer n) = 0xF0B8 ∧
        (r.rx_buffer 1 = r.address ∨ r.rx_buffer 1 = DEFAULT_ADDRESS))) :
    (recv r buffer c).1 = true ∧
    (recv r buffer c).2.2.1 = min c (n - 7) ∧
    (∀ i, i < min c (n - 7) → (recv r buffer c).2.1 i = r.rx_buffer (5 + i)) ∧
    (∀ i, min c (n - 7) ≤ i → (recv r buffer c).2.1 i = buffer i) ∧
    (recv r buffer c).2.2.2.rx_buffer_valid = false ∧
    (∀ (buffer2 : Bytes) (c2 : Nat),
      (recv (recv r buffer c).2.2.2 buffer2 c2).1 = false ∧
      (recv (recv r buffer c).2.2.2 buffer2 c2).2.1 = buffer2 ∧
      (recv (recv r buffer c).2.2.2 buffer2 c2).2.2.1 = c2) ∧
    (∀ (r2 : Radio) (buffer2 : Bytes) (c2 : Nat),
      r2.rx_buffer_full = false → r2.rx_buffer_valid = false →
      (recv r2 buffer2 c2).1 = false ∧ (recv r2 buffer2 c2).2.1 = buffer2 ∧
      (recv r2 buffer2 c2).2.2.1 = c2) := by
  have hav : (available r).1 = true := by
    rcases hpending with ⟨hf, hv⟩ | ⟨hf, hcrc, haddr⟩
    · obtain ⟨m1, m2, m3, m4, m5⟩ := set_mode_rx_keeps r
      simp [available, hmode, m1, hf, m4, hv]
    · rw [available_full_iff r hmode hf, hn]
      exact ⟨hcrc, by tauto⟩
  obtain ⟨a1, a2, a3, a4, a5⟩ := available_state r hmode
  obtain ⟨r1, r2, r3⟩ := recv_of_available r buffer c hav
  have hst := recv_state r buffer c hav
  have hml : ((available r).2.rx_buffer_len + 256 - RADIO_HEADER_LEN - 3) % 256 = n - 7 := by
    rw [a2, hn]; simp only [RADIO_HEADER_LEN]; omega
  rw [hml] at r2 r3
  have hnone : ∀ (r2 : Radio) (buffer2 : Bytes) (c2 : Nat),
      r2.rx_buffer_full = false → r2.rx_buffer_valid = false →
      (recv r2 buffer2 c2).1 = false ∧ (recv r2 buffer2 c2).2.1 = buffer2 ∧
      (recv r2 buffer2 c2).2.2.1 = c2 :=
    fun r2 buffer2 c2 hf hv => recv_false r2 buffer2 c2 (available_false_of_idle r2 hf hv)
  refine ⟨r1, r2, ?_, ?_, by rw [hst], ?_, hnone⟩
  · intro i hi
    rw [r3 i, if_pos hi, a1]
    simp only [RADIO_HEADER_LEN]
  · intro i hi
    rw [r3 i, if_neg (by omega)]
  · intro buffer2 c2
    apply hnone
    · rw [hst]; exact a3
    · rw [hst]

/-- C14 at a concrete input: the frame of the payload 1, 2, 3 (10 bytes) is pending, still to be
validated; `recv` with capacity 2 returns true with length 2 and the bytes 1, 2, and a second
`recv` returns false. -/
theorem C14_recv_semantics_witness :
    (recv (rx_bytes radio_listening (tx_frame radio_new (ofList [1, 2, 3]) 3))
      (fun _ => 0) 2).1 = true ∧
    (recv (rx_bytes radio_listening (tx_frame radio_new (ofList [1, 2, 3]) 3))
      (fun _ => 0) 2).2.2.1 = min 2 (10 - 7) ∧
    (recv (recv (rx_bytes radio_listening (tx_frame radio_new (ofList [1, 2, 3]) 3))
      (fun _ => 0) 2).2.2.2 (fun _ => 0) 2).1 = false :=
  have h := C14_recv_semantics (rx_bytes radio_listening (tx_frame radio_new (ofList [1, 2, 3]) 3))
    (fun _ => 0) 2 10 (by decide) (by decide) (by decide) (by decide)
    (Or.inr ⟨by decide, by decide, Or.inr (by decide)⟩)
  ⟨h.1, h.2.1, (h.2.2.2.2.2.1 (fun _ => 0) 2).1⟩

/-- C15 (record checksum rule): let `record` be the buffer of `program_flash` after `recv`
delivered a frame, its checksum byte `record[4 + data_len]` being a byte.  The checksum the
engine computes is `(256 - (data_len + addr_hi + addr_lo + record_type + sum of data) mod 256)
mod 256`; the checksum byte equals it exactly when all `5 + data_len` record bytes sum to 0
modulo 256; the engine replies `CHK` exactly when the checksum byte differs from it; when it
matches the iteration is the dispatch on `record_type` (data case, end-of-file case, or `PRG`
alone), and when it differs the iteration only logs the reply `CHK`: no record is applied. -/
theorem C15_record_checksum_rule (BUFFER_SIZE : Nat) (e : Engine) (payload : List Nat)
    (now : Nat) (record : Bytes)
    (hrec : record = (recv_payload payload e.buffer (BUFFER_SIZE % 256)).1)
    (hbyte : record (4 + record 0) < 256) :
    record_sum record = record 0 + record 1 + record 2 + record 3 +
      ((List.range (record 0)).map (fun i => record (4 + i))).sum ∧
    record_calc record = (256 - record_sum record % 256) % 256 ∧
    (record (4 + record 0) = (256 - record_sum record % 256) % 256 ↔
      (record_sum record + record (4 + record 0)) % 256 = 0) ∧
    (replies (program_step BUFFER_SIZE e ⟨some payload, now⟩).1.log = replies e.log ++ [CHK] ↔
      record (4 + record 0) ≠ (256 - record_sum record % 256) % 256) ∧
    (record (4 + record 0) = (256 - record_sum record % 256) % 256 →
      program_step BUFFER_SIZE e ⟨some payload, now⟩ =
        if record 3 = 0x00 then
          (data_case (take_frame BUFFER_SIZE e payload now)
            (((record 1 <<< 8) ||| record 2) % 65536) (record 0) (fun i => record (4 + i)), none)
        else if record 3 = 0x01 then (eof_case (take_frame BUFFER_SIZE e payload now), some true)
        else ({ take_frame BUFFER_SIZE e payload now with
          log := e.log ++ [Event.send PRG] }, none)) ∧
    (record (4 + record 0) ≠ (256 - record_sum record % 256) % 256 →
      program_step BUFFER_SIZE e ⟨some payload, now⟩ =
        ({ take_frame BUFFER_SIZE e payload now with log := e.log ++ [Event.send CHK] }, none)) := by
  have hcalc : record_calc record = (256 - record_sum record % 256) % 256 := record_calc_eq record
  have hstep : program_step BUFFER_SIZE e ⟨some payload, now⟩
      = process_record (take_frame BUFFER_SIZE e payload now) :=
    program_step_some BUFFER_SIZE e ⟨some payload, now⟩ payload rfl
  have hbuf : (take_frame BUFFER_SIZE e payload now).buffer = record := hrec.symm
  have hrep := process_record_replies (take_frame BUFFER_SIZE e payload now)
  rw [hbuf] at hrep
  have hlog : replies (take_frame BUFFER_SIZE e payload now).log = replies e.log := rfl
  rw [hlog] at hrep
  refine ⟨rfl, hcalc, by omega, ?_, ?_, ?_⟩
  · rw [hstep, hrep]
    unfold reply_of spec_checksum
    constructor
    · intro h
      have h2 := List.append_cancel_left h
      intro hv
      rw [if_neg (not_not.mpr hv)] at h2
      split_ifs at h2 <;> exact absurd h2 (by decide)
    · intro hv
      rw [if_pos hv]
  · intro hv
    rw [hstep]
    rcases process_record_cases (take_frame BUFFER_SIZE e payload now) with
      ⟨hc, hr⟩ | ⟨hc, ht, hr⟩ | ⟨hc, ht, hr⟩ | ⟨hc, ht0, ht1, hr⟩
    · rw [hbuf, hcalc] at hc; exact absurd hv.symm hc
    · rw [hbuf] at ht hr
      rw [hr, if_pos ht]
    · rw [hbuf] at ht
      rw [hr, if_neg (by rw [ht]; decide), if_pos ht]
    · rw [hbuf] at ht0 ht1
      rw [hr, if_neg ht0, if_neg ht1]
      rfl
  · intro hv
    rw [hstep]
    rcases process_record_cases (take_frame BUFFER_SIZE e payload now) with
      ⟨hc, hr⟩ | ⟨hc, ht, hr⟩ | ⟨hc, ht, hr⟩ | ⟨hc, ht0, ht1, hr⟩
    · rw [hr]; rfl
    · rw [hbuf, hcalc] at hc; exact absurd hc.symm hv
    · rw [hbuf, hcalc] at hc; exact absurd hc.symm hv
    · rw [hbuf, hcalc] at hc; exact absurd hc.symm hv

/-- C15 at a concrete input: a fresh engine over erased flash receives the data record
01 00 00 00 AA 55, whose six bytes sum to 256; the reply is not `CHK`. -/
theorem C15_record_checksum_rule_witness :
    (record_sum (recv_payload [1, 0, 0, 0, 0xAA, 0x55] (fun _ => 0) (64 % 256)).1 + 0x55) % 256
      = 0 ∧
    ¬ replies (program_step 64 (program_init (fun _ => 0xFF) (fun _ => 0) (fun _ => 0) 0)
      ⟨some [1, 0, 0, 0, 0xAA, 0x55], 5⟩).1.log = [] ++ [CHK] := by
  have h := C15_record_checksum_rule 64 (program_init (fun _ => 0xFF) (fun _ => 0) (fun _ => 0) 0)
    [1, 0, 0, 0, 0xAA, 0x55] 5 (recv_payload [1, 0, 0, 0, 0xAA, 0x55] (fun _ => 0) (64 % 256)).1
    rfl (by decide)
  have hv : (recv_payload [1, 0, 0, 0, 0xAA, 0x55] (fun _ => 0) (64 % 256)).1
      (4 + (recv_payload [1, 0, 0, 0, 0xAA, 0x55] (fun _ => 0) (64 % 256)).1 0) =
      (256 - record_sum (recv_payload [1, 0, 0, 0, 0xAA, 0x55] (fun _ => 0) (64 % 256)).1 % 256)
        % 256 := by decide
  exact ⟨h.2.2.1.1 hv, fun hc => h.2.2.2.1.1 hc hv⟩

set_option maxRecDepth 1000000 in
/-- C16 fails on the code.  One session on erased flash: a data record for address 0x7F80, in
the page that holds the recovery marker, then a data record for address 0, then no frame until
the clock has passed the timeout.  The first record sets the marker.  The second makes the
engine leave page 0x7F80 and flush it with `write_page`, which erases the marker; the call is
still running.  The exit by timeout returns false without a reply after data records were
applied, and the marker is clear. -/
theorem C16_marker_cleared_before_timeout :
    BOOT_START ≤ 0x7F80 ∧
    mk_record 0x7F80 0 [0xAA] = [1, 0x7F, 0x80, 0, 0xAA, 0x56] ∧
    check_recovery_bytes (program_flash 64 (fun _ => 0xFF) (fun _ => 0) (fun _ => 0) 0
      [⟨some (mk_record 0x7F80 0 [0xAA]), 1⟩]).1.flash = true ∧
    (program_flash 64 (fun _ => 0xFF) (fun _ => 0) (fun _ => 0) 0
      [⟨some (mk_record 0x7F80 0 [0xAA]), 1⟩, ⟨some (mk_record 0 0 [0xBB]), 2⟩]).2 = none ∧
    check_recovery_bytes (program_flash 64 (fun _ => 0xFF) (fun _ => 0) (fun _ => 0) 0
      [⟨some (mk_record 0x7F80 0 [0xAA]), 1⟩, ⟨some (mk_record 0 0 [0xBB]), 2⟩]).1.flash
      = false ∧
    (program_flash 64 (fun _ => 0xFF) (fun _ => 0) (fun _ => 0) 0
      [⟨some (mk_record 0x7F80 0 [0xAA]), 1⟩, ⟨some (mk_record 0 0 [0xBB]), 2⟩,
        ⟨none, 10003⟩]).2 = some false ∧
    replies (program_flash 64 (fun _ => 0xFF) (fun _ => 0) (fun _ => 0) 0
      [⟨some (mk_record 0x7F80 0 [0xAA]), 1⟩, ⟨some (mk_record 0 0 [0xBB]), 2⟩,
        ⟨none, 10003⟩]).1.log = [PRG, PRG] ∧
    Event.data_record 0x7F80 1 ∈ (program_flash 64 (fun _ => 0xFF) (fun _ => 0) (fun _ => 0) 0
      [⟨some (mk_record 0x7F80 0 [0xAA]), 1⟩, ⟨some (mk_record 0 0 [0xBB]), 2⟩,
        ⟨none, 10003⟩]).1.log ∧
    (program_flash 64 (fun _ => 0xFF) (fun _ => 0) (fun _ => 0) 0
      [⟨some (mk_record 0x7F80 0 [0xAA]), 1⟩, ⟨some (mk_record 0 0 [0xBB]), 2⟩,
        ⟨none, 10003⟩]).1.is_flash_modified = true ∧
    (page_writes (program_flash 64 (fun _ => 0xFF) (fun _ => 0) (fun _ => 0) 0
      [⟨some (mk_record 0x7F80 0 [0xAA]), 1⟩, ⟨some (mk_record 0 0 [0xBB]), 2⟩,
        ⟨none, 10003⟩]).1.log).map Prod.fst = [0x7F80] ∧
    check_recovery_bytes (program_flash 64 (fun _ => 0xFF) (fun _ => 0) (fun _ => 0) 0
      [⟨some (mk_record 0x7F80 0 [0xAA]), 1⟩, ⟨some (mk_record 0 0 [0xBB]), 2⟩,
        ⟨none, 10003⟩]).1.flash = false := by
  decide!

/-- C17 (reply protocol and session result): take a call of `program_flash` that is still
running after the iterations `pre`, `e0` its state then, and one more iteration `p`; `r` is the
call after it.  An iteration without a frame sends no reply.  For a frame, with `record` the
buffer after `recv`, the iteration sends exactly one reply, of three bytes, which depends on
the record alone: `CHK` if the checksum byte is not the prescribed one, else `DNE` for
`record_type` 0x01, else `PRG`.  The call returns true in iteration `p` exactly when the frame
is a checksum-valid record of type 0x01; at that return the marker is clear and a dirty page
buffer has been written to its page by `write_page` before the marker was cleared.  For a valid
data record at address 0 followed by a valid end-of-file record the replies are `PRG`, `DNE`
and the call returns true. -/
theorem C17_reply_protocol (BUFFER_SIZE : Nat) (flash buffer page_buffer : Bytes) (start : Nat)
    (pre : List Poll) (p : Poll) (e0 : Engine) (r : Engine × Option Bool)
    (hrun : (program_flash BUFFER_SIZE flash buffer page_buffer start pre).2 = none)
    (he0 : e0 = (program_flash BUFFER_SIZE flash buffer page_buffer start pre).1)
    (hr : r = program_flash BUFFER_SIZE flash buffer page_buffer start (pre ++ [p])) :
    (PRG = [0x50, 0x52, 0x47] ∧ DNE = [0x44, 0x4E, 0x45] ∧ CHK = [0x43, 0x48, 0x4B]) ∧
    (p.frame = none → replies r.1.log = replies e0.log) ∧
    (∀ (payload : List Nat) (record : Bytes), p.frame = some payload →
      record = (recv_payload payload e0.buffer (BUFFER_SIZE % 256)).1 →
      replies r.1.log = replies e0.log ++
        [if record (4 + record 0) ≠ spec_checksum record then CHK
         else if record 3 = 0x01 then DNE
         else PRG] ∧
      (r.2 = some true ↔ record (4 + record 0) = spec_checksum record ∧ record 3 = 0x01)) ∧
    (r.2 = some true → ∃ payload, p.frame = some payload) ∧
    (r.2 = some true →
      check_recovery_bytes r.1.flash = false ∧
      (e0.page_dirty = true →
        e0.current_page_addr ≠ 0xFFFF ∧
        page_writes r.1.log = page_writes e0.log ++
          [(e0.current_page_addr, Bytes.toList e0.page_buffer SPM_PAGESIZE)] ∧
        r.1.flash = set_recovery_state
          (write_page e0.flash e0.current_page_addr e0.page_buffer SPM_PAGESIZE) false) ∧
      (e0.page_dirty = false →
        page_writes r.1.log = page_writes e0.log ∧
        r.1.flash = set_recovery_state e0.flash false)) ∧
    (∀ (d d2 : List Nat) (a2 now1 now2 : Nat),
      5 + d.length ≤ BUFFER_SIZE % 256 → 5 + d2.length ≤ BUFFER_SIZE % 256 →
      replies (program_flash BUFFER_SIZE flash buffer page_buffer start
        [⟨some (mk_record 0 0 d), now1⟩, ⟨some (mk_record a2 1 d2), now2⟩]).1.log = [PRG, DNE] ∧
      (program_flash BUFFER_SIZE flash buffer page_buffer start
        [⟨some (mk_record 0 0 d), now1⟩, ⟨some (mk_record a2 1 d2), now2⟩]).2 = some true) := by
  have hses : session_inv flash (program_flash BUFFER_SIZE flash buffer page_buffer start pre).1 :=
    (program_loop_session BUFFER_SIZE flash pre _
      (session_inv_init flash buffer page_buffer start) hrun).1
  rw [← he0] at hses
  have hstep : r = program_step BUFFER_SIZE e0 p := by
    rw [hr, he0]
    unfold program_flash at hrun ⊢
    rw [program_loop_append BUFFER_SIZE pre [p] _ hrun, program_loop_single]
  have hframe : r.2 = some true → ∃ payload, p.frame = some payload := by
    intro ht
    cases hf : p.frame with
    | some payload => exact ⟨payload, rfl⟩
    | none =>
      rw [hstep, program_step_none BUFFER_SIZE e0 p hf] at ht
      split_ifs at ht <;> cases ht
  refine ⟨⟨rfl, rfl, rfl⟩, ?_, ?_, hframe, ?_, ?_⟩
  · intro hf
    rw [hstep, program_step_none BUFFER_SIZE e0 p hf]
    split_ifs
    · rfl
    · simp [replies_append, replies]
    · rfl
  · intro payload record hf hrec
    rw [hstep, program_step_some BUFFER_SIZE e0 p payload hf]
    have hbuf : (take_frame BUFFER_SIZE e0 payload p.now).buffer = record := hrec.symm
    have hrep := process_record_replies (take_frame BUFFER_SIZE e0 payload p.now)
    have hres := (process_record_result (take_frame BUFFER_SIZE e0 payload p.now)).1
    rw [hbuf] at hrep hres
    exact ⟨hrep, hres⟩
  · intro ht
    obtain ⟨payload, hf⟩ := hframe ht
    rw [hstep, program_step_some BUFFER_SIZE e0 p payload hf] at ht ⊢
    have he : (process_record (take_frame BUFFER_SIZE e0 payload p.now)).1
        = eof_case (take_frame BUFFER_SIZE e0 payload p.now) := by
      apply process_record_true
      rw [← ht]
    rw [he]
    obtain ⟨f1, f2, f3⟩ := eof_case_flush (take_frame BUFFER_SIZE e0 payload p.now)
    exact ⟨f1, fun hd => ⟨hses.2.2 hd, f2 hd (hses.2.2 hd)⟩, f3⟩
  · intro d d2 a2 now1 now2 hfit hfit2
    exact session_prg_dne BUFFER_SIZE flash buffer page_buffer start 0 a2 d d2 now1 now2 hfit hfit2

/-- C17 at a concrete input: a fresh session on erased flash receives the end-of-file record
00 00 00 01 FF; the reply is `DNE` and the call returns true. -/
theorem C17_reply_protocol_witness :
    replies (program_flash 64 (fun _ => 0xFF) (fun _ => 0) (fun _ => 0) 0
      ([] ++ [⟨some [0, 0, 0, 1, 0xFF], 3⟩])).1.log = [] ++ [DNE] ∧
    (program_flash 64 (fun _ => 0xFF) (fun _ => 0) (fun _ => 0) 0
      ([] ++ [⟨some [0, 0, 0, 1, 0xFF], 3⟩])).2 = some true :=
  have h := (C17_reply_protocol 64 (fun _ => 0xFF) (fun _ => 0) (fun _ => 0) 0
    [] ⟨some [0, 0, 0, 1, 0xFF], 3⟩ _ _ rfl rfl rfl).2.2.1 [0, 0, 0, 1, 0xFF] _ rfl rfl
  ⟨h.1, h.2.2 (by decide)⟩

/-- C18 (recovery marker read-modify-write): for every flash content whose marker page holds
bytes, `set_recovery_state(b)` leaves every flash byte outside `FLASHEND-3 .. FLASHEND` as it
was, the other 124 bytes of the marker's page included; afterwards `check_recovery_bytes()`
returns `b`, the four marker bytes being EF BE AD DE (0xDEADBEEF, low byte first) after
`set_recovery_state(true)` and FF FF FF FF after `set_recovery_state(false)`. -/
theorem C18_recovery_marker_rmw (flash : Bytes) (b : Bool)
    (hbytes : ∀ a, a / 128 = 255 → flash a < 256) :
    (FLASHEND = 0x7FFF ∧ RECOVERY_BYTES_ADDR = FLASHEND - 3 ∧ RECOVERY_BYTES = 0xDEADBEEF) ∧
    (∀ a, a < FLASHEND - 3 ∨ FLASHEND < a → set_recovery_state flash b a = flash a) ∧
    check_recovery_bytes (set_recovery_state flash b) = b ∧
    [set_recovery_state flash b (FLASHEND - 3), set_recovery_state flash b (FLASHEND - 2),
      set_recovery_state flash b (FLASHEND - 1), set_recovery_state flash b FLASHEND]
      = (if b then [0xEF, 0xBE, 0xAD, 0xDE] else [0xFF, 0xFF, 0xFF, 0xFF]) :=
  ⟨⟨rfl, rfl, rfl⟩, set_recovery_state_frame flash b hbytes, check_set_recovery_state flash b,
    set_recovery_state_marker flash b⟩

/-- C18 at a concrete input: on a flash holding 0x12 everywhere, setting the marker leaves the
byte before the marker at 0x12 and makes `check_recovery_bytes` true. -/
theorem C18_recovery_marker_rmw_witness :
    set_recovery_state (fun _ => 0x12) true 0x7FFB = 0x12 ∧
    check_recovery_bytes (set_recovery_state (fun _ => 0x12) true) = true :=
  have h := C18_recovery_marker_rmw (fun _ => 0x12) true (fun _ _ => (by decide : (0x12 : Nat) < 256))
  ⟨h.2.1 0x7FFB (Or.inl (by decide)), h.2.2.1⟩

set_option maxRecDepth 100000 in
/-- C19 (symbol decode inverts symbol encode): `convert_to_4bit_symbols(symbols[n]) = n` for
every nibble `n`; the 16 table entries are 6-bit values and pairwise distinct; every byte `b`
is recovered as `(convert(symbols[b >> 4]) << 4) | convert(symbols[b & 0x0F])`; and
`convert_to_4bit_symbols(s) = 0` for every 6-bit value `s` that is not in the table. -/
theorem C19_symbol_decode_inverts_encode :
    (∀ n, n < 16 → convert_to_4bit_symbols (SYMBOL n) = n) ∧
    symbols.length = 16 ∧
    (∀ n, n < 16 → SYMBOL n < 64) ∧
    symbols.Nodup ∧
    (∀ b, b < 256 →
      (convert_to_4bit_symbols (SYMBOL (b >>> 4)) <<< 4) |||
        convert_to_4bit_symbols (SYMBOL (b &&& 0x0F)) = b) ∧
    (∀ s, s < 64 → s ∉ symbols → convert_to_4bit_symbols s = 0) := by
  refine ⟨by decide, rfl, by decide, by decide, by decide, by decide⟩

/-- C19 at a concrete input: the symbol 0x25 of the nibble 9 decodes to 9. -/
theorem C19_symbol_decode_inverts_encode_witness : convert_to_4bit_symbols (SYMBOL 9) = 9 :=
  C19_symbol_decode_inverts_encode.1 9 (by decide)

/-- C20 (integrity check on a buffer of fixed length): let the receive buffer hold `n` bytes
for which the loop of `validate_rx_buffer` computes the residual 0xF0B8, and let byte `i < n`
be replaced by another byte `v`, the length unchanged, the frame pending.  Then the CRC the
loop computes is not 0xF0B8, `validate_rx_buffer` sets `rx_buffer_valid` to false whatever it
was, and `available` and `recv` return false, `recv` leaving the caller's buffer and length as
they were. -/
theorem C20_integrity_check (r : Radio) (n i v : Nat) (hn : r.rx_buffer_len = n)
    (hfull : r.rx_buffer_full = true)
    (hbytes : ∀ k, k < n → r.rx_buffer k < 256)
    (hcrc : (List.range n).foldl (fun crc k => updateCRC crc (r.rx_buffer k)) 0xFFFF = 0xF0B8)
    (hi : i < n) (hv : v < 256) (hne : v ≠ r.rx_buffer i) :
    (List.range n).foldl (fun crc k => updateCRC crc (store r.rx_buffer i v k)) 0xFFFF
      ≠ 0xF0B8 ∧
    (validate_rx_buffer { r with rx_buffer := store r.rx_buffer i v }).rx_buffer_valid = false ∧
    (available { r with rx_buffer := store r.rx_buffer i v }).1 = false ∧
    (∀ (buffer : Bytes) (c : Nat),
      (recv { r with rx_buffer := store r.rx_buffer i v } buffer c).1 = false ∧
      (recv { r with rx_buffer := store r.rx_buffer i v } buffer c).2.1 = buffer ∧
      (recv { r with rx_buffer := store r.rx_buffer i v } buffer c).2.2.1 = c) := by
  rw [validate_crc] at hcrc
  have hbad := crc_of_store_ne r.rx_buffer n i v hi hbytes hv hne hcrc
  have hfold : (List.range n).foldl (fun crc k => updateCRC crc (store r.rx_buffer i v k)) 0xFFFF
      ≠ 0xF0B8 := by
    rw [validate_crc]; exact hbad
  have hav : (available { r with rx_buffer := store r.rx_buffer i v }).1 = false := by
    by_cases hmode : r.mode = RadioMode.Tx
    · simp [available, hmode]
    · exact (available_full { r with rx_buffer := store r.rx_buffer i v } hmode hfull).1
        (by rw [hn]; exact hbad)
  refine ⟨hfold, ?_, hav, fun buffer c => recv_false _ buffer c hav⟩
  simp only [validate_rx_buffer, hn]
  rw [if_pos hfold]

/-- C20 at a concrete input: in the pending frame of the payload 1, 2, 3 the payload byte at
index 6 (2) is replaced by 7; `available` returns false. -/
theorem C20_integrity_check_witness :
    (available { rx_bytes radio_listening (tx_frame radio_new (ofList [1, 2, 3]) 3) with
      rx_buffer := store (rx_bytes radio_listening
        (tx_frame radio_new (ofList [1, 2, 3]) 3)).rx_buffer 6 7 }).1 = false :=
  (C20_integrity_check (rx_bytes radio_listening (tx_frame radio_new (ofList [1, 2, 3]) 3))
    10 6 7 (by decide) (by decide) (by decide) (by decide) (by decide) (by decide)
    (by decide)).2.2.1

/-- C21 (transmit bit timing and completion): let `t0` be the state `set_mode_tx` leaves, entered
from a mode other than `Tx`, with `tx_buffer_len = N <= 142`, and number the calls of
`transmit_timer` from 0 (`transmit_timer^[j] t0` is the state before call `j`).  The mode is
`Tx` before every call up to call `48 N`, and call `48 N` sets it to `Idle`, so the transmission
takes exactly `48 N + 1` calls.  A call whose number is not a multiple of 8 does not write the
output pin; call `8 k` with `k < 6 N` writes bit `k mod 6` of `tx_buffer[k div 6]` to it, the
pin then holds this bit over the next 8 states, and call `48 N` writes it low.  The pin after a
call is what the call wrote, or what it was; the buffer is not changed. -/
theorem C21_transmit_timing (r t0 : Radio) (N : Nat) (hmode : r.mode ≠ RadioMode.Tx)
    (hN : r.tx_buffer_len = N) (h142 : N ≤ 142) (ht0 : t0 = set_mode_tx r) :
    (t0.mode = RadioMode.Tx ∧ t0.tx_index = 0 ∧ t0.tx_bit = 0 ∧ t0.tx_sample = 0) ∧
    (∀ j, j ≤ 48 * N → (transmit_timer^[j] t0).mode = RadioMode.Tx) ∧
    (transmit_timer^[48 * N + 1] t0).mode = RadioMode.Idle ∧
    (∀ j, j ≤ 48 * N → j % 8 ≠ 0 → transmit_pin_write (transmit_timer^[j] t0) = none) ∧
    (∀ k, k < 6 * N → transmit_pin_write (transmit_timer^[8 * k] t0)
      = some ((r.tx_buffer (k / 6)).testBit (k % 6))) ∧
    transmit_pin_write (transmit_timer^[48 * N] t0) = some false ∧
    (∀ k m, k < 6 * N → 1 ≤ m → m ≤ 8 →
      (transmit_timer^[8 * k + m] t0).tx_pin = (r.tx_buffer (k / 6)).testBit (k % 6)) ∧
    (∀ q : Radio, (transmit_timer q).tx_pin = (transmit_pin_write q).getD q.tx_pin) ∧
    (∀ j, j ≤ 48 * N + 1 → (transmit_timer^[j] t0).tx_buffer = r.tx_buffer) := by
  have hlen : t0.tx_buffer_len = N := by rw [ht0, set_mode_tx_len, hN]
  have hbuf : t0.tx_buffer = r.tx_buffer := by rw [ht0]; exact (set_mode_tx_keeps r).1
  have h0 : tx_at t0 0 t0 := by rw [ht0]; exact tx_at_zero r hmode
  have hat : ∀ j, j ≤ 48 * N → tx_at t0 j (transmit_timer^[j] t0) := by
    intro j hj
    exact tx_at_iterate t0 (by omega) h0 j (by rw [hlen]; exact hj)
  have hend := tx_at_end t0 (transmit_timer^[48 * N] t0) (by rw [hlen]; exact hat _ (le_refl _))
  have hstart : t0.mode = RadioMode.Tx ∧ t0.tx_index = 0 ∧ t0.tx_bit = 0 ∧ t0.tx_sample = 0 := by
    rw [ht0]; simp [set_mode_tx, hmode]
  refine ⟨hstart, fun j hj => (hat j hj).1, ?_, ?_, ?_, hend.2.1, ?_, transmit_timer_pin, ?_⟩
  · rw [Function.iterate_succ_apply']
    exact hend.1
  · intro j hj h8
    by_cases hlt : j < 48 * N
    · exact (tx_at_step t0 _ j (hat j hj) (by omega) (by rw [hlen]; exact hlt)).2.1 h8
    · omega
  · intro k hk
    have := (tx_at_step t0 _ (8 * k) (hat _ (by omega)) (by omega) (by rw [hlen]; omega)).2.2
      (by omega)
    rw [this, hbuf]
    have h1 : 8 * k / 8 = k := by omega
    rw [h1]
  · intro k m hk h1 h8
    obtain ⟨_, _, _, _, _, _, hp⟩ := hat (8 * k + m) (by omega)
    rw [hp (by omega), hbuf]
    have h2 : (8 * k + m - 1) / 8 = k := by omega
    rw [h2]
  · intro j hj
    by_cases hle : j ≤ 48 * N
    · rw [(hat j hle).2.1, hbuf]
    · have hj2 : j = 48 * N + 1 := by omega
      rw [hj2, Function.iterate_succ_apply', (transmit_timer_keeps _).2.2.2.2,
        (hat _ (le_refl _)).2.1, hbuf]

/-- C21 at a concrete input: a fresh radio whose buffer holds two symbols is put in mode `Tx`;
after 96 calls the mode is still `Tx`, after 97 it is `Idle`. -/
theorem C21_transmit_timing_witness :
    (transmit_timer^[48 * 2] (set_mode_tx { radio_new with tx_buffer_len := 2 })).mode
      = RadioMode.Tx ∧
    (transmit_timer^[48 * 2 + 1] (set_mode_tx { radio_new with tx_buffer_len := 2 })).mode
      = RadioMode.Idle :=
  have h := C21_transmit_timing { radio_new with tx_buffer_len := 2 }
    (set_mode_tx { radio_new with tx_buffer_len := 2 }) 2 (by decide) rfl (by decide) rfl
  ⟨h.2.1 (48 * 2) (le_refl _), h.2.2.1⟩

/-- C22 (start-of-frame pattern and bit order): `receive_timer` updates its window by
`shift_window` (shift right by one, the new bit entering at bit 11) and then runs the frame
assembly.  The 48 bits of the preamble, each symbol bit 0 first as `transmit_timer` sends it,
shifted into an empty window give `RADIO_START_SYMBOL = 0xB38 = (0x2C << 6) | 0x38` after the
48th bit and after no shorter prefix; an inactive receiver with an empty window is still
inactive after every shorter prefix and starts a frame at the 48th bit.  For any two 6-bit
symbols `s1`, `s2` shifted in afterwards (into any 12-bit window) the window is
`s1 | (s2 << 6)`, it decodes to `(convert(s1) << 4) | convert(s2)`, and the receiver that has
just started a frame hands this byte to the frame assembly. -/
theorem C22_start_symbol_and_bit_order (r : Radio) (hact : r.rx_active = false)
    (hw : r.rx_bits = 0) :
    (RADIO_START_SYMBOL = 0xB38 ∧ 0xB38 = (0x2C <<< 6) ||| 0x38 ∧ preamble_bits.length = 48) ∧
    (∀ (q : Radio) (rx_sample : Bool),
      receive_timer q rx_sample =
        if (receive_timer_pll q rx_sample).rx_pll_ramp < RADIO_RX_RAMP_LEN then
          receive_timer_pll q rx_sample
        else
          receive_timer_frame { receive_timer_pll q rx_sample with
            rx_bits := shift_window (receive_timer_pll q rx_sample).rx_bits
              (decide ((receive_timer_pll q rx_sample).rx_integrator ≥ 5))
            rx_pll_ramp := (receive_timer_pll q rx_sample).rx_pll_ramp - RADIO_RX_RAMP_LEN
            rx_integrator := 0 }) ∧
    (∀ n, n ≤ 48 → (window_after 0 (preamble_bits.take n) = RADIO_START_SYMBOL ↔ n = 48)) ∧
    (∀ n, n < 48 → (receive_bits r (preamble_bits.take n)).rx_active = false) ∧
    receive_bits r preamble_bits = { r with
      rx_bits := RADIO_START_SYMBOL, rx_active := true, rx_bit_count := 0, rx_buffer_len := 0 } ∧
    (∀ w s1 s2, w < 4096 → s1 < 64 → s2 < 64 →
      window_after w (symbol_bits s1 ++ symbol_bits s2) = s1 ||| (s2 <<< 6) ∧
      decode_window (s1 ||| (s2 <<< 6)) =
        (convert_to_4bit_symbols s1 <<< 4) ||| convert_to_4bit_symbols s2) ∧
    (∀ s1 s2, s1 < 64 → s2 < 64 →
      receive_bits (receive_bits r preamble_bits) (symbol_bits s1 ++ symbol_bits s2) =
        receive_byte { r with
          rx_bits := s1 ||| (s2 <<< 6), rx_active := true, rx_bit_count := 12, rx_buffer_len := 0 }
          ((convert_to_4bit_symbols s1 <<< 4) ||| convert_to_4bit_symbols s2)) := by
  obtain ⟨hpre, h48⟩ := receive_bits_preamble r hact hw
  refine ⟨⟨rfl, by decide, by decide⟩, receive_timer_eq, preamble_window, ?_, h48, ?_, ?_⟩
  · intro n hn
    rw [hpre n hn]
    exact hact
  · intro w s1 s2 hw2 h1 h2
    exact ⟨window_after_symbols w s1 s2 hw2 h1 h2, decode_window_pair s1 s2 h1 h2⟩
  · intro s1 s2 h1 h2
    rw [h48]
    exact receive_bits_pair _ s1 s2 rfl rfl
      (show RADIO_START_SYMBOL < 4096 by decide) h1 h2

/-- C22 at a concrete input: a fresh radio in mode `Rx` given the preamble bits starts a frame,
its window showing 0xB38. -/
theorem C22_start_symbol_and_bit_order_witness :
    (receive_bits { radio_new with mode := RadioMode.Rx } preamble_bits).rx_active = true ∧
    (receive_bits { radio_new with mode := RadioMode.Rx } preamble_bits).rx_bits = 0xB38 :=
  have h := (C22_start_symbol_and_bit_order { radio_new with mode := RadioMode.Rx } rfl
    rfl).2.2.2.2.1
  ⟨by rw [h], by rw [h]; rfl⟩

/-- C23 (`updateCRC` is the bitwise CCITT CRC step): for every 16-bit `crc` and every 8-bit
`data`, `updateCRC(crc, data)` is the value obtained from `x := crc XOR data` by 8 times
`x := (x >> 1) XOR 0x8408` if the low bit of `x` is 1, else `x := x >> 1`. -/
theorem C23_updateCRC_is_bitwise_ccitt (crc data : Nat) (hc : crc < 65536) (hd : data < 256) :
    updateCRC crc data = crc_bitwise crc data ∧
    crc_bitwise crc data = crc_bit_step^[8] (crc ^^^ data) ∧
    (∀ x, crc_bit_step x = if x % 2 = 1 then (x >>> 1) ^^^ 0x8408 else x >>> 1) :=
  ⟨updateCRC_eq_bitwise crc data hc hd, rfl, fun _ => rfl⟩

/-- C23 at a concrete input: from the CRC 0xFFFF the byte 0x31 gives 0x2F8D either way. -/
theorem C23_updateCRC_is_bitwise_ccitt_witness :
    updateCRC 0xFFFF 0x31 = crc_bitwise 0xFFFF 0x31 ∧ crc_bitwise 0xFFFF 0x31 = 0x2F8D :=
  ⟨(C23_updateCRC_is_bitwise_ccitt 0xFFFF 0x31 (by decide) (by decide)).1, by decide⟩

set_option maxRecDepth 1000000 in
/-- C25 fails on the code.  One session on erased flash with `BUFFER_SIZE = 64`: the data
record 2, 0, 7F, 0, AA, BB, 1A (two bytes for address 0x007F, so 0xBB falls behind the end of
page 0 and is not copied), then a frame with the three-byte payload 2, 10, 6F, then the
end-of-file record.  The three bytes replace the head of the receive buffer, the rest of the
first record stays, and the sum is the same: the engine takes a valid record of two bytes for
address 0x106F and programs the byte discarded before at 0x1070.  With 0xCC in place of 0xBB in
the first record the flash holds 0xCC there.  The byte is not carried over to the following
page: the flash at 0x0080 stays erased. -/
theorem C25_discarded_byte_reaches_flash :
    mk_record 0x7F 0 [0xAA, 0xBB] = [2, 0, 0x7F, 0, 0xAA, 0xBB, 0x1A] ∧
    mk_record 0x7F 0 [0xAA, 0xCC] = [2, 0, 0x7F, 0, 0xAA, 0xCC, 0x09] ∧
    (program_flash 64 (fun _ => 0xFF) (fun _ => 0) (fun _ => 0) 0
      [⟨some (mk_record 0x7F 0 [0xAA, 0xBB]), 1⟩]).1.page_buffer 127 = 0xAA ∧
    (∀ j, j < 127 → (program_flash 64 (fun _ => 0xFF) (fun _ => 0) (fun _ => 0) 0
      [⟨some (mk_record 0x7F 0 [0xAA, 0xBB]), 1⟩]).1.page_buffer j = 0xFF) ∧
    replies (program_flash 64 (fun _ => 0xFF) (fun _ => 0) (fun _ => 0) 0
      [⟨some (mk_record 0x7F 0 [0xAA, 0xBB]), 1⟩, ⟨some [2, 0x10, 0x6F], 2⟩,
        ⟨some (mk_record 0 1 []), 3⟩]).1.log = [PRG, PRG, DNE] ∧
    (program_flash 64 (fun _ => 0xFF) (fun _ => 0) (fun _ => 0) 0
      [⟨some (mk_record 0x7F 0 [0xAA, 0xBB]), 1⟩, ⟨some [2, 0x10, 0x6F], 2⟩,
        ⟨some (mk_record 0 1 []), 3⟩]).2 = some true ∧
    (page_writes (program_flash 64 (fun _ => 0xFF) (fun _ => 0) (fun _ => 0) 0
      [⟨some (mk_record 0x7F 0 [0xAA, 0xBB]), 1⟩, ⟨some [2, 0x10, 0x6F], 2⟩,
        ⟨some (mk_record 0 1 []), 3⟩]).1.log).map Prod.fst = [0, 0x1000] ∧
    (program_flash 64 (fun _ => 0xFF) (fun _ => 0) (fun _ => 0) 0
      [⟨some (mk_record 0x7F 0 [0xAA, 0xBB]), 1⟩, ⟨some [2, 0x10, 0x6F], 2⟩,
        ⟨some (mk_record 0 1 []), 3⟩]).1.flash 0x007F = 0xAA ∧
    (program_flash 64 (fun _ => 0xFF) (fun _ => 0) (fun _ => 0) 0
      [⟨some (mk_record 0x7F 0 [0xAA, 0xBB]), 1⟩, ⟨some [2, 0x10, 0x6F], 2⟩,
        ⟨some (mk_record 0 1 []), 3⟩]).1.flash 0x0080 = 0xFF ∧
    (program_flash 64 (fun _ => 0xFF) (fun _ => 0) (fun _ => 0) 0
      [⟨some (mk_record 0x7F 0 [0xAA, 0xBB]), 1⟩, ⟨some [2, 0x10, 0x6F], 2⟩,
        ⟨some (mk_record 0 1 []), 3⟩]).1.flash 0x1070 = 0xBB ∧
    (program_flash 64 (fun _ => 0xFF) (fun _ => 0) (fun _ => 0) 0
      [⟨some (mk_record 0x7F 0 [0xAA, 0xCC]), 1⟩, ⟨some [2, 0x10, 0x6F], 2⟩,
        ⟨some (mk_record 0 1 []), 3⟩]).1.flash 0x1070 = 0xCC := by
  decide!

set_option maxRecDepth 1000000 in
/-- C26 fails on the code.  `program_flash` passes `&len` to `recv` and never reads it: the
record is parsed from `buffer[0 .. 4 + data_len]` whatever the number of bytes the frame
delivered.  First, for every `BUFFER_SIZE`, two engines on entry to the loop that differ only
in the last byte the receive buffer holds (1, 0, 0, 0, AA, 55 against 1, 0, 0, 0, AA, 0) and
receive the same frame, one with an empty payload: the first replies "PRG", sets the recovery
marker and copies 0xAA into the page buffer of page 0, the second replies "CHK" and changes
neither.  Second, with `BUFFER_SIZE = 64`, the session of the data record 1, 0, 0, 0, AA, 55,
then the three-byte frame 1, 10, F0, then the end-of-file record: the three-byte frame is
validated against the type, data byte and checksum left over from the first record and
acknowledged with "PRG", and the session ends with the left-over byte 0xAA programmed at
0x10F0. -/
theorem C26_short_frame_uses_stale_bytes (BUFFER_SIZE : Nat) :
    replies (program_step BUFFER_SIZE (program_init (fun _ => 0xFF)
      (ofList [1, 0, 0, 0, 0xAA, 0x55]) (fun _ => 0) 0) ⟨some [], 5⟩).1.log = [PRG] ∧
    replies (program_step BUFFER_SIZE (program_init (fun _ => 0xFF)
      (ofList [1, 0, 0, 0, 0xAA, 0]) (fun _ => 0) 0) ⟨some [], 5⟩).1.log = [CHK] ∧
    (program_step BUFFER_SIZE (program_init (fun _ => 0xFF)
      (ofList [1, 0, 0, 0, 0xAA, 0x55]) (fun _ => 0) 0) ⟨some [], 5⟩).1.is_flash_modified
      = true ∧
    (program_step BUFFER_SIZE (program_init (fun _ => 0xFF)
      (ofList [1, 0, 0, 0, 0xAA, 0]) (fun _ => 0) 0) ⟨some [], 5⟩).1.is_flash_modified
      = false ∧
    (program_step BUFFER_SIZE (program_init (fun _ => 0xFF)
      (ofList [1, 0, 0, 0, 0xAA, 0x55]) (fun _ => 0) 0) ⟨some [], 5⟩).1.current_page_addr
      = 0 ∧
    (program_step BUFFER_SIZE (program_init (fun _ => 0xFF)
      (ofList [1, 0, 0, 0, 0xAA, 0]) (fun _ => 0) 0) ⟨some [], 5⟩).1.current_page_addr
      = 0xFFFF ∧
    (program_step BUFFER_SIZE (program_init (fun _ => 0xFF)
      (ofList [1, 0, 0, 0, 0xAA, 0x55]) (fun _ => 0) 0) ⟨some [], 5⟩).1.page_buffer 0
      = 0xAA ∧
    (program_step BUFFER_SIZE (program_init (fun _ => 0xFF)
      (ofList [1, 0, 0, 0, 0xAA, 0]) (fun _ => 0) 0) ⟨some [], 5⟩).1.page_buffer 0 = 0 ∧
    (program_step BUFFER_SIZE (program_init (fun _ => 0xFF)
      (ofList [1, 0, 0, 0, 0xAA, 0x55]) (fun _ => 0) 0) ⟨some [], 5⟩).1.flash
        RECOVERY_BYTES_ADDR = RECOVERY_BYTES &&& 0xFF ∧
    (program_step BUFFER_SIZE (program_init (fun _ => 0xFF)
      (ofList [1, 0, 0, 0, 0xAA, 0]) (fun _ => 0) 0) ⟨some [], 5⟩).1.flash
        RECOVERY_BYTES_ADDR = 0xFF ∧
    mk_record 0 0 [0xAA] = [1, 0, 0, 0, 0xAA, 0x55] ∧
    replies (program_flash 64 (fun _ => 0xFF) (fun _ => 0) (fun _ => 0) 0
      [⟨some (mk_record 0 0 [0xAA]), 1⟩, ⟨some [1, 0x10, 0xF0], 2⟩,
        ⟨some (mk_record 0 1 []), 3⟩]).1.log = [PRG, PRG, DNE] ∧
    (page_writes (program_flash 64 (fun _ => 0xFF) (fun _ => 0) (fun _ => 0) 0
      [⟨some (mk_record 0 0 [0xAA]), 1⟩, ⟨some [1, 0x10, 0xF0], 2⟩,
        ⟨some (mk_record 0 1 []), 3⟩]).1.log).map Prod.fst = [0, 0x1080] ∧
    (program_flash 64 (fun _ => 0xFF) (fun _ => 0) (fun _ => 0) 0
      [⟨some (mk_record 0 0 [0xAA]), 1⟩, ⟨some [1, 0x10, 0xF0], 2⟩,
        ⟨some (mk_record 0 1 []), 3⟩]).1.flash 0x10F0 = 0xAA ∧
    (program_flash 64 (fun _ => 0xFF) (fun _ => 0) (fun _ => 0) 0
      [⟨some (mk_record 0 0 [0xAA]), 1⟩, ⟨some [1, 0x10, 0xF0], 2⟩,
        ⟨some (mk_record 0 1 []), 3⟩]).2 = some true := by
  simp only [program_step_empty_frame]
  decide

end Waveboot
